import Mathlib

/-!
# threadpool-linux-C: a shallow embedding of `threadpool.cpp`

The embedding follows the source (`threadpool.h`, `threadpool.cpp`):

* `job` and `threadpool` are the two C structs.  Pointers are natural numbers
  and `0` is `NULL`.  The job nodes live in a `Heap`, a finite map from
  addresses to `job` values; `malloc` hands out an address that is not allocated
  (or `0` when it fails) and `free` removes the address.
* `int` fields are integers kept in the 32-bit range: `++`, `--` and `- 1` are
  taken in two's complement and wrap through `wrapInt`.  With a positive
  capacity the counter stays in `[0, queue_max_num]` and nothing ever wraps.
* Every function that takes the pool mutex is cut at its blocking points
  (`pthread_cond_wait`, `pthread_join`).  The code between two blocking points
  runs with the mutex held, so it is one atomic step of the thread; a step is an
  executable function that returns the new pool, the new heap, where the thread
  stands afterwards, and the list of library calls it made (`Event`).
* `Step` interleaves the steps of any number of producers, the workers created
  by `threadpool_init`, and the callers of `threadpool_destory`.  A thread that
  sits in `pthread_cond_wait` may resume at any time (POSIX allows spurious
  wakeups); the `notified` flag only records whether a signal or broadcast
  reached it.
* `pthread_create` is taken to succeed (the source ignores its result), and a
  callback is opaque: calling it is the event `Event.call` and has no effect on
  the pool.
* `threadpool_destory` frees the pool right before it returns `0`: from then on
  no thread has a step, and a further call reads freed memory
  (`threadpool_destory_at`).
* `LStep` is `Step` with the thread that makes the step and its library calls,
  and `Traced` records, along a run, the library calls of each worker.  What a
  worker has of the mutex is read off these calls (`mutex_state`): `lock` takes
  it, `unlock` releases it, `pthread_cond_wait` releases it while the thread is
  blocked and has it again when the thread goes on.
-/

namespace ThreadPool

/-! ## Data model -/

/-- Node of the job queue (`struct job`): callback, its argument, next node. -/
structure job where
  callback_function : Nat
  arg : Nat
  next : Nat
  deriving DecidableEq, Repr

/-- Fields of `struct threadpool` that hold data (the mutex, the three
condition variables and the thread table are part of `System`). -/
structure threadpool where
  thread_num : Int
  queue_max_num : Int
  head : Nat
  tail : Nat
  queue_cur_num : Int
  queue_close : Int
  pool_close : Int
  deriving DecidableEq, Repr

/-- Names of the three condition variables of `struct threadpool`. -/
inductive Cond where
  | queue_empty
  | queue_not_empty
  | queue_not_full
  deriving DecidableEq, Repr

/-- Library calls made by the code, in program order. -/
inductive Event where
  | lock
  | unlock
  | wait (c : Cond)
  | signal (c : Cond)
  | broadcast (c : Cond)
  | malloc (p : Nat)
  | free (p : Nat)
  | call (callback_function arg : Nat)
  | create (i : Nat)
  | join (i : Nat)
  | thread_exit
  | mutex_destroy
  | cond_destroy (c : Cond)
  | free_pthreads
  | free_pool
  deriving DecidableEq, Repr

/-- Least value of a C `int`. -/
def INT_MIN : Int := -2147483648

/-- Greatest value of a C `int`. -/
def INT_MAX : Int := 2147483647

/-- Result of 32-bit two's complement arithmetic: the representative of `x`
modulo `2^32` in `[INT_MIN, INT_MAX]`. -/
def wrapInt (x : Int) : Int := (x + 2147483648) % 4294967296 - 2147483648

/-- Allocated job nodes, by address. -/
abbrev Heap := List (Nat × job)

/-- Read the node at address `p` (`none` when `p` is not allocated). -/
def load : Heap → Nat → Option job
  | [], _ => none
  | (a, j) :: m, p => if a = p then some j else load m p

/-- Write the node at address `p`, allocating it when it is new. -/
def store : Heap → Nat → job → Heap
  | [], p, j => [(p, j)]
  | (a, x) :: m, p, j => if a = p then (a, j) :: m else (a, x) :: store m p j

/-- Remove address `p` (`free`). -/
def release : Heap → Nat → Heap
  | [], _ => []
  | (a, x) :: m, p => if a = p then release m p else (a, x) :: release m p

/-- Callback and argument stored in the node at `p` (`(0, 0)` when `p` is not
allocated). -/
def payload (heap : Heap) (p : Nat) : Nat × Nat :=
  match load heap p with
  | some nd => (nd.callback_function, nd.arg)
  | none => (0, 0)

/-- Addresses met from `p` by following `next` until `NULL`, at most `fuel`
nodes. -/
def walk (heap : Heap) : Nat → Nat → List Nat
  | _, 0 => []
  | p, fuel + 1 =>
    if p = 0 then []
    else
      match load heap p with
      | none => []
      | some nd => p :: walk heap nd.next fuel

/-- Addresses of the queued nodes: those reachable from `head`. -/
def queue_nodes (pool : threadpool) (heap : Heap) : List Nat :=
  walk heap pool.head heap.length

/-- Queued jobs as (callback, argument) pairs, from `head` on. -/
def queue_jobs (pool : threadpool) (heap : Heap) : List (Nat × Nat) :=
  (queue_nodes pool heap).map (payload heap)

/-! ## `threadpool_init` -/

/-- Outcomes of the allocations and initialisations made by `threadpool_init`:
`true` for a successful `malloc`, the return code for the `pthread_*_init`
calls (`0` is success). -/
structure InitEnv where
  pool_alloc : Bool
  mutex_init : Int
  queue_empty_init : Int
  queue_not_empty_init : Int
  queue_not_full_init : Int
  pthreads_alloc : Bool
  deriving DecidableEq, Repr

/-- Embedding of `threadpool_init`: the pool it returns (`none` is `NULL`) and,
in the events, one `create i` per worker thread started. -/
def threadpool_init (thread_num queue_max_num : Int) (env : InitEnv) :
    Option threadpool × List Event :=
  if env.pool_alloc = false then (none, [])
  else
    let pool : threadpool :=
      { thread_num := thread_num, queue_max_num := queue_max_num,
        queue_cur_num := 0, head := 0, tail := 0,
        queue_close := 0, pool_close := 0 }
    if env.mutex_init ≠ 0 then (none, [])
    else if env.queue_empty_init ≠ 0 then (none, [])
    else if env.queue_not_empty_init ≠ 0 then (none, [])
    else if env.queue_not_full_init ≠ 0 then (none, [])
    else if env.pthreads_alloc = false then (none, [])
    else
      (some pool, (List.range pool.thread_num.toNat).map Event.create)

/-! ## `threadpool_add_job` -/

/-- Where a call of `threadpool_add_job` stands after a step: blocked in
`pthread_cond_wait(queue_not_full)`, or returned with a code. -/
inductive AddOutcome where
  | blocked
  | returned (rc : Int)
  deriving DecidableEq, Repr

/-- Embedding of `threadpool_add_job` from the `while` test (line 78) on, with
the mutex held: up to the `pthread_cond_wait` or to the `return`.  `pjob` is what
`malloc` returns if it is called.  `none` is a dereference of an unallocated
`tail`. -/
def threadpool_add_job_loop (pool : threadpool) (heap : Heap)
    (callback_function arg pjob : Nat) :
    Option (AddOutcome × threadpool × Heap × List Event) :=
  if pool.queue_cur_num = pool.queue_max_num ∧
      ¬ (pool.queue_close ≠ 0 ∨ pool.pool_close ≠ 0) then
    some (AddOutcome.blocked, pool, heap, [Event.wait Cond.queue_not_full])
  else if pool.queue_close ≠ 0 ∨ pool.pool_close ≠ 0 then
    some (AddOutcome.returned (-1), pool, heap, [Event.unlock])
  else if pjob = 0 then
    some (AddOutcome.returned (-1), pool, heap, [Event.malloc 0, Event.unlock])
  else
    let heap1 := store heap pjob
      { callback_function := callback_function, arg := arg, next := 0 }
    if pool.head = 0 then
      some (AddOutcome.returned 0,
        { pool with head := pjob, tail := pjob,
                    queue_cur_num := wrapInt (pool.queue_cur_num + 1) },
        heap1,
        [Event.malloc pjob, Event.broadcast Cond.queue_not_empty, Event.unlock])
    else
      match load heap1 pool.tail with
      | none => none
      | some t =>
        some (AddOutcome.returned 0,
          { pool with tail := pjob,
                      queue_cur_num := wrapInt (pool.queue_cur_num + 1) },
          store heap1 pool.tail { t with next := pjob },
          [Event.malloc pjob, Event.unlock])

/-- Embedding of `threadpool_add_job` from its entry: the two assertions on the
arguments (`none` when one fails), `pthread_mutex_lock`, then the loop. -/
def threadpool_add_job (pool : threadpool) (heap : Heap)
    (callback_function arg pjob : Nat) :
    Option (AddOutcome × threadpool × Heap × List Event) :=
  if callback_function = 0 ∨ arg = 0 then none
  else
    match threadpool_add_job_loop pool heap callback_function arg pjob with
    | none => none
    | some (o, pool1, heap1, evs) => some (o, pool1, heap1, Event.lock :: evs)

/-! ## `threadpool_function` -/

/-- Where a worker stands after a step of `threadpool_function`: blocked in
`pthread_cond_wait(queue_not_empty)`, exited, or about to run the job it took. -/
inductive WorkerOutcome where
  | blocked
  | exited
  | dequeued (pjob : Nat)
  deriving DecidableEq, Repr

/-- Embedding of `threadpool_function` from the inner `while` test (line 137)
on, with the mutex held: up to the `pthread_cond_wait`, the `pthread_exit`, or
the `pthread_mutex_unlock` that follows the dequeue.  `none` is a dereference of
an unallocated `head`. -/
def threadpool_function_loop (pool : threadpool) (heap : Heap) :
    Option (WorkerOutcome × threadpool × List Event) :=
  if pool.queue_cur_num = 0 ∧ ¬ pool.pool_close ≠ 0 then
    some (WorkerOutcome.blocked, pool, [Event.wait Cond.queue_not_empty])
  else if pool.pool_close ≠ 0 then
    some (WorkerOutcome.exited, pool, [Event.unlock, Event.thread_exit])
  else
    let cur := wrapInt (pool.queue_cur_num - 1)
    let pjob := pool.head
    let notfull : List Event :=
      if cur = wrapInt (pool.queue_max_num - 1) then
        [Event.broadcast Cond.queue_not_full]
      else []
    if cur = 0 then
      some (WorkerOutcome.dequeued pjob,
        { pool with queue_cur_num := cur, head := 0, tail := 0 },
        [Event.signal Cond.queue_empty] ++ notfull ++ [Event.unlock])
    else
      match load heap pjob with
      | none => none
      | some nd =>
        some (WorkerOutcome.dequeued pjob,
          { pool with queue_cur_num := cur, head := nd.next },
          notfull ++ [Event.unlock])

/-- Embedding of `threadpool_function` from `pthread_mutex_lock` (line 136). -/
def threadpool_function (pool : threadpool) (heap : Heap) :
    Option (WorkerOutcome × threadpool × List Event) :=
  match threadpool_function_loop pool heap with
  | none => none
  | some (o, pool1, evs) => some (o, pool1, Event.lock :: evs)

/-- Embedding of lines 181-183 of `threadpool_function`: call the callback of
the dequeued node on its argument, then free the node.  Returns the pair that
was called, the heap and the events; `none` when `pjob` is not allocated. -/
def threadpool_function_run (heap : Heap) (pjob : Nat) :
    Option ((Nat × Nat) × Heap × List Event) :=
  match load heap pjob with
  | none => none
  | some nd =>
    some ((nd.callback_function, nd.arg), release heap pjob,
      [Event.call nd.callback_function nd.arg, Event.free pjob])

/-! ## `threadpool_destory` -/

/-- Where a call of `threadpool_destory` stands after a step: returned `-1`,
blocked in `pthread_cond_wait(queue_empty)`, or past the two broadcasts and
about to join the workers. -/
inductive DestroyOutcome where
  | rejected (rc : Int)
  | blocked
  | joining
  deriving DecidableEq, Repr

/-- Embedding of `threadpool_destory` from the `while` test (line 205) on, with
the mutex held. -/
def threadpool_destory_loop (pool : threadpool) :
    DestroyOutcome × threadpool × List Event :=
  if pool.queue_cur_num ≠ 0 then
    (DestroyOutcome.blocked, pool, [Event.wait Cond.queue_empty])
  else
    (DestroyOutcome.joining, { pool with pool_close := 1 },
      [Event.unlock, Event.broadcast Cond.queue_not_full,
       Event.broadcast Cond.queue_not_empty])

/-- Embedding of `threadpool_destory` from its entry (line 194) up to the first
blocking point or `return`. -/
def threadpool_destory (pool : threadpool) :
    DestroyOutcome × threadpool × List Event :=
  if pool.queue_close ≠ 0 ∨ pool.pool_close ≠ 0 then
    (DestroyOutcome.rejected (-1), pool, [Event.lock, Event.unlock])
  else
    match threadpool_destory_loop { pool with queue_close := 1 } with
    | (o, pool1, evs) => (o, pool1, Event.lock :: evs)

/-- The loop of lines 236-241: free every node still reachable from `head`.
`fuel` bounds the iterations; with `fuel` the size of the heap the loop has
always finished, because each iteration frees an allocated node.  `none` is a
dereference of an unallocated `head`. -/
def free_residual (heap : Heap) : Nat → Nat → Option (Heap × List Event)
  | _, 0 => none
  | head, fuel + 1 =>
    if head = 0 then some (heap, [])
    else
      match load heap head with
      | none => none
      | some nd =>
        match free_residual (release heap head) nd.next fuel with
        | none => none
        | some (heap1, evs) => some (heap1, Event.free head :: evs)

/-- Embedding of lines 230-243 of `threadpool_destory`, after the last join:
destroy the mutex and the condition variables, free the thread table, the
residual nodes and the pool, return `0`. -/
def threadpool_destory_cleanup (pool : threadpool) (heap : Heap) :
    Option (Int × threadpool × Heap × List Event) :=
  match free_residual heap pool.head (heap.length + 1) with
  | none => none
  | some (heap1, evs) =>
    some (0, { pool with head := 0 }, heap1,
      [Event.mutex_destroy, Event.cond_destroy Cond.queue_empty,
       Event.cond_destroy Cond.queue_not_empty,
       Event.cond_destroy Cond.queue_not_full, Event.free_pthreads]
        ++ evs ++ [Event.free_pool])

/-! ## The threads and their interleaving -/

/-- Program point of a worker thread running `threadpool_function`: about to
lock the mutex (line 136), inside `pthread_cond_wait` (line 142), about to call
the callback of the node it dequeued (line 181), or exited. -/
inductive WorkerPc where
  | ready
  | waiting (notified : Bool)
  | running (pjob : Nat)
  | exited
  deriving DecidableEq, Repr

/-- A call of `threadpool_add_job` that sits in `pthread_cond_wait` (line 83),
with the arguments of the call. -/
structure Producer where
  callback_function : Nat
  arg : Nat
  notified : Bool
  deriving DecidableEq, Repr

/-- Program point of the call of `threadpool_destory` that passed the guard of
line 197: none yet, inside `pthread_cond_wait` (line 208), about to join thread
`i` (line 226), or returned `0`. -/
inductive DestroyPc where
  | idle
  | draining (notified : Bool)
  | joining (i : Nat)
  | returned
  deriving DecidableEq, Repr

/-- State of the whole program: the pool, the job nodes, the program points of
the threads, and three history lists that the code does not have: the jobs for
which `threadpool_add_job` returned `0`, the jobs taken off the queue and the
jobs whose callback was called, each in order of occurrence. -/
structure System where
  pool : threadpool
  heap : Heap
  workers : List WorkerPc
  producers : List Producer
  destroyer : DestroyPc
  accepted : List (Nat × Nat)
  dequeued : List (Nat × Nat)
  executed : List (Nat × Nat)
  deriving DecidableEq, Repr

/-- A broadcast on `queue_not_empty` reaches every waiting worker. -/
def notify_worker : WorkerPc → WorkerPc
  | WorkerPc.waiting _ => WorkerPc.waiting true
  | w => w

/-- A signal on `queue_empty` reaches the destroyer if it waits. -/
def notify_destroyer : DestroyPc → DestroyPc
  | DestroyPc.draining _ => DestroyPc.draining true
  | d => d

/-- Effect of one library call on the threads that wait on a condition
variable. -/
def deliver (s : System) (e : Event) : System :=
  match e with
  | Event.broadcast Cond.queue_not_empty =>
    { s with workers := s.workers.map notify_worker }
  | Event.broadcast Cond.queue_not_full =>
    { s with producers := s.producers.map fun p => { p with notified := true } }
  | Event.signal Cond.queue_empty =>
    { s with destroyer := notify_destroyer s.destroyer }
  | _ => s

/-- Effect of the library calls of a step, in order. -/
def deliver_all (s : System) (evs : List Event) : System :=
  evs.foldl deliver s

/-- Program point of a worker after a step of `threadpool_function`. -/
def worker_pc : WorkerOutcome → WorkerPc
  | WorkerOutcome.blocked => WorkerPc.waiting false
  | WorkerOutcome.exited => WorkerPc.exited
  | WorkerOutcome.dequeued pjob => WorkerPc.running pjob

/-- The job a worker step took off the queue, read in the heap of the step. -/
def taken (heap : Heap) : WorkerOutcome → List (Nat × Nat)
  | WorkerOutcome.dequeued pjob => [payload heap pjob]
  | _ => []

/-- The job a producer step got accepted (return code `0`). -/
def granted (callback_function arg : Nat) : AddOutcome → List (Nat × Nat)
  | AddOutcome.returned rc => if rc = 0 then [(callback_function, arg)] else []
  | AddOutcome.blocked => []

/-- State after a step of worker `i`. -/
def worker_next (s : System) (i : Nat) (o : WorkerOutcome) (pool1 : threadpool)
    (evs : List Event) : System :=
  let s1 := deliver_all { s with pool := pool1 } evs
  { s1 with workers := s1.workers.set i (worker_pc o),
            dequeued := s1.dequeued ++ taken s.heap o }

/-- State after a step of a destroyer. -/
def destroy_next (s : System) (o : DestroyOutcome) (pool1 : threadpool)
    (evs : List Event) : System :=
  match o with
  | DestroyOutcome.rejected _ => s
  | DestroyOutcome.blocked =>
    { deliver_all { s with pool := pool1 } evs with
      destroyer := DestroyPc.draining false }
  | DestroyOutcome.joining =>
    { deliver_all { s with pool := pool1 } evs with
      destroyer := DestroyPc.joining 0 }

/-- One atomic step of one thread. -/
inductive Step : System → System → Prop where
  /-- A thread calls `threadpool_add_job` and runs to its first blocking point
  or to its return. -/
  | add_call (s : System) (callback_function arg pjob : Nat) (o : AddOutcome)
      (pool1 : threadpool) (heap1 : Heap) (evs : List Event)
      (alive : s.destroyer ≠ DestroyPc.returned)
      (fresh : pjob = 0 ∨ load s.heap pjob = none)
      (run : threadpool_add_job s.pool s.heap callback_function arg pjob
              = some (o, pool1, heap1, evs)) :
      Step s
        (let s1 := deliver_all { s with pool := pool1, heap := heap1 } evs
         { s1 with
           producers :=
             if o = AddOutcome.blocked then
               s1.producers ++ [{ callback_function := callback_function,
                                  arg := arg, notified := false }]
             else s1.producers,
           accepted := s1.accepted ++ granted callback_function arg o })
  /-- The `i`-th blocked call of `threadpool_add_job` leaves
  `pthread_cond_wait` and tests the loop again. -/
  | add_wake (s : System) (i : Nat) (p : Producer) (pjob : Nat) (o : AddOutcome)
      (pool1 : threadpool) (heap1 : Heap) (evs : List Event)
      (alive : s.destroyer ≠ DestroyPc.returned)
      (at_wait : s.producers[i]? = some p)
      (fresh : pjob = 0 ∨ load s.heap pjob = none)
      (run : threadpool_add_job_loop s.pool s.heap p.callback_function p.arg pjob
              = some (o, pool1, heap1, evs)) :
      Step s
        (let s1 := deliver_all { s with pool := pool1, heap := heap1 } evs
         { s1 with
           producers :=
             if o = AddOutcome.blocked then
               s1.producers.set i { p with notified := false }
             else s1.producers.eraseIdx i,
           accepted := s1.accepted ++ granted p.callback_function p.arg o })
  /-- Worker `i` locks the mutex and runs to its next blocking point. -/
  | worker_lock (s : System) (i : Nat) (o : WorkerOutcome) (pool1 : threadpool)
      (evs : List Event)
      (alive : s.destroyer ≠ DestroyPc.returned)
      (at_lock : s.workers[i]? = some WorkerPc.ready)
      (run : threadpool_function s.pool s.heap = some (o, pool1, evs)) :
      Step s (worker_next s i o pool1 evs)
  /-- Worker `i` leaves `pthread_cond_wait` and tests the loop again. -/
  | worker_wake (s : System) (i : Nat) (b : Bool) (o : WorkerOutcome)
      (pool1 : threadpool) (evs : List Event)
      (alive : s.destroyer ≠ DestroyPc.returned)
      (at_wait : s.workers[i]? = some (WorkerPc.waiting b))
      (run : threadpool_function_loop s.pool s.heap = some (o, pool1, evs)) :
      Step s (worker_next s i o pool1 evs)
  /-- Worker `i` calls the callback of the node it dequeued and frees the
  node. -/
  | worker_run (s : System) (i pjob : Nat) (c : Nat × Nat) (heap1 : Heap)
      (evs : List Event)
      (alive : s.destroyer ≠ DestroyPc.returned)
      (at_call : s.workers[i]? = some (WorkerPc.running pjob))
      (run : threadpool_function_run s.heap pjob = some (c, heap1, evs)) :
      Step s
        { s with heap := heap1, workers := s.workers.set i WorkerPc.ready,
                 executed := s.executed ++ [c] }
  /-- A thread calls `threadpool_destory` and runs to its first blocking point
  or to `return -1`. -/
  | destroy_call (s : System) (o : DestroyOutcome) (pool1 : threadpool)
      (evs : List Event)
      (alive : s.destroyer ≠ DestroyPc.returned)
      (run : threadpool_destory s.pool = (o, pool1, evs)) :
      Step s (destroy_next s o pool1 evs)
  /-- The destroyer leaves `pthread_cond_wait` and tests the loop again. -/
  | destroy_wake (s : System) (b : Bool) (o : DestroyOutcome)
      (pool1 : threadpool) (evs : List Event)
      (at_wait : s.destroyer = DestroyPc.draining b)
      (run : threadpool_destory_loop s.pool = (o, pool1, evs)) :
      Step s (destroy_next s o pool1 evs)
  /-- The destroyer's `pthread_join` on thread `i` returns: the thread has
  exited. -/
  | destroy_join (s : System) (i : Nat)
      (at_join : s.destroyer = DestroyPc.joining i)
      (more : (i : Int) < s.pool.thread_num)
      (gone : s.workers[i]? = some WorkerPc.exited) :
      Step s { s with destroyer := DestroyPc.joining (i + 1) }
  /-- The join loop is over: the destroyer frees everything and returns `0`. -/
  | destroy_finish (s : System) (i : Nat) (rc : Int) (pool1 : threadpool)
      (heap1 : Heap) (evs : List Event)
      (at_join : s.destroyer = DestroyPc.joining i)
      (done : ¬ (i : Int) < s.pool.thread_num)
      (run : threadpool_destory_cleanup s.pool s.heap
              = some (rc, pool1, heap1, evs)) :
      Step s { s with pool := pool1, heap := heap1,
                      destroyer := DestroyPc.returned }

/-- State of the program when `threadpool_init` has returned `pool`: no job
node, one worker per created thread, nobody waiting, empty histories. -/
def boot (pool : threadpool) : System :=
  { pool := pool, heap := [],
    workers := List.replicate pool.thread_num.toNat WorkerPc.ready,
    producers := [], destroyer := DestroyPc.idle,
    accepted := [], dequeued := [], executed := [] }

/-- States of a program that built its pool with
`threadpool_init(thread_num, queue_max_num)`, both arguments being C `int`s. -/
inductive Reachable (thread_num queue_max_num : Int) : System → Prop where
  | init (env : InitEnv) (pool : threadpool) (evs : List Event)
      (tn_int : INT_MIN ≤ thread_num ∧ thread_num ≤ INT_MAX)
      (qm_int : INT_MIN ≤ queue_max_num ∧ queue_max_num ≤ INT_MAX)
      (built : threadpool_init thread_num queue_max_num env = (some pool, evs)) :
      Reachable thread_num queue_max_num (boot pool)
  | step (s s1 : System) (before : Reachable thread_num queue_max_num s)
      (move : Step s s1) : Reachable thread_num queue_max_num s1

/-- A call of `threadpool_destory` made in state `s` of the program, up to its
first blocking point or `return`.  Once a first call has returned `0` it has
destroyed the mutex and freed the pool (lines 230-242): the lock of line 194
and the reads of line 197 are then made on freed memory, which is `none`. -/
def threadpool_destory_at (s : System) :
    Option (DestroyOutcome × threadpool × List Event) :=
  if s.destroyer = DestroyPc.returned then none
  else some (threadpool_destory s.pool)

/-! ## A run of a pool with one worker and capacity two -/

/-- Environment in which every allocation and initialisation of
`threadpool_init` succeeds. -/
def env_ok : InitEnv :=
  { pool_alloc := true, mutex_init := 0, queue_empty_init := 0,
    queue_not_empty_init := 0, queue_not_full_init := 0, pthreads_alloc := true }

/-- Pool returned by `threadpool_init(1, 2)`. -/
def pool_1_2 : threadpool :=
  { thread_num := 1, queue_max_num := 2, head := 0, tail := 0,
    queue_cur_num := 0, queue_close := 0, pool_close := 0 }

/-- State after `threadpool_init(1, 2)`. -/
def run0 : System := boot pool_1_2

/-- Then `threadpool_add_job(pool, 7, 9)` returns `0`, its node at address 100. -/
def run1 : System :=
  { run0 with
    pool := { pool_1_2 with head := 100, tail := 100, queue_cur_num := 1 },
    heap := [(100, { callback_function := 7, arg := 9, next := 0 })],
    accepted := [(7, 9)] }

/-- Then `threadpool_add_job(pool, 8, 10)` returns `0`, its node at address
200: the queue is full. -/
def run2 : System :=
  { run1 with
    pool := { pool_1_2 with head := 100, tail := 200, queue_cur_num := 2 },
    heap := [(100, { callback_function := 7, arg := 9, next := 200 }),
             (200, { callback_function := 8, arg := 10, next := 0 })],
    accepted := [(7, 9), (8, 10)] }

/-- Then the worker dequeues node 100. -/
def run3 : System :=
  { run2 with
    pool := { pool_1_2 with head := 200, tail := 200, queue_cur_num := 1 },
    workers := [WorkerPc.running 100],
    dequeued := [(7, 9)] }

/-- Then the worker calls callback 7 on 9 and frees node 100. -/
def run4 : System :=
  { run3 with
    heap := [(200, { callback_function := 8, arg := 10, next := 0 })],
    workers := [WorkerPc.ready],
    executed := [(7, 9)] }

/-- Then `threadpool_destory` is called: it closes the queue and waits for the
drain. -/
def run5 : System :=
  { run4 with
    pool := { pool_1_2 with head := 200, tail := 200, queue_cur_num := 1,
                            queue_close := 1 },
    destroyer := DestroyPc.draining false }

/-- Then the worker dequeues node 200, the last one, and signals
`queue_empty`. -/
def run6 : System :=
  { run5 with
    pool := { pool_1_2 with queue_close := 1 },
    workers := [WorkerPc.running 200],
    destroyer := DestroyPc.draining true,
    dequeued := [(7, 9), (8, 10)] }

/-- Then the worker calls callback 8 on 10 and frees node 200. -/
def run7 : System :=
  { run6 with
    heap := [],
    workers := [WorkerPc.ready],
    executed := [(7, 9), (8, 10)] }

/-- Then the destroyer wakes up, closes the pool and starts joining. -/
def run8 : System :=
  { run7 with
    pool := { pool_1_2 with queue_close := 1, pool_close := 1 },
    destroyer := DestroyPc.joining 0 }

/-- Then the worker sees `pool_close` and exits. -/
def run9 : System := { run8 with workers := [WorkerPc.exited] }

/-- Then the join of thread 0 returns. -/
def run10 : System := { run9 with destroyer := DestroyPc.joining 1 }

/-- Then `threadpool_destory` frees the pool and returns `0`. -/
def run11 : System := { run10 with destroyer := DestroyPc.returned }

/-- State after `threadpool_init(1, 2)` once the worker has found the queue
empty and waits on `queue_not_empty`. -/
def run0_waiting : System := { run0 with workers := [WorkerPc.waiting false] }

/-- The full queue of the run with `pool_close` forced to `1`: not a state of
the program, only an input of `threadpool_function`. -/
def run2_closed : System :=
  { run2 with
    pool := { pool_1_2 with head := 100, tail := 200, queue_cur_num := 2,
                            pool_close := 1 } }

/-- Pool returned by `threadpool_init(1, 4)`. -/
def pool_1_4 : threadpool :=
  { thread_num := 1, queue_max_num := 4, head := 0, tail := 0,
    queue_cur_num := 0, queue_close := 0, pool_close := 0 }

/-! ## The mutex along the library calls of a thread -/

/-- What a thread has of the pool mutex at a point of its run: it does not hold
it, it holds it, or it is blocked inside `pthread_cond_wait`, which released
the mutex and takes it again before it returns. -/
inductive MutexState where
  | free
  | held
  | blocked
  deriving DecidableEq, Repr

/-- State in which a thread makes its next library call: one that was blocked
in `pthread_cond_wait` has returned from it and holds the mutex. -/
def resumed : MutexState → MutexState
  | MutexState.blocked => MutexState.held
  | m => m

/-- State of a thread after a library call made in state `m`. -/
def effect (m : MutexState) : Event → MutexState
  | Event.lock => MutexState.held
  | Event.unlock => MutexState.free
  | Event.wait _ => MutexState.blocked
  | _ => m

/-- State of a thread after the library calls `evs`, made from state `m`. -/
def mutex_state : MutexState → List Event → MutexState
  | m, [] => m
  | m, e :: evs => mutex_state (effect (resumed m) e) evs

/-- The calls of a callback, among the library calls `evs` made from state `m`,
that the thread makes while it holds the mutex. -/
def locked_calls : MutexState → List Event → List Event
  | _, [] => []
  | m, e :: evs =>
    (match e, resumed m with
      | Event.call _ _, MutexState.held => [e]
      | _, _ => []) ++ locked_calls (effect (resumed m) e) evs

/-- What a worker has of the mutex at its program point: a waiting worker is
blocked in `pthread_cond_wait`, any other holds nothing. -/
def mutex_at : Option WorkerPc → MutexState
  | some (WorkerPc.waiting _) => MutexState.blocked
  | _ => MutexState.free

/-- The steps of `Step`, each with the thread that makes it (`some i` for worker
`i`, `none` for a producer or a destroyer) and the library calls it makes. -/
inductive LStep : Option Nat → List Event → System → System → Prop where
  | add_call (s : System) (callback_function arg pjob : Nat) (o : AddOutcome)
      (pool1 : threadpool) (heap1 : Heap) (evs : List Event)
      (alive : s.destroyer ≠ DestroyPc.returned)
      (fresh : pjob = 0 ∨ load s.heap pjob = none)
      (run : threadpool_add_job s.pool s.heap callback_function arg pjob
              = some (o, pool1, heap1, evs)) :
      LStep none evs s
        (let s1 := deliver_all { s with pool := pool1, heap := heap1 } evs
         { s1 with
           producers :=
             if o = AddOutcome.blocked then
               s1.producers ++ [{ callback_function := callback_function,
                                  arg := arg, notified := false }]
             else s1.producers,
           accepted := s1.accepted ++ granted callback_function arg o })
  | add_wake (s : System) (i : Nat) (p : Producer) (pjob : Nat) (o : AddOutcome)
      (pool1 : threadpool) (heap1 : Heap) (evs : List Event)
      (alive : s.destroyer ≠ DestroyPc.returned)
      (at_wait : s.producers[i]? = some p)
      (fresh : pjob = 0 ∨ load s.heap pjob = none)
      (run : threadpool_add_job_loop s.pool s.heap p.callback_function p.arg pjob
              = some (o, pool1, heap1, evs)) :
      LStep none evs s
        (let s1 := deliver_all { s with pool := pool1, heap := heap1 } evs
         { s1 with
           producers :=
             if o = AddOutcome.blocked then
               s1.producers.set i { p with notified := false }
             else s1.producers.eraseIdx i,
           accepted := s1.accepted ++ granted p.callback_function p.arg o })
  | worker_lock (s : System) (i : Nat) (o : WorkerOutcome) (pool1 : threadpool)
      (evs : List Event)
      (alive : s.destroyer ≠ DestroyPc.returned)
      (at_lock : s.workers[i]? = some WorkerPc.ready)
      (run : threadpool_function s.pool s.heap = some (o, pool1, evs)) :
      LStep (some i) evs s (worker_next s i o pool1 evs)
  | worker_wake (s : System) (i : Nat) (b : Bool) (o : WorkerOutcome)
      (pool1 : threadpool) (evs : List Event)
      (alive : s.destroyer ≠ DestroyPc.returned)
      (at_wait : s.workers[i]? = some (WorkerPc.waiting b))
      (run : threadpool_function_loop s.pool s.heap = some (o, pool1, evs)) :
      LStep (some i) evs s (worker_next s i o pool1 evs)
  | worker_run (s : System) (i pjob : Nat) (c : Nat × Nat) (heap1 : Heap)
      (evs : List Event)
      (alive : s.destroyer ≠ DestroyPc.returned)
      (at_call : s.workers[i]? = some (WorkerPc.running pjob))
      (run : threadpool_function_run s.heap pjob = some (c, heap1, evs)) :
      LStep (some i) evs s
        { s with heap := heap1, workers := s.workers.set i WorkerPc.ready,
                 executed := s.executed ++ [c] }
  | destroy_call (s : System) (o : DestroyOutcome) (pool1 : threadpool)
      (evs : List Event)
      (alive : s.destroyer ≠ DestroyPc.returned)
      (run : threadpool_destory s.pool = (o, pool1, evs)) :
      LStep none evs s (destroy_next s o pool1 evs)
  | destroy_wake (s : System) (b : Bool) (o : DestroyOutcome)
      (pool1 : threadpool) (evs : List Event)
      (at_wait : s.destroyer = DestroyPc.draining b)
      (run : threadpool_destory_loop s.pool = (o, pool1, evs)) :
      LStep none evs s (destroy_next s o pool1 evs)
  | destroy_join (s : System) (i : Nat)
      (at_join : s.destroyer = DestroyPc.joining i)
      (more : (i : Int) < s.pool.thread_num)
      (gone : s.workers[i]? = some WorkerPc.exited) :
      LStep none [Event.join i] s { s with destroyer := DestroyPc.joining (i + 1) }
  | destroy_finish (s : System) (i : Nat) (rc : Int) (pool1 : threadpool)
      (heap1 : Heap) (evs : List Event)
      (at_join : s.destroyer = DestroyPc.joining i)
      (done : ¬ (i : Int) < s.pool.thread_num)
      (run : threadpool_destory_cleanup s.pool s.heap
              = some (rc, pool1, heap1, evs)) :
      LStep none evs s { s with pool := pool1, heap := heap1,
                                destroyer := DestroyPc.returned }

/-- The library calls of each worker so far, after one more step. -/
def record (h : Nat → List Event) : Option Nat → List Event → Nat → List Event
  | none, _ => h
  | some i, evs => fun j => if j = i then h j ++ evs else h j

/-- States of the program together with the library calls each worker has made
since it was created, in order. -/
inductive Traced (thread_num queue_max_num : Int) :
    System → (Nat → List Event) → Prop where
  | init (env : InitEnv) (pool : threadpool) (evs : List Event)
      (tn_int : INT_MIN ≤ thread_num ∧ thread_num ≤ INT_MAX)
      (qm_int : INT_MIN ≤ queue_max_num ∧ queue_max_num ≤ INT_MAX)
      (built : threadpool_init thread_num queue_max_num env = (some pool, evs)) :
      Traced thread_num queue_max_num (boot pool) (fun _ => [])
  | step (s s1 : System) (h : Nat → List Event) (a : Option Nat)
      (evs : List Event) (before : Traced thread_num queue_max_num s h)
      (move : LStep a evs s s1) :
      Traced thread_num queue_max_num s1 (record h a evs)

/-- Library calls of worker 0 in the run, up to its first dequeue. -/
def run3_calls : Nat → List Event :=
  record (fun _ => []) (some 0)
    [Event.lock, Event.broadcast Cond.queue_not_full, Event.unlock]

/-- Library calls of worker 0 in the run, up to the end of its first job. -/
def run4_calls : Nat → List Event :=
  record run3_calls (some 0) [Event.call 7 9, Event.free 100]

/-! ## Invariants -/

/-- `lseg heap p l`: following `next` from `p` visits exactly the addresses of
`l`, each allocated and not `NULL`, and ends on `NULL`. -/
def lseg (heap : Heap) : Nat → List Nat → Prop
  | p, [] => p = 0
  | p, a :: l => p = a ∧ a ≠ 0 ∧ ∃ nd, load heap a = some nd ∧ lseg heap nd.next l

/-- The node a worker holds between its dequeue and its `free`. -/
def slot : WorkerPc → List Nat
  | WorkerPc.running pjob => [pjob]
  | _ => []

/-- Nodes taken off the queue and not yet freed, over all workers. -/
def inflight : List WorkerPc → List Nat
  | [] => []
  | w :: ws => slot w ++ inflight ws

/-- Invariant of the queue, for the list `q` of queued addresses and the list
`fl` of addresses held by workers: the nodes of `q` are chained from `head`,
`tail` is the last of them, no address occurs twice, the counter is the length of
`q` as an `int`, the length fits the capacity read as an unsigned number, the
accepted jobs are the dequeued ones followed by the queued ones, and the
dequeued jobs are the executed ones and those held by workers. -/
structure QInv (pool : threadpool) (heap : Heap) (fl : List Nat)
    (acc deq exe : List (Nat × Nat)) (q : List Nat) : Prop where
  qm_int : INT_MIN ≤ pool.queue_max_num ∧ pool.queue_max_num ≤ INT_MAX
  chain : lseg heap pool.head q
  tail_last : q ≠ [] → q.getLast? = some pool.tail
  nodup : (q ++ fl).Nodup
  alloc : ∀ a ∈ q ++ fl, a ≠ 0 ∧ load heap a ≠ none
  cur_eq : pool.queue_cur_num = wrapInt q.length
  cap : (q.length : Int) ≤ pool.queue_max_num % 4294967296
  fifo : acc = deq ++ q.map (payload heap)
  once : List.Perm deq (exe ++ fl.map (payload heap))
  closed : pool.pool_close ≠ 0 → q = []

/-- Invariant of the shutdown: the program point of the destroyer fixes the two
flags, the workers already joined have exited, and once `threadpool_destory` has
returned all workers have. -/
def phase (pool : threadpool) (workers : List WorkerPc) : DestroyPc → Prop
  | DestroyPc.idle => pool.queue_close = 0 ∧ pool.pool_close = 0
  | DestroyPc.draining _ => pool.queue_close ≠ 0 ∧ pool.pool_close = 0
  | DestroyPc.joining i =>
    pool.queue_close ≠ 0 ∧ pool.pool_close ≠ 0 ∧
      ∀ j, j < i → j < workers.length → workers[j]? = some WorkerPc.exited
  | DestroyPc.returned =>
    pool.queue_close ≠ 0 ∧ pool.pool_close ≠ 0 ∧
      ∀ w ∈ workers, w = WorkerPc.exited

/-- Invariant of the whole program, for the list `q` of queued addresses. -/
structure Inv (thread_num queue_max_num : Int) (s : System) (q : List Nat) :
    Prop where
  tn_eq : s.pool.thread_num = thread_num
  qm_eq : s.pool.queue_max_num = queue_max_num
  nworkers : s.workers.length = thread_num.toNat
  queue : QInv s.pool s.heap (inflight s.workers) s.accepted s.dequeued
            s.executed q
  shutdown : phase s.pool s.workers s.destroyer

/-- A change of a worker's program point that moves no node and neither makes
nor undoes an exit. -/
def Quiet (h : WorkerPc → WorkerPc) : Prop :=
  ∀ w, slot (h w) = slot w ∧ (h w = WorkerPc.exited ↔ w = WorkerPc.exited)

/-- What the delivery of signals may change between `s` and `s1`: only the
`notified` marks of waiting threads. -/
structure Notified (s s1 : System) : Prop where
  pool : s1.pool = s.pool
  heap : s1.heap = s.heap
  workers : ∃ h, Quiet h ∧ s1.workers = s.workers.map h
  destroyer : s1.destroyer = s.destroyer ∨
    ∃ b, s.destroyer = DestroyPc.draining b ∧
      s1.destroyer = DestroyPc.draining true
  accepted : s1.accepted = s.accepted
  dequeued : s1.dequeued = s.dequeued
  executed : s1.executed = s.executed

/-! ## Memory -/

theorem load_store_eq (m : Heap) (p : Nat) (j : job) :
    load (store m p j) p = some j := by
  induction m with
  | nil => simp [store, load]
  | cons x m ih =>
    obtain ⟨a, y⟩ := x
    by_cases h : a = p
    · simp [store, load, h]
    · simp [store, load, h, ih]

theorem load_store_ne (m : Heap) (p q : Nat) (j : job) (h : p ≠ q) :
    load (store m p j) q = load m q := by
  induction m with
  | nil => simp [store, load, h]
  | cons x m ih =>
    obtain ⟨a, y⟩ := x
    by_cases h1 : a = p
    · subst h1; simp [store, load, h]
    · by_cases h2 : a = q
      · subst h2; simp [store, load, h1]
      · simp [store, load, h1, h2, ih]

theorem load_release_eq (m : Heap) (p : Nat) : load (release m p) p = none := by
  induction m with
  | nil => simp [release, load]
  | cons x m ih =>
    obtain ⟨a, y⟩ := x
    by_cases h : a = p
    · simp [release, h, ih]
    · simp [release, load, h, ih]

theorem load_release_ne (m : Heap) (p q : Nat) (h : p ≠ q) :
    load (release m p) q = load m q := by
  induction m with
  | nil => simp [release, load]
  | cons x m ih =>
    obtain ⟨a, y⟩ := x
    by_cases h1 : a = p
    · subst h1; simp [release, load, h, ih]
    · by_cases h2 : a = q
      · subst h2; simp [release, load, h1]
      · simp [release, load, h1, h2, ih]

theorem mem_keys_of_load (m : Heap) (p : Nat) (h : load m p ≠ none) :
    p ∈ m.map Prod.fst := by
  induction m with
  | nil => simp [load] at h
  | cons x m ih =>
    obtain ⟨a, y⟩ := x
    by_cases h1 : a = p
    · simp [h1]
    · simp [load, h1] at h
      simp [ih h]

theorem payload_of_load_eq (heap heap1 : Heap) (p : Nat)
    (h : load heap1 p = load heap p) : payload heap1 p = payload heap p := by
  simp [payload, h]

/-! ## 32-bit arithmetic -/

theorem wrapInt_of_range (x : Int) (h : INT_MIN ≤ x ∧ x ≤ INT_MAX) :
    wrapInt x = x := by
  unfold INT_MIN INT_MAX at h
  unfold wrapInt
  omega

theorem wrapInt_succ (a : Int) : wrapInt (wrapInt a + 1) = wrapInt (a + 1) := by
  unfold wrapInt
  omega

theorem wrapInt_pred (a : Int) : wrapInt (wrapInt a - 1) = wrapInt (a - 1) := by
  unfold wrapInt
  omega

theorem wrapInt_zero : wrapInt 0 = 0 := by
  unfold wrapInt
  omega

/-! ## Linked segments -/

theorem lseg_congr (heap heap1 : Heap) (l : List Nat) (p : Nat)
    (same : ∀ a ∈ l, load heap1 a = load heap a) (h : lseg heap p l) :
    lseg heap1 p l := by
  induction l generalizing p with
  | nil => exact h
  | cons a l ih =>
    obtain ⟨hp, ha, nd, hnd, hrest⟩ := h
    refine ⟨hp, ha, nd, ?_, ?_⟩
    · rw [same a (List.mem_cons_self a l)]; exact hnd
    · exact ih nd.next (fun b hb => same b (List.mem_cons_of_mem a hb)) hrest

theorem lseg_null (heap : Heap) (l : List Nat) (h : lseg heap 0 l) : l = [] := by
  cases l with
  | nil => rfl
  | cons a l =>
    obtain ⟨hp, ha, _⟩ := h
    exact absurd hp.symm ha

theorem lseg_head (heap : Heap) (l : List Nat) (p : Nat) (hp : p ≠ 0)
    (h : lseg heap p l) : ∃ r, l = p :: r := by
  cases l with
  | nil => exact absurd h hp
  | cons a l =>
    obtain ⟨hpa, _⟩ := h
    exact ⟨l, by rw [hpa]⟩

/-- Linking a fresh node behind the last node of a segment extends the
segment by that node. -/
theorem lseg_snoc (heap : Heap) (l : List Nat) (p t pjob : Nat) (nt new : job)
    (h : lseg heap p (l ++ [t])) (nodup : (l ++ [t]).Nodup)
    (fresh : pjob ∉ l ++ [t]) (nonnull : pjob ≠ 0) (hnew : new.next = 0) :
    lseg (store (store heap pjob new) t { nt with next := pjob }) p
      (l ++ [t] ++ [pjob]) := by
  have htp : t ≠ pjob := by
    intro e; apply fresh; simp [e]
  induction l generalizing p with
  | nil =>
    obtain ⟨hp, ht0, nd, hnd, hrest⟩ := h
    refine ⟨hp, ht0, { nt with next := pjob }, load_store_eq _ _ _, ?_⟩
    refine ⟨rfl, nonnull, new, ?_, hnew⟩
    rw [load_store_ne _ _ _ _ htp, load_store_eq]
  | cons a l ih =>
    obtain ⟨hp, ha, nd, hnd, hrest⟩ := h
    have hat : t ≠ a := by
      intro e
      simp [e] at nodup
    have hap : pjob ≠ a := by
      intro e; apply fresh; simp [e]
    refine ⟨hp, ha, nd, ?_, ?_⟩
    · rw [load_store_ne _ _ _ _ hat, load_store_ne _ _ _ _ hap]; exact hnd
    · apply ih nd.next hrest
      · exact (List.nodup_cons.mp nodup).2
      · intro hm; exact fresh (List.mem_cons_of_mem a hm)

theorem walk_of_lseg (heap : Heap) (l : List Nat) (p fuel : Nat)
    (h : lseg heap p l) (enough : l.length ≤ fuel) : walk heap p fuel = l := by
  induction l generalizing p fuel with
  | nil =>
    have hp : p = 0 := h
    cases fuel with
    | zero => simp [walk]
    | succ n => simp [walk, hp]
  | cons a l ih =>
    obtain ⟨hp, ha, nd, hnd, hrest⟩ := h
    cases fuel with
    | zero => simp at enough
    | succ n =>
      subst hp
      have hl : l.length ≤ n := by simpa using enough
      simp [walk, ha, hnd, ih nd.next n hrest hl]

theorem length_le_heap (heap : Heap) (l : List Nat) (nodup : l.Nodup)
    (alloc : ∀ a ∈ l, load heap a ≠ none) : l.length ≤ heap.length := by
  have hsub : l ⊆ heap.map Prod.fst :=
    fun a ha => mem_keys_of_load heap a (alloc a ha)
  have h := (List.subperm_of_subset nodup hsub).length_le
  simpa using h

/-! ## Nodes held by workers -/

theorem inflight_set (ws : List WorkerPc) (i : Nat) (w w1 : WorkerPc)
    (h : WorkerPc → WorkerPc) (quiet : Quiet h) (at_i : ws[i]? = some w) :
    List.Perm (slot w ++ inflight ((ws.map h).set i w1))
      (slot w1 ++ inflight ws) := by
  induction ws generalizing i with
  | nil => simp at at_i
  | cons x ws ih =>
    cases i with
    | zero =>
      simp at at_i
      subst at_i
      simp only [List.map_cons, List.set_cons_zero, inflight]
      have hq : inflight (ws.map h) = inflight ws := by
        clear ih
        induction ws with
        | nil => rfl
        | cons y ws ih2 => simp [inflight, (quiet y).1, ih2]
      rw [hq]
      exact List.perm_append_comm_assoc _ _ _
    | succ n =>
      simp at at_i
      simp only [List.map_cons, List.set_cons_succ, inflight, (quiet x).1]
      have h1 := ih n at_i
      exact ((List.perm_append_comm_assoc _ _ _).trans
        (List.Perm.append_left _ h1)).trans (List.perm_append_comm_assoc _ _ _)

theorem inflight_map (ws : List WorkerPc) (h : WorkerPc → WorkerPc)
    (quiet : Quiet h) : inflight (ws.map h) = inflight ws := by
  induction ws with
  | nil => rfl
  | cons y ws ih => simp [inflight, (quiet y).1, ih]

theorem inflight_exited (ws : List WorkerPc)
    (h : ∀ w ∈ ws, w = WorkerPc.exited) : inflight ws = [] := by
  induction ws with
  | nil => rfl
  | cons y ws ih =>
    have hy : y = WorkerPc.exited := h y (List.mem_cons_self y ws)
    subst hy
    simp [inflight, slot, ih (fun w hw => h w (List.mem_cons_of_mem _ hw))]

/-! ## The steps, case by case -/

/-- The five ways through `threadpool_add_job_loop`. -/
theorem add_job_loop_cases (pool pool1 : threadpool) (heap heap1 : Heap)
    (cb arg pjob : Nat) (o : AddOutcome) (evs : List Event)
    (run : threadpool_add_job_loop pool heap cb arg pjob
            = some (o, pool1, heap1, evs)) :
    (pool.queue_cur_num = pool.queue_max_num ∧ pool.queue_close = 0 ∧
        pool.pool_close = 0 ∧ o = AddOutcome.blocked ∧ pool1 = pool ∧
        heap1 = heap ∧ evs = [Event.wait Cond.queue_not_full]) ∨
    ((pool.queue_close ≠ 0 ∨ pool.pool_close ≠ 0) ∧
        o = AddOutcome.returned (-1) ∧ pool1 = pool ∧ heap1 = heap ∧
        evs = [Event.unlock]) ∨
    (pool.queue_cur_num ≠ pool.queue_max_num ∧ pool.queue_close = 0 ∧
        pool.pool_close = 0 ∧ pjob = 0 ∧ o = AddOutcome.returned (-1) ∧
        pool1 = pool ∧ heap1 = heap ∧
        evs = [Event.malloc 0, Event.unlock]) ∨
    (pool.queue_cur_num ≠ pool.queue_max_num ∧ pool.queue_close = 0 ∧
        pool.pool_close = 0 ∧ pjob ≠ 0 ∧ pool.head = 0 ∧
        o = AddOutcome.returned 0 ∧
        pool1 = { pool with
                  head := pjob, tail := pjob,
                  queue_cur_num := wrapInt (pool.queue_cur_num + 1) } ∧
        heap1 = store heap pjob
          { callback_function := cb, arg := arg, next := 0 } ∧
        evs = [Event.malloc pjob, Event.broadcast Cond.queue_not_empty,
               Event.unlock]) ∨
    (pool.queue_cur_num ≠ pool.queue_max_num ∧ pool.queue_close = 0 ∧
        pool.pool_close = 0 ∧ pjob ≠ 0 ∧ pool.head ≠ 0 ∧
        o = AddOutcome.returned 0 ∧
        pool1 = { pool with
                  tail := pjob,
                  queue_cur_num := wrapInt (pool.queue_cur_num + 1) } ∧
        (∃ t, load (store heap pjob
                { callback_function := cb, arg := arg, next := 0 }) pool.tail
                = some t ∧
           heap1 = store (store heap pjob
                { callback_function := cb, arg := arg, next := 0 }) pool.tail
                { t with next := pjob }) ∧
        evs = [Event.malloc pjob, Event.unlock]) := by
  unfold threadpool_add_job_loop at run
  by_cases hfull : pool.queue_cur_num = pool.queue_max_num ∧
      ¬ (pool.queue_close ≠ 0 ∨ pool.pool_close ≠ 0)
  · rw [if_pos hfull] at run
    simp only [Option.some.injEq, Prod.mk.injEq] at run
    obtain ⟨h1, h2, h3, h4⟩ := run
    have hq : pool.queue_close = 0 := by
      by_contra hc; exact hfull.2 (Or.inl hc)
    have hp : pool.pool_close = 0 := by
      by_contra hc; exact hfull.2 (Or.inr hc)
    exact Or.inl ⟨hfull.1, hq, hp, h1.symm, h2.symm, h3.symm, h4.symm⟩
  · rw [if_neg hfull] at run
    by_cases hclosed : pool.queue_close ≠ 0 ∨ pool.pool_close ≠ 0
    · rw [if_pos hclosed] at run
      simp only [Option.some.injEq, Prod.mk.injEq] at run
      obtain ⟨h1, h2, h3, h4⟩ := run
      exact Or.inr (Or.inl ⟨hclosed, h1.symm, h2.symm, h3.symm, h4.symm⟩)
    · rw [if_neg hclosed] at run
      have hq : pool.queue_close = 0 := by
        by_contra hc; exact hclosed (Or.inl hc)
      have hp : pool.pool_close = 0 := by
        by_contra hc; exact hclosed (Or.inr hc)
      have hcur : pool.queue_cur_num ≠ pool.queue_max_num :=
        fun e => hfull ⟨e, hclosed⟩
      by_cases hnull : pjob = 0
      · rw [if_pos hnull] at run
        simp only [Option.some.injEq, Prod.mk.injEq] at run
        obtain ⟨h1, h2, h3, h4⟩ := run
        exact Or.inr (Or.inr (Or.inl
          ⟨hcur, hq, hp, hnull, h1.symm, h2.symm, h3.symm, h4.symm⟩))
      · rw [if_neg hnull] at run
        by_cases hhead : pool.head = 0
        · simp only [hhead, if_true, Option.some.injEq, Prod.mk.injEq] at run
          obtain ⟨h1, h2, h3, h4⟩ := run
          exact Or.inr (Or.inr (Or.inr (Or.inl
            ⟨hcur, hq, hp, hnull, hhead, h1.symm, h2.symm, h3.symm, h4.symm⟩)))
        · simp only [hhead, if_false] at run
          cases ht : load (store heap pjob
              { callback_function := cb, arg := arg, next := 0 }) pool.tail with
          | none => rw [ht] at run; simp at run
          | some t =>
            rw [ht] at run
            simp only [Option.some.injEq, Prod.mk.injEq] at run
            obtain ⟨h1, h2, h3, h4⟩ := run
            exact Or.inr (Or.inr (Or.inr (Or.inr
              ⟨hcur, hq, hp, hnull, hhead, h1.symm, h2.symm, ⟨t, rfl, h3.symm⟩,
                h4.symm⟩)))

/-- The four ways through `threadpool_function_loop`. -/
theorem function_loop_cases (pool pool1 : threadpool) (heap : Heap)
    (o : WorkerOutcome) (evs : List Event)
    (run : threadpool_function_loop pool heap = some (o, pool1, evs)) :
    (pool.queue_cur_num = 0 ∧ pool.pool_close = 0 ∧
        o = WorkerOutcome.blocked ∧ pool1 = pool ∧
        evs = [Event.wait Cond.queue_not_empty]) ∨
    (pool.pool_close ≠ 0 ∧ o = WorkerOutcome.exited ∧ pool1 = pool ∧
        evs = [Event.unlock, Event.thread_exit]) ∨
    (pool.queue_cur_num ≠ 0 ∧ pool.pool_close = 0 ∧
        wrapInt (pool.queue_cur_num - 1) = 0 ∧
        o = WorkerOutcome.dequeued pool.head ∧
        pool1 = { pool with
                  queue_cur_num := wrapInt (pool.queue_cur_num - 1),
                  head := 0, tail := 0 }) ∨
    (pool.queue_cur_num ≠ 0 ∧ pool.pool_close = 0 ∧
        wrapInt (pool.queue_cur_num - 1) ≠ 0 ∧
        o = WorkerOutcome.dequeued pool.head ∧
        ∃ nd, load heap pool.head = some nd ∧
          pool1 = { pool with
                    queue_cur_num := wrapInt (pool.queue_cur_num - 1),
                    head := nd.next }) := by
  unfold threadpool_function_loop at run
  by_cases hidle : pool.queue_cur_num = 0 ∧ ¬ pool.pool_close ≠ 0
  · rw [if_pos hidle] at run
    simp only [Option.some.injEq, Prod.mk.injEq] at run
    obtain ⟨h1, h2, h3⟩ := run
    exact Or.inl ⟨hidle.1, not_not.mp hidle.2, h1.symm, h2.symm, h3.symm⟩
  · rw [if_neg hidle] at run
    by_cases hclose : pool.pool_close ≠ 0
    · rw [if_pos hclose] at run
      simp only [Option.some.injEq, Prod.mk.injEq] at run
      obtain ⟨h1, h2, h3⟩ := run
      exact Or.inr (Or.inl ⟨hclose, h1.symm, h2.symm, h3.symm⟩)
    · rw [if_neg hclose] at run
      have hp : pool.pool_close = 0 := not_not.mp hclose
      have hcur : pool.queue_cur_num ≠ 0 := fun e => hidle ⟨e, hclose⟩
      by_cases hlast : wrapInt (pool.queue_cur_num - 1) = 0
      · simp only [hlast, if_true, Option.some.injEq, Prod.mk.injEq] at run
        obtain ⟨h1, h2, _⟩ := run
        refine Or.inr (Or.inr (Or.inl ⟨hcur, hp, hlast, h1.symm, ?_⟩))
        rw [← h2, hlast]
      · simp only [hlast, if_false] at run
        cases hnd : load heap pool.head with
        | none => rw [hnd] at run; simp at run
        | some nd =>
          rw [hnd] at run
          simp only [Option.some.injEq, Prod.mk.injEq] at run
          obtain ⟨h1, h2, _⟩ := run
          exact Or.inr (Or.inr (Or.inr
            ⟨hcur, hp, hlast, h1.symm, nd, rfl, h2.symm⟩))

/-! ## The queue invariant is kept by every step -/

theorem QInv_perm (pool : threadpool) (heap : Heap) (fl fl1 : List Nat)
    (acc deq exe : List (Nat × Nat)) (q : List Nat) (hp : List.Perm fl fl1)
    (inv : QInv pool heap fl acc deq exe q) :
    QInv pool heap fl1 acc deq exe q where
  qm_int := inv.qm_int
  chain := inv.chain
  tail_last := inv.tail_last
  nodup := ((List.Perm.append_left q hp).nodup_iff).mp inv.nodup
  alloc := fun a ha =>
    inv.alloc a ((List.Perm.append_left q hp).mem_iff.mpr ha)
  cur_eq := inv.cur_eq
  cap := inv.cap
  fifo := inv.fifo
  once := inv.once.trans (List.Perm.append_left exe (hp.map _))
  closed := inv.closed

theorem payload_store_fresh (heap : Heap) (pjob a : Nat) (new : job)
    (h : a ≠ pjob) : payload (store heap pjob new) a = payload heap a :=
  payload_of_load_eq _ _ _ (load_store_ne _ _ _ _ (Ne.symm h))

theorem payload_store_next (heap : Heap) (t a x : Nat) (nt : job)
    (h : load heap t = some nt) :
    payload (store heap t { nt with next := x }) a = payload heap a := by
  by_cases e : t = a
  · subst e
    simp [payload, load_store_eq, h]
  · exact payload_of_load_eq _ _ _ (load_store_ne _ _ _ _ e)

theorem map_payload_congr (heap heap1 : Heap) (l : List Nat)
    (h : ∀ a ∈ l, payload heap1 a = payload heap a) :
    l.map (payload heap1) = l.map (payload heap) :=
  List.map_congr_left h

/-- A producer step keeps the queue invariant; when it returns `0` the new
node is the last of the queue and carries the arguments of the call. -/
theorem QInv_add (pool pool1 : threadpool) (heap heap1 : Heap) (fl : List Nat)
    (acc deq exe : List (Nat × Nat)) (q : List Nat) (cb arg pjob : Nat)
    (o : AddOutcome) (evs : List Event)
    (inv : QInv pool heap fl acc deq exe q)
    (fresh : pjob = 0 ∨ load heap pjob = none)
    (run : threadpool_add_job_loop pool heap cb arg pjob
            = some (o, pool1, heap1, evs)) :
    (o ≠ AddOutcome.returned 0 ∧ pool1 = pool ∧ heap1 = heap ∧
        QInv pool1 heap1 fl (acc ++ granted cb arg o) deq exe q) ∨
    (o = AddOutcome.returned 0 ∧ pjob ≠ 0 ∧
        payload heap1 pjob = (cb, arg) ∧
        (∀ a ∈ q, payload heap1 a = payload heap a) ∧
        QInv pool1 heap1 fl (acc ++ granted cb arg o) deq exe (q ++ [pjob])) := by
  have keep : QInv pool heap fl (acc ++ []) deq exe q := by
    rw [List.append_nil]; exact inv
  rcases add_job_loop_cases pool pool1 heap heap1 cb arg pjob o evs run with
    ⟨_, _, _, ho, hpool, hheap, _⟩ | ⟨_, ho, hpool, hheap, _⟩ |
    ⟨_, _, _, _, ho, hpool, hheap, _⟩ |
    ⟨hcur, hqc, hpc, hnz, hhead, ho, hpool, hheap, _⟩ |
    ⟨hcur, hqc, hpc, hnz, hhead, ho, hpool, ⟨t, ht, hheap⟩, _⟩
  · subst ho hpool hheap
    exact Or.inl ⟨by simp, rfl, rfl, by simpa [granted] using keep⟩
  · subst ho hpool hheap
    exact Or.inl ⟨by simp, rfl, rfl, by simpa [granted] using keep⟩
  · subst ho hpool hheap
    exact Or.inl ⟨by simp, rfl, rfl, by simpa [granted] using keep⟩
  · -- the queue was empty
    have hfresh : load heap pjob = none := fresh.resolve_left hnz
    have hq : q = [] := by
      have := inv.chain; rw [hhead] at this; exact lseg_null heap q this
    subst hq
    have hfl : ∀ a ∈ fl, a ≠ pjob := by
      intro a ha e
      exact (inv.alloc a (by simpa using ha)).2 (e ▸ hfresh)
    have hpay : payload heap1 pjob = (cb, arg) := by
      simp [hheap, payload, load_store_eq]
    refine Or.inr ⟨ho, hnz, hpay, by simp, ?_⟩
    have hcap := inv.cap
    have hcur0 := inv.cur_eq
    have hrange := inv.qm_int
    subst ho hpool hheap
    refine
      { qm_int := inv.qm_int
        chain := ⟨rfl, hnz, _, load_store_eq _ _ _, rfl⟩
        tail_last := fun _ => rfl
        nodup := ?_
        alloc := ?_
        cur_eq := ?_
        cap := ?_
        fifo := ?_
        once := ?_
        closed := fun h => absurd hpc h }
    · have h1 := inv.nodup
      simp only [List.nil_append] at h1 ⊢
      exact List.nodup_cons.mpr ⟨fun hm => hfl pjob hm rfl, h1⟩
    · intro a ha
      simp only [List.nil_append, List.singleton_append, List.mem_cons] at ha
      rcases ha with e | ha
      · subst e; exact ⟨hnz, by simp [load_store_eq]⟩
      · have h1 := inv.alloc a (by simpa using ha)
        refine ⟨h1.1, ?_⟩
        rw [load_store_ne _ _ _ _ (Ne.symm (hfl a ha))]; exact h1.2
    · simp only [hcur0, List.length_nil, List.nil_append, List.length_singleton]
      exact wrapInt_succ _
    · simp only [List.length_nil, List.nil_append, List.length_singleton] at *
      unfold wrapInt at hcur0
      unfold INT_MIN INT_MAX at hrange
      omega
    · have h1 := inv.fifo
      simp only [List.map_nil, List.append_nil] at h1
      simp [granted, h1, hpay]
    · have h1 := inv.once
      rw [map_payload_congr heap _ fl
        (fun a ha => payload_store_fresh heap pjob a _ (hfl a ha))]
      exact h1
  · -- the queue was not empty
    have hfresh : load heap pjob = none := fresh.resolve_left hnz
    obtain ⟨r, hr⟩ := lseg_head heap q pool.head hhead inv.chain
    have hne : q ≠ [] := by rw [hr]; simp
    obtain ⟨l, hl⟩ := List.getLast?_eq_some_iff.mp (inv.tail_last hne)
    have hall : ∀ a ∈ q ++ fl, a ≠ pjob := by
      intro a ha e
      exact (inv.alloc a ha).2 (e ▸ hfresh)
    have htq : pool.tail ∈ q := by rw [hl]; simp
    have htp : pool.tail ≠ pjob := hall _ (List.mem_append_left _ htq)
    have ht0 : load heap pool.tail = some t := by
      rw [load_store_ne _ _ _ _ (Ne.symm htp)] at ht; exact ht
    have hpayall : ∀ a, a ≠ pjob → payload heap1 a = payload heap a := by
      intro a ha
      rw [hheap, payload_store_next _ _ _ _ _ ht]
      exact payload_store_fresh heap pjob a _ ha
    have hpay : payload heap1 pjob = (cb, arg) := by
      rw [hheap, payload_store_next _ _ _ _ _ ht]
      simp [payload, load_store_eq]
    have hloadall : ∀ a, load heap a ≠ none → load heap1 a ≠ none := by
      intro a ha
      rw [hheap]
      by_cases e : pool.tail = a
      · subst e; simp [load_store_eq]
      · rw [load_store_ne _ _ _ _ e]
        by_cases e2 : pjob = a
        · subst e2; simp [load_store_eq]
        · rw [load_store_ne _ _ _ _ e2]; exact ha
    refine Or.inr ⟨ho, hnz, hpay,
      fun a ha => hpayall a (hall a (List.mem_append_left _ ha)), ?_⟩
    have hcap := inv.cap
    have hcur0 := inv.cur_eq
    have hrange := inv.qm_int
    have hnd := inv.nodup
    refine
      { qm_int := by rw [hpool]; exact inv.qm_int
        chain := ?_
        tail_last := fun _ => by rw [hpool]; simp
        nodup := ?_
        alloc := ?_
        cur_eq := ?_
        cap := ?_
        fifo := ?_
        once := ?_
        closed := fun h => by rw [hpool] at h; exact absurd hpc h }
    · have hc := inv.chain
      rw [hl] at hc hnd hall ⊢
      rw [hheap, hpool]
      apply lseg_snoc heap l pool.head pool.tail pjob t _ hc
      · exact (List.nodup_append.mp hnd).1
      · intro hm; exact hall pjob (List.mem_append_left _ hm) rfl
      · exact hnz
      · rfl
    · have : List.Perm (q ++ [pjob] ++ fl) (pjob :: (q ++ fl)) := by
        rw [List.append_assoc]
        exact List.perm_middle
      rw [this.nodup_iff]
      exact List.nodup_cons.mpr ⟨fun hm => hall pjob hm rfl, hnd⟩
    · intro a ha
      have ha1 : a = pjob ∨ a ∈ q ++ fl := by
        rcases List.mem_append.mp ha with h | h
        · rcases List.mem_append.mp h with h | h
          · exact Or.inr (List.mem_append_left _ h)
          · exact Or.inl (List.mem_singleton.mp h)
        · exact Or.inr (List.mem_append_right _ h)
      rcases ha1 with e | ha1
      · subst e
        refine ⟨hnz, ?_⟩
        rw [hheap, load_store_ne _ _ _ _ htp, load_store_eq]
        simp
      · exact ⟨(inv.alloc a ha1).1, hloadall a (inv.alloc a ha1).2⟩
    · rw [hpool]
      simp only [hcur0, List.length_append, List.length_singleton, Nat.cast_add,
        Nat.cast_one]
      exact wrapInt_succ _
    · rw [hpool]
      simp only [List.length_append, List.length_singleton, Nat.cast_add,
        Nat.cast_one]
      unfold wrapInt at hcur0
      unfold INT_MIN INT_MAX at hrange
      omega
    · have h1 := inv.fifo
      rw [ho]
      simp only [granted, if_true, List.map_append, List.map_cons, List.map_nil,
        hpay]
      rw [map_payload_congr heap heap1 q
        (fun a ha => hpayall a (hall a (List.mem_append_left _ ha))), h1,
        List.append_assoc]
    · have h1 := inv.once
      rw [map_payload_congr heap heap1 fl
        (fun a ha => hpayall a (hall a (List.mem_append_right _ ha)))]
      exact h1

theorem wrapInt_length_zero (pool : threadpool) (q : List Nat)
    (hcap : (q.length : Int) ≤ pool.queue_max_num % 4294967296)
    (h : wrapInt q.length = 0) : q = [] := by
  have : (q.length : Int) = 0 := by
    unfold wrapInt at h
    omega
  exact List.length_eq_zero.mp (by exact_mod_cast this)

/-- A worker step keeps the queue invariant; when it dequeues, the node it
takes is the first of the queue. -/
theorem QInv_dequeue (pool pool1 : threadpool) (heap : Heap) (fl : List Nat)
    (acc deq exe : List (Nat × Nat)) (q : List Nat) (o : WorkerOutcome)
    (evs : List Event) (inv : QInv pool heap fl acc deq exe q)
    (run : threadpool_function_loop pool heap = some (o, pool1, evs)) :
    ((o = WorkerOutcome.blocked ∨ o = WorkerOutcome.exited) ∧ pool1 = pool) ∨
    (∃ r, o = WorkerOutcome.dequeued pool.head ∧ q = pool.head :: r ∧
        pool.pool_close = 0 ∧
        QInv pool1 heap (pool.head :: fl) acc (deq ++ [payload heap pool.head])
          exe r) := by
  have body : ∀ r, q = pool.head :: r → pool.pool_close = 0 →
      lseg heap pool1.head r → (r ≠ [] → pool1.tail = pool.tail) →
      pool1.queue_cur_num = wrapInt (pool.queue_cur_num - 1) →
      pool1.queue_max_num = pool.queue_max_num →
      pool1.pool_close = pool.pool_close →
      QInv pool1 heap (pool.head :: fl) acc (deq ++ [payload heap pool.head])
        exe r := by
    intro r hq hpc hchain htail hcur hqm hclose
    have hperm : List.Perm (r ++ pool.head :: fl) (q ++ fl) := by
      rw [hq]; exact List.perm_middle
    refine
      { qm_int := by rw [hqm]; exact inv.qm_int
        chain := hchain
        tail_last := ?_
        nodup := hperm.nodup_iff.mpr inv.nodup
        alloc := fun a ha => inv.alloc a (hperm.mem_iff.mp ha)
        cur_eq := ?_
        cap := ?_
        fifo := ?_
        once := ?_
        closed := fun h => by rw [hclose] at h; exact absurd hpc h }
    · intro hne
      have h1 := inv.tail_last (by rw [hq]; simp)
      rw [htail hne, ← h1, hq]
      cases r with
      | nil => exact absurd rfl hne
      | cons b r => simp [List.getLast?_cons_cons]
    · rw [hcur, inv.cur_eq, hq, wrapInt_pred]
      simp
    · have h1 := inv.cap
      rw [hq] at h1
      rw [hqm]
      simp only [List.length_cons, Nat.cast_add, Nat.cast_one] at h1
      omega
    · rw [inv.fifo, hq]
      simp
    · have h1 := inv.once
      simp only [List.map_cons]
      exact (List.Perm.append_right _ h1).trans
        ((List.perm_append_singleton _ _).trans List.perm_middle.symm)
  rcases function_loop_cases pool pool1 heap o evs run with
    ⟨_, _, ho, hpool, _⟩ | ⟨_, ho, hpool, _⟩ |
    ⟨hcur, hpc, hlast, ho, hpool⟩ | ⟨hcur, hpc, hlast, ho, nd, hnd, hpool⟩
  · exact Or.inl ⟨Or.inl ho, hpool⟩
  · exact Or.inl ⟨Or.inr ho, hpool⟩
  · have hne : pool.head ≠ 0 := by
      intro e
      have := inv.chain
      rw [e] at this
      have hq := lseg_null heap q this
      rw [inv.cur_eq, hq] at hcur
      exact hcur wrapInt_zero
    obtain ⟨r, hr⟩ := lseg_head heap q pool.head hne inv.chain
    have hr0 : r = [] := by
      have h1 := inv.cap
      have h2 := inv.cur_eq
      have h3 := inv.qm_int
      rw [h2, wrapInt_pred, hr] at hlast
      rw [hr] at h1
      simp only [List.length_cons, Nat.cast_add, Nat.cast_one] at hlast h1
      have : ((r.length : Int)) = 0 := by
        unfold wrapInt at hlast
        unfold INT_MIN INT_MAX at h3
        omega
      exact List.length_eq_zero.mp (by exact_mod_cast this)
    refine Or.inr ⟨r, ho, hr, hpc, body r hr hpc ?_ ?_ ?_ ?_ ?_⟩
    · rw [hpool, hr0]; rfl
    · intro h; exact absurd hr0 h
    · rw [hpool]
    · rw [hpool]
    · rw [hpool]
  · have hne : pool.head ≠ 0 := by
      intro e
      have := inv.chain
      rw [e] at this
      have hq := lseg_null heap q this
      rw [inv.cur_eq, hq] at hcur
      exact hcur wrapInt_zero
    obtain ⟨r, hr⟩ := lseg_head heap q pool.head hne inv.chain
    refine Or.inr ⟨r, ho, hr, hpc, body r hr hpc ?_ ?_ ?_ ?_ ?_⟩
    · have hc := inv.chain
      rw [hr] at hc
      obtain ⟨_, _, nd1, hnd1, hrest⟩ := hc
      rw [hnd] at hnd1
      cases hnd1
      rw [hpool]; exact hrest
    · intro _; rw [hpool]
    · rw [hpool]
    · rw [hpool]
    · rw [hpool]

/-- Calling the callback of a held node and freeing the node keeps the queue
invariant: the queue is untouched and the job counts as executed. -/
theorem QInv_run (pool : threadpool) (heap heap1 : Heap) (fl : List Nat)
    (acc deq exe : List (Nat × Nat)) (q : List Nat) (pjob : Nat) (c : Nat × Nat)
    (evs : List Event) (inv : QInv pool heap (pjob :: fl) acc deq exe q)
    (run : threadpool_function_run heap pjob = some (c, heap1, evs)) :
    c = payload heap pjob ∧ heap1 = release heap pjob ∧
      QInv pool heap1 fl acc deq (exe ++ [c]) q := by
  unfold threadpool_function_run at run
  cases hnd : load heap pjob with
  | none => rw [hnd] at run; simp at run
  | some nd =>
    rw [hnd] at run
    simp only [Option.some.injEq, Prod.mk.injEq] at run
    obtain ⟨hc, hheap, _⟩ := run
    have hcp : c = payload heap pjob := by simp [payload, hnd, ← hc]
    have hnd2 : (pjob :: (q ++ fl)).Nodup :=
      (List.perm_middle.nodup_iff).mp inv.nodup
    have hfar : ∀ a ∈ q ++ fl, pjob ≠ a := by
      intro a ha e
      exact (List.nodup_cons.mp hnd2).1 (e ▸ ha)
    have hload : ∀ a ∈ q ++ fl, load heap1 a = load heap a := by
      intro a ha
      rw [← hheap]; exact load_release_ne heap pjob a (hfar a ha)
    refine ⟨hcp, hheap.symm,
      { qm_int := inv.qm_int
        chain := lseg_congr heap heap1 q pool.head
          (fun a ha => hload a (List.mem_append_left _ ha)) inv.chain
        tail_last := inv.tail_last
        nodup := (List.nodup_cons.mp hnd2).2
        alloc := ?_
        cur_eq := inv.cur_eq
        cap := inv.cap
        fifo := ?_
        once := ?_
        closed := inv.closed }⟩
    · intro a ha
      have h1 := inv.alloc a (List.perm_middle.mem_iff.mpr (List.mem_cons_of_mem _ ha))
      rw [hload a ha]; exact h1
    · rw [inv.fifo, map_payload_congr heap heap1 q
        (fun a ha => payload_of_load_eq _ _ _ (hload a (List.mem_append_left _ ha)))]
    · have h1 := inv.once
      rw [map_payload_congr heap heap1 fl
        (fun a ha => payload_of_load_eq _ _ _ (hload a (List.mem_append_right _ ha))),
        hcp, List.append_assoc]
      simpa using h1

/-- A change of the two flags alone keeps the queue invariant, provided
`pool_close` is only set on an empty queue. -/
theorem QInv_flags (pool pool1 : threadpool) (heap : Heap) (fl : List Nat)
    (acc deq exe : List (Nat × Nat)) (q : List Nat)
    (inv : QInv pool heap fl acc deq exe q)
    (hqm : pool1.queue_max_num = pool.queue_max_num)
    (hhead : pool1.head = pool.head) (htail : pool1.tail = pool.tail)
    (hcur : pool1.queue_cur_num = pool.queue_cur_num)
    (hclosed : pool1.pool_close ≠ 0 → pool.queue_cur_num = 0 ∨ q = []) :
    QInv pool1 heap fl acc deq exe q where
  qm_int := by rw [hqm]; exact inv.qm_int
  chain := by rw [hhead]; exact inv.chain
  tail_last := by rw [htail]; exact inv.tail_last
  nodup := inv.nodup
  alloc := inv.alloc
  cur_eq := by rw [hcur]; exact inv.cur_eq
  cap := by rw [hqm]; exact inv.cap
  fifo := inv.fifo
  once := inv.once
  closed := fun h => by
    rcases hclosed h with h0 | h0
    · exact wrapInt_length_zero pool q inv.cap (by rw [← inv.cur_eq]; exact h0)
    · exact h0

/-! ## Signals only mark waiting threads -/

theorem Quiet_id : Quiet id := fun _ => ⟨rfl, Iff.rfl⟩

theorem Quiet_notify : Quiet notify_worker := by
  intro w
  cases w <;> simp [notify_worker, slot]

theorem Quiet_comp (g h : WorkerPc → WorkerPc) (hg : Quiet g) (hh : Quiet h) :
    Quiet (g ∘ h) := by
  intro w
  refine ⟨?_, ?_⟩
  · simp only [Function.comp]; rw [(hg (h w)).1, (hh w).1]
  · simp only [Function.comp]; rw [(hg (h w)).2, (hh w).2]

theorem Notified_refl (s : System) : Notified s s where
  pool := rfl
  heap := rfl
  workers := ⟨id, Quiet_id, by simp⟩
  destroyer := Or.inl rfl
  accepted := rfl
  dequeued := rfl
  executed := rfl

theorem Notified_trans (s s1 s2 : System) (h1 : Notified s s1)
    (h2 : Notified s1 s2) : Notified s s2 where
  pool := h2.pool.trans h1.pool
  heap := h2.heap.trans h1.heap
  workers := by
    obtain ⟨f, hf, e1⟩ := h1.workers
    obtain ⟨g, hg, e2⟩ := h2.workers
    exact ⟨g ∘ f, Quiet_comp g f hg hf, by rw [e2, e1, List.map_map]⟩
  destroyer := by
    rcases h2.destroyer with e2 | ⟨b2, e2, e3⟩
    · rw [e2]; exact h1.destroyer
    · rcases h1.destroyer with e1 | ⟨b1, e1, _⟩
      · rw [e1] at e2; exact Or.inr ⟨b2, e2, e3⟩
      · exact Or.inr ⟨b1, e1, e3⟩
  accepted := h2.accepted.trans h1.accepted
  dequeued := h2.dequeued.trans h1.dequeued
  executed := h2.executed.trans h1.executed

theorem Notified_deliver (s : System) (e : Event) : Notified s (deliver s e) := by
  have keep := Notified_refl s
  cases e with
  | broadcast c =>
    cases c with
    | queue_empty => exact keep
    | queue_not_empty =>
      exact
        { pool := rfl, heap := rfl
          workers := ⟨notify_worker, Quiet_notify, rfl⟩
          destroyer := Or.inl rfl
          accepted := rfl, dequeued := rfl, executed := rfl }
    | queue_not_full =>
      exact
        { pool := rfl, heap := rfl
          workers := ⟨id, Quiet_id, by simp [deliver]⟩
          destroyer := Or.inl rfl
          accepted := rfl, dequeued := rfl, executed := rfl }
  | signal c =>
    cases c with
    | queue_empty =>
      refine
        { pool := rfl, heap := rfl
          workers := ⟨id, Quiet_id, by simp [deliver]⟩
          destroyer := ?_
          accepted := rfl, dequeued := rfl, executed := rfl }
      simp only [deliver]
      cases hd : s.destroyer with
      | draining b => exact Or.inr ⟨b, rfl, rfl⟩
      | idle => exact Or.inl rfl
      | joining i => exact Or.inl rfl
      | returned => exact Or.inl rfl
    | queue_not_empty => exact keep
    | queue_not_full => exact keep
  | _ => exact keep

theorem Notified_deliver_all (s : System) (evs : List Event) :
    Notified s (deliver_all s evs) := by
  induction evs generalizing s with
  | nil => exact Notified_refl s
  | cons e evs ih =>
    exact Notified_trans _ _ _ (Notified_deliver s e) (ih (deliver s e))

/-- The shutdown invariant only looks at the flags, at which workers have
exited and at the program point of the destroyer up to its `notified` mark. -/
theorem phase_keep (pool pool1 : threadpool) (ws ws1 : List WorkerPc)
    (d d1 : DestroyPc) (hqc : pool1.queue_close = pool.queue_close)
    (hpc : pool1.pool_close = pool.pool_close)
    (hlen : ws1.length = ws.length)
    (hex : ∀ j : Nat,
      ws[j]? = some WorkerPc.exited → ws1[j]? = some WorkerPc.exited)
    (hd : d1 = d ∨ ∃ b, d = DestroyPc.draining b ∧ d1 = DestroyPc.draining true)
    (h : phase pool ws d) : phase pool1 ws1 d1 := by
  rcases hd with e | ⟨b, e, e1⟩
  · subst e
    cases d1 with
    | idle => simpa [phase, hqc, hpc] using h
    | draining b => simpa [phase, hqc, hpc] using h
    | joining i =>
      obtain ⟨h1, h2, h3⟩ := h
      refine ⟨by rw [hqc]; exact h1, by rw [hpc]; exact h2, ?_⟩
      intro j hj hlt
      exact hex j (h3 j hj (by rw [← hlen]; exact hlt))
    | returned =>
      obtain ⟨h1, h2, h3⟩ := h
      refine ⟨by rw [hqc]; exact h1, by rw [hpc]; exact h2, ?_⟩
      intro w hw
      obtain ⟨j, hj⟩ := List.mem_iff_getElem?.mp hw
      have hlt : j < ws.length := by
        rw [← hlen]
        by_contra hge
        rw [List.getElem?_eq_none (by omega)] at hj
        exact absurd hj (by simp)
      have hw0 : ws[j]? = some ws[j] := List.getElem?_eq_getElem hlt
      have hx : ws[j] = WorkerPc.exited := h3 _ (List.getElem_mem hlt)
      rw [hx] at hw0
      have := hex j hw0
      rw [hj] at this
      exact Option.some.inj this
  · subst e e1
    simpa [phase, hqc, hpc] using h

/-! ## Frames of the steps -/

theorem add_job_entry (pool pool1 : threadpool) (heap heap1 : Heap)
    (cb arg pjob : Nat) (o : AddOutcome) (evs : List Event)
    (run : threadpool_add_job pool heap cb arg pjob
            = some (o, pool1, heap1, evs)) :
    cb ≠ 0 ∧ arg ≠ 0 ∧ ∃ evs0, evs = Event.lock :: evs0 ∧
      threadpool_add_job_loop pool heap cb arg pjob
        = some (o, pool1, heap1, evs0) := by
  unfold threadpool_add_job at run
  by_cases h : cb = 0 ∨ arg = 0
  · rw [if_pos h] at run; simp at run
  · rw [if_neg h] at run
    cases hl : threadpool_add_job_loop pool heap cb arg pjob with
    | none => rw [hl] at run; simp at run
    | some r =>
      obtain ⟨o0, p0, h0, e0⟩ := r
      rw [hl] at run
      simp only [Option.some.injEq, Prod.mk.injEq] at run
      obtain ⟨e1, e2, e3, e4⟩ := run
      subst e1 e2 e3 e4
      exact ⟨fun e => h (Or.inl e), fun e => h (Or.inr e), e0, rfl, rfl⟩

theorem function_entry (pool pool1 : threadpool) (heap : Heap)
    (o : WorkerOutcome) (evs : List Event)
    (run : threadpool_function pool heap = some (o, pool1, evs)) :
    ∃ evs0, evs = Event.lock :: evs0 ∧
      threadpool_function_loop pool heap = some (o, pool1, evs0) := by
  unfold threadpool_function at run
  cases hl : threadpool_function_loop pool heap with
  | none => rw [hl] at run; simp at run
  | some r =>
    obtain ⟨o0, p0, e0⟩ := r
    rw [hl] at run
    simp only [Option.some.injEq, Prod.mk.injEq] at run
    obtain ⟨e1, e2, e3⟩ := run
    subst e1 e2 e3
    exact ⟨e0, rfl, rfl⟩

/-- No step of `threadpool_add_job` writes the sizes or the flags. -/
theorem add_job_loop_frame (pool pool1 : threadpool) (heap heap1 : Heap)
    (cb arg pjob : Nat) (o : AddOutcome) (evs : List Event)
    (run : threadpool_add_job_loop pool heap cb arg pjob
            = some (o, pool1, heap1, evs)) :
    pool1.thread_num = pool.thread_num ∧
      pool1.queue_max_num = pool.queue_max_num ∧
      pool1.queue_close = pool.queue_close ∧
      pool1.pool_close = pool.pool_close := by
  rcases add_job_loop_cases pool pool1 heap heap1 cb arg pjob o evs run with
    ⟨_, _, _, _, hpool, _⟩ | ⟨_, _, hpool, _⟩ | ⟨_, _, _, _, _, hpool, _⟩ |
    ⟨_, _, _, _, _, _, hpool, _⟩ | ⟨_, _, _, _, _, _, hpool, _⟩ <;>
  simp [hpool]

/-- No step of `threadpool_function` writes the sizes or the flags. -/
theorem function_loop_frame (pool pool1 : threadpool) (heap : Heap)
    (o : WorkerOutcome) (evs : List Event)
    (run : threadpool_function_loop pool heap = some (o, pool1, evs)) :
    pool1.thread_num = pool.thread_num ∧
      pool1.queue_max_num = pool.queue_max_num ∧
      pool1.queue_close = pool.queue_close ∧
      pool1.pool_close = pool.pool_close := by
  rcases function_loop_cases pool pool1 heap o evs run with
    ⟨_, _, _, hpool, _⟩ | ⟨_, _, hpool, _⟩ | ⟨_, _, _, _, hpool⟩ |
    ⟨_, _, _, _, nd, _, hpool⟩ <;>
  simp [hpool]

/-- The two ways through `threadpool_destory_loop`. -/
theorem destory_loop_cases (pool pool1 : threadpool) (o : DestroyOutcome)
    (evs : List Event) (run : threadpool_destory_loop pool = (o, pool1, evs)) :
    (pool.queue_cur_num ≠ 0 ∧ o = DestroyOutcome.blocked ∧ pool1 = pool ∧
        evs = [Event.wait Cond.queue_empty]) ∨
    (pool.queue_cur_num = 0 ∧ o = DestroyOutcome.joining ∧
        pool1 = { pool with pool_close := 1 } ∧
        evs = [Event.unlock, Event.broadcast Cond.queue_not_full,
               Event.broadcast Cond.queue_not_empty]) := by
  unfold threadpool_destory_loop at run
  by_cases h : pool.queue_cur_num ≠ 0
  · rw [if_pos h] at run
    simp only [Prod.mk.injEq] at run
    obtain ⟨h1, h2, h3⟩ := run
    exact Or.inl ⟨h, h1.symm, h2.symm, h3.symm⟩
  · rw [if_neg h] at run
    simp only [Prod.mk.injEq] at run
    obtain ⟨h1, h2, h3⟩ := run
    exact Or.inr ⟨not_not.mp h, h1.symm, h2.symm, h3.symm⟩

/-- The three ways through `threadpool_destory`. -/
theorem destory_cases (pool pool1 : threadpool) (o : DestroyOutcome)
    (evs : List Event) (run : threadpool_destory pool = (o, pool1, evs)) :
    ((pool.queue_close ≠ 0 ∨ pool.pool_close ≠ 0) ∧
        o = DestroyOutcome.rejected (-1) ∧ pool1 = pool ∧
        evs = [Event.lock, Event.unlock]) ∨
    (pool.queue_close = 0 ∧ pool.pool_close = 0 ∧
        pool.queue_cur_num ≠ 0 ∧ o = DestroyOutcome.blocked ∧
        pool1 = { pool with queue_close := 1 } ∧
        evs = [Event.lock, Event.wait Cond.queue_empty]) ∨
    (pool.queue_close = 0 ∧ pool.pool_close = 0 ∧
        pool.queue_cur_num = 0 ∧ o = DestroyOutcome.joining ∧
        pool1 = { pool with queue_close := 1, pool_close := 1 } ∧
        evs = [Event.lock, Event.unlock, Event.broadcast Cond.queue_not_full,
               Event.broadcast Cond.queue_not_empty]) := by
  unfold threadpool_destory at run
  by_cases h : pool.queue_close ≠ 0 ∨ pool.pool_close ≠ 0
  · rw [if_pos h] at run
    simp only [Prod.mk.injEq] at run
    obtain ⟨h1, h2, h3⟩ := run
    exact Or.inl ⟨h, h1.symm, h2.symm, h3.symm⟩
  · rw [if_neg h] at run
    have hq : pool.queue_close = 0 := by
      by_contra hc; exact h (Or.inl hc)
    have hp : pool.pool_close = 0 := by
      by_contra hc; exact h (Or.inr hc)
    cases hl : threadpool_destory_loop { pool with queue_close := 1 } with
    | mk o0 r =>
      obtain ⟨p0, e0⟩ := r
      rw [hl] at run
      simp only [Prod.mk.injEq] at run
      obtain ⟨e1, e2, e3⟩ := run
      subst e1 e2 e3
      rcases destory_loop_cases _ _ _ _ hl with
        ⟨hc, ho, hpool, hev⟩ | ⟨hc, ho, hpool, hev⟩
      · exact Or.inr (Or.inl ⟨hq, hp, hc, ho, hpool, by rw [hev]⟩)
      · exact Or.inr (Or.inr ⟨hq, hp, hc, ho, hpool, by rw [hev]⟩)

theorem free_residual_null (heap : Heap) (fuel : Nat) :
    free_residual heap 0 (fuel + 1) = some (heap, []) := by
  simp [free_residual]

/-! ## The invariant is kept by every step -/

theorem exited_set_map (ws : List WorkerPc) (i : Nat) (w w1 : WorkerPc)
    (h : WorkerPc → WorkerPc) (quiet : Quiet h) (at_i : ws[i]? = some w)
    (alive : w ≠ WorkerPc.exited) (j : Nat)
    (hj : ws[j]? = some WorkerPc.exited) :
    ((ws.map h).set i w1)[j]? = some WorkerPc.exited := by
  have hij : i ≠ j := by
    intro e
    subst e
    rw [at_i] at hj
    exact alive (Option.some.inj hj)
  rw [List.getElem?_set_ne hij, List.getElem?_map, hj]
  simp [(quiet WorkerPc.exited).2]

theorem exited_map (ws : List WorkerPc) (h : WorkerPc → WorkerPc)
    (quiet : Quiet h) (j : Nat) (hj : ws[j]? = some WorkerPc.exited) :
    (ws.map h)[j]? = some WorkerPc.exited := by
  rw [List.getElem?_map, hj]
  simp [(quiet WorkerPc.exited).2]

/-- A producer step, from the call or from a wakeup, keeps the invariant. -/
theorem Inv_producer (tn qm : Int) (s s1 : System) (q : List Nat)
    (cb arg pjob : Nat) (o : AddOutcome) (pool1 : threadpool) (heap1 : Heap)
    (evs0 : List Event) (inv : Inv tn qm s q)
    (fresh : pjob = 0 ∨ load s.heap pjob = none)
    (run : threadpool_add_job_loop s.pool s.heap cb arg pjob
            = some (o, pool1, heap1, evs0))
    (note : Notified { s with pool := pool1, heap := heap1 } s1) :
    ∀ ps, ∃ q1,
      Inv tn qm { s1 with producers := ps,
                          accepted := s1.accepted ++ granted cb arg o } q1 ∧
      (q1 = q ∨ (q1 = q ++ [pjob] ∧ o = AddOutcome.returned 0)) := by
  intro ps
  obtain ⟨h, quiet, hws⟩ := note.workers
  obtain ⟨f1, f2, f3, f4⟩ :=
    add_job_loop_frame _ _ _ _ _ _ _ _ _ run
  have main : ∀ q1,
      QInv pool1 heap1 (inflight s.workers) (s.accepted ++ granted cb arg o)
        s.dequeued s.executed q1 →
      Inv tn qm { s1 with producers := ps,
                          accepted := s1.accepted ++ granted cb arg o } q1 := by
    intro q1 hq
    refine
      { tn_eq := ?_, qm_eq := ?_, nworkers := ?_, queue := ?_, shutdown := ?_ }
    · show s1.pool.thread_num = tn
      rw [note.pool]; exact f1.trans inv.tn_eq
    · show s1.pool.queue_max_num = qm
      rw [note.pool]; exact f2.trans inv.qm_eq
    · show s1.workers.length = tn.toNat
      rw [hws, List.length_map]; exact inv.nworkers
    · show QInv s1.pool s1.heap (inflight s1.workers)
        (s1.accepted ++ granted cb arg o) s1.dequeued s1.executed q1
      rw [note.pool, note.heap, hws, inflight_map _ _ quiet, note.accepted,
        note.dequeued, note.executed]
      exact hq
    · show phase s1.pool s1.workers s1.destroyer
      refine phase_keep s.pool s1.pool s.workers s1.workers s.destroyer
        s1.destroyer ?_ ?_ ?_ ?_ note.destroyer inv.shutdown
      · rw [note.pool]; exact f3
      · rw [note.pool]; exact f4
      · rw [hws, List.length_map]
      · intro j hj; rw [hws]; exact exited_map _ _ quiet j hj
  rcases QInv_add _ _ _ _ _ _ _ _ _ _ _ _ _ _ inv.queue fresh run with
    ⟨_, _, _, hq⟩ | ⟨ho, _, _, _, hq⟩
  · exact ⟨q, main q hq, Or.inl rfl⟩
  · exact ⟨q ++ [pjob], main _ hq, Or.inr ⟨rfl, ho⟩⟩

/-- A worker step of `threadpool_function`, from the lock or from a wakeup,
keeps the invariant. -/
theorem Inv_worker (tn qm : Int) (s : System) (q : List Nat) (i : Nat)
    (w : WorkerPc) (o : WorkerOutcome) (pool1 : threadpool)
    (evs0 evs : List Event) (inv : Inv tn qm s q)
    (at_i : s.workers[i]? = some w) (idle : slot w = [])
    (alive : w ≠ WorkerPc.exited)
    (run : threadpool_function_loop s.pool s.heap = some (o, pool1, evs0)) :
    ∃ q1, Inv tn qm (worker_next s i o pool1 evs) q1 ∧
      (q1 = q ∧ taken s.heap o = [] ∨
        q = s.pool.head :: q1 ∧ o = WorkerOutcome.dequeued s.pool.head) := by
  have note := Notified_deliver_all { s with pool := pool1 } evs
  obtain ⟨h, quiet, hws⟩ := note.workers
  obtain ⟨f1, f2, f3, f4⟩ := function_loop_frame _ _ _ _ _ run
  have hperm := inflight_set s.workers i w (worker_pc o) h quiet at_i
  rw [idle, List.nil_append] at hperm
  have main : ∀ q1,
      QInv pool1 s.heap (slot (worker_pc o) ++ inflight s.workers) s.accepted
        (s.dequeued ++ taken s.heap o) s.executed q1 →
      Inv tn qm (worker_next s i o pool1 evs) q1 := by
    intro q1 hq
    refine
      { tn_eq := ?_, qm_eq := ?_, nworkers := ?_, queue := ?_, shutdown := ?_ }
    · show (deliver_all { s with pool := pool1 } evs).pool.thread_num = tn
      rw [note.pool]; exact f1.trans inv.tn_eq
    · show (deliver_all { s with pool := pool1 } evs).pool.queue_max_num = qm
      rw [note.pool]; exact f2.trans inv.qm_eq
    · show ((deliver_all { s with pool := pool1 } evs).workers.set i
        (worker_pc o)).length = tn.toNat
      rw [hws, List.length_set, List.length_map]; exact inv.nworkers
    · show QInv (deliver_all { s with pool := pool1 } evs).pool
        (deliver_all { s with pool := pool1 } evs).heap
        (inflight ((deliver_all { s with pool := pool1 } evs).workers.set i
          (worker_pc o)))
        (deliver_all { s with pool := pool1 } evs).accepted
        ((deliver_all { s with pool := pool1 } evs).dequeued ++ taken s.heap o)
        (deliver_all { s with pool := pool1 } evs).executed q1
      rw [note.pool, note.heap, hws, note.accepted, note.dequeued,
        note.executed]
      exact QInv_perm _ _ _ _ _ _ _ _ hperm.symm hq
    · show phase (deliver_all { s with pool := pool1 } evs).pool
        ((deliver_all { s with pool := pool1 } evs).workers.set i (worker_pc o))
        (deliver_all { s with pool := pool1 } evs).destroyer
      refine phase_keep s.pool _ s.workers _ s.destroyer _ ?_ ?_ ?_ ?_
        note.destroyer inv.shutdown
      · rw [note.pool]; exact f3
      · rw [note.pool]; exact f4
      · rw [hws, List.length_set, List.length_map]
      · intro j hj; rw [hws]
        exact exited_set_map _ _ _ _ _ quiet at_i alive j hj
  rcases QInv_dequeue _ _ _ _ _ _ _ _ _ _ inv.queue run with
    ⟨ho, hpool⟩ | ⟨r, ho, hq, _, hinv⟩
  · refine ⟨q, main q ?_, Or.inl ⟨rfl, ?_⟩⟩
    · rcases ho with ho | ho <;> subst ho <;> rw [hpool] <;>
        simpa [worker_pc, slot, taken] using inv.queue
    · rcases ho with ho | ho <;> subst ho <;> rfl
  · refine ⟨r, main r ?_, Or.inr ⟨hq, ho⟩⟩
    subst ho
    simpa [worker_pc, slot, taken] using hinv

theorem Inv_step (tn qm : Int) (s s1 : System) (q : List Nat)
    (inv : Inv tn qm s q) (move : Step s s1) : ∃ q1, Inv tn qm s1 q1 := by
  cases move with
  | add_call cb arg pjob o pool1 heap1 evs alive fresh run =>
    obtain ⟨_, _, evs0, _, run0⟩ := add_job_entry _ _ _ _ _ _ _ _ _ run
    obtain ⟨q1, h, _⟩ := Inv_producer tn qm s _ q cb arg pjob o pool1 heap1 evs0
      inv fresh run0
      (Notified_deliver_all { s with pool := pool1, heap := heap1 } evs) _
    exact ⟨q1, h⟩
  | add_wake i p pjob o pool1 heap1 evs alive at_wait fresh run =>
    obtain ⟨q1, h, _⟩ := Inv_producer tn qm s _ q p.callback_function p.arg
      pjob o pool1 heap1 evs inv fresh run
      (Notified_deliver_all { s with pool := pool1, heap := heap1 } evs) _
    exact ⟨q1, h⟩
  | worker_lock i o pool1 evs alive at_lock run =>
    obtain ⟨evs0, _, run0⟩ := function_entry _ _ _ _ _ run
    obtain ⟨q1, h, _⟩ := Inv_worker tn qm s q i WorkerPc.ready o pool1 evs0 evs
      inv at_lock rfl (by simp) run0
    exact ⟨q1, h⟩
  | worker_wake i b o pool1 evs alive at_wait run =>
    obtain ⟨q1, h, _⟩ := Inv_worker tn qm s q i (WorkerPc.waiting b) o pool1 evs
      evs inv at_wait rfl (by simp) run
    exact ⟨q1, h⟩
  | worker_run i pjob c heap1 evs alive at_call run =>
    have hperm := inflight_set s.workers i (WorkerPc.running pjob)
      WorkerPc.ready id Quiet_id at_call
    simp only [slot, List.map_id, List.nil_append, List.singleton_append]
      at hperm
    have hq := QInv_perm _ _ _ _ _ _ _ _ hperm.symm inv.queue
    obtain ⟨_, _, hq1⟩ := QInv_run _ _ _ _ _ _ _ _ _ _ _ hq run
    refine ⟨q,
      { tn_eq := inv.tn_eq, qm_eq := inv.qm_eq, nworkers := ?_, queue := hq1,
        shutdown := ?_ }⟩
    · show (s.workers.set i WorkerPc.ready).length = tn.toNat
      rw [List.length_set]; exact inv.nworkers
    · show phase s.pool (s.workers.set i WorkerPc.ready) s.destroyer
      refine phase_keep s.pool s.pool s.workers _ s.destroyer _ rfl rfl
        (by rw [List.length_set]) ?_ (Or.inl rfl) inv.shutdown
      intro j hj
      have := exited_set_map s.workers i _ WorkerPc.ready id Quiet_id at_call
        (by simp) j hj
      simpa using this
  | destroy_call o pool1 evs alive run =>
    rcases destory_cases _ _ _ _ run with
      ⟨_, ho, _, _⟩ | ⟨hqc, hpc, hcur, ho, hpool, _⟩ |
      ⟨hqc, hpc, hcur, ho, hpool, _⟩
    · subst ho; exact ⟨q, inv⟩
    · subst ho
      have note := Notified_deliver_all { s with pool := pool1 } evs
      obtain ⟨h, quiet, hws⟩ := note.workers
      refine ⟨q,
        { tn_eq := ?_, qm_eq := ?_, nworkers := ?_, queue := ?_,
          shutdown := ?_ }⟩
      · show (deliver_all { s with pool := pool1 } evs).pool.thread_num = tn
        rw [note.pool, hpool]; exact inv.tn_eq
      · show (deliver_all { s with pool := pool1 } evs).pool.queue_max_num = qm
        rw [note.pool, hpool]; exact inv.qm_eq
      · show (deliver_all { s with pool := pool1 } evs).workers.length = _
        rw [hws, List.length_map]; exact inv.nworkers
      · show QInv (deliver_all { s with pool := pool1 } evs).pool
          (deliver_all { s with pool := pool1 } evs).heap
          (inflight (deliver_all { s with pool := pool1 } evs).workers)
          (deliver_all { s with pool := pool1 } evs).accepted
          (deliver_all { s with pool := pool1 } evs).dequeued
          (deliver_all { s with pool := pool1 } evs).executed q
        rw [note.pool, note.heap, hws, inflight_map _ _ quiet, note.accepted,
          note.dequeued, note.executed]
        refine QInv_flags s.pool pool1 _ _ _ _ _ _ inv.queue ?_ ?_ ?_ ?_ ?_ <;>
          rw [hpool]
        intro hc; exact absurd hpc hc
      · show phase (deliver_all { s with pool := pool1 } evs).pool _
          (DestroyPc.draining false)
        rw [note.pool, hpool]
        exact ⟨by simp, hpc⟩
    · subst ho
      have note := Notified_deliver_all { s with pool := pool1 } evs
      obtain ⟨h, quiet, hws⟩ := note.workers
      refine ⟨q,
        { tn_eq := ?_, qm_eq := ?_, nworkers := ?_, queue := ?_,
          shutdown := ?_ }⟩
      · show (deliver_all { s with pool := pool1 } evs).pool.thread_num = tn
        rw [note.pool, hpool]; exact inv.tn_eq
      · show (deliver_all { s with pool := pool1 } evs).pool.queue_max_num = qm
        rw [note.pool, hpool]; exact inv.qm_eq
      · show (deliver_all { s with pool := pool1 } evs).workers.length = _
        rw [hws, List.length_map]; exact inv.nworkers
      · show QInv (deliver_all { s with pool := pool1 } evs).pool
          (deliver_all { s with pool := pool1 } evs).heap
          (inflight (deliver_all { s with pool := pool1 } evs).workers)
          (deliver_all { s with pool := pool1 } evs).accepted
          (deliver_all { s with pool := pool1 } evs).dequeued
          (deliver_all { s with pool := pool1 } evs).executed q
        rw [note.pool, note.heap, hws, inflight_map _ _ quiet, note.accepted,
          note.dequeued, note.executed]
        refine QInv_flags s.pool pool1 _ _ _ _ _ _ inv.queue ?_ ?_ ?_ ?_ ?_ <;>
          rw [hpool]
        intro _; exact Or.inl hcur
      · show phase (deliver_all { s with pool := pool1 } evs).pool _
          (DestroyPc.joining 0)
        rw [note.pool, hpool]
        exact ⟨by simp, by simp, fun j hj => absurd hj (Nat.not_lt_zero j)⟩
  | destroy_wake b o pool1 evs at_wait run =>
    have hph := inv.shutdown
    rw [at_wait] at hph
    obtain ⟨hqc, hpc⟩ := hph
    rcases destory_loop_cases _ _ _ _ run with
      ⟨hcur, ho, hpool, _⟩ | ⟨hcur, ho, hpool, _⟩
    · subst ho
      have note := Notified_deliver_all { s with pool := pool1 } evs
      obtain ⟨h, quiet, hws⟩ := note.workers
      refine ⟨q,
        { tn_eq := ?_, qm_eq := ?_, nworkers := ?_, queue := ?_,
          shutdown := ?_ }⟩
      · show (deliver_all { s with pool := pool1 } evs).pool.thread_num = tn
        rw [note.pool, hpool]; exact inv.tn_eq
      · show (deliver_all { s with pool := pool1 } evs).pool.queue_max_num = qm
        rw [note.pool, hpool]; exact inv.qm_eq
      · show (deliver_all { s with pool := pool1 } evs).workers.length = _
        rw [hws, List.length_map]; exact inv.nworkers
      · show QInv (deliver_all { s with pool := pool1 } evs).pool
          (deliver_all { s with pool := pool1 } evs).heap
          (inflight (deliver_all { s with pool := pool1 } evs).workers)
          (deliver_all { s with pool := pool1 } evs).accepted
          (deliver_all { s with pool := pool1 } evs).dequeued
          (deliver_all { s with pool := pool1 } evs).executed q
        rw [note.pool, note.heap, hws, inflight_map _ _ quiet, note.accepted,
          note.dequeued, note.executed, hpool]
        exact inv.queue
      · show phase (deliver_all { s with pool := pool1 } evs).pool _
          (DestroyPc.draining false)
        rw [note.pool, hpool]
        exact ⟨hqc, hpc⟩
    · subst ho
      have note := Notified_deliver_all { s with pool := pool1 } evs
      obtain ⟨h, quiet, hws⟩ := note.workers
      refine ⟨q,
        { tn_eq := ?_, qm_eq := ?_, nworkers := ?_, queue := ?_,
          shutdown := ?_ }⟩
      · show (deliver_all { s with pool := pool1 } evs).pool.thread_num = tn
        rw [note.pool, hpool]; exact inv.tn_eq
      · show (deliver_all { s with pool := pool1 } evs).pool.queue_max_num = qm
        rw [note.pool, hpool]; exact inv.qm_eq
      · show (deliver_all { s with pool := pool1 } evs).workers.length = _
        rw [hws, List.length_map]; exact inv.nworkers
      · show QInv (deliver_all { s with pool := pool1 } evs).pool
          (deliver_all { s with pool := pool1 } evs).heap
          (inflight (deliver_all { s with pool := pool1 } evs).workers)
          (deliver_all { s with pool := pool1 } evs).accepted
          (deliver_all { s with pool := pool1 } evs).dequeued
          (deliver_all { s with pool := pool1 } evs).executed q
        rw [note.pool, note.heap, hws, inflight_map _ _ quiet, note.accepted,
          note.dequeued, note.executed]
        refine QInv_flags s.pool pool1 _ _ _ _ _ _ inv.queue ?_ ?_ ?_ ?_ ?_ <;>
          rw [hpool]
        intro _; exact Or.inl hcur
      · show phase (deliver_all { s with pool := pool1 } evs).pool _
          (DestroyPc.joining 0)
        rw [note.pool, hpool]
        exact ⟨hqc, by simp, fun j hj => absurd hj (Nat.not_lt_zero j)⟩
  | destroy_join i at_join more gone =>
    have hph := inv.shutdown
    rw [at_join] at hph
    obtain ⟨hqc, hpc, hex⟩ := hph
    refine ⟨q,
      { tn_eq := inv.tn_eq, qm_eq := inv.qm_eq, nworkers := inv.nworkers,
        queue := inv.queue, shutdown := ⟨hqc, hpc, ?_⟩ }⟩
    intro j hj hlt
    by_cases e : j = i
    · rw [e]; exact gone
    · exact hex j (by omega) hlt
  | destroy_finish i rc pool1 heap1 evs at_join done run =>
    have hph := inv.shutdown
    rw [at_join] at hph
    obtain ⟨hqc, hpc, hex⟩ := hph
    have hq : q = [] := inv.queue.closed hpc
    have hhead : s.pool.head = 0 := by
      have := inv.queue.chain
      rw [hq] at this
      exact this
    unfold threadpool_destory_cleanup at run
    rw [hhead, free_residual_null] at run
    simp only [Option.some.injEq, Prod.mk.injEq] at run
    obtain ⟨_, hpool, hheap, _⟩ := run
    have hpool1 : pool1 = s.pool := by
      rw [← hpool, ← hhead]
    subst hpool1 hheap
    refine ⟨q,
      { tn_eq := inv.tn_eq, qm_eq := inv.qm_eq, nworkers := inv.nworkers,
        queue := inv.queue, shutdown := ⟨hqc, hpc, ?_⟩ }⟩
    intro w hw
    obtain ⟨j, hlt, hj⟩ := List.mem_iff_getElem.mp hw
    have hlen := inv.nworkers
    have htn := inv.tn_eq
    have hji : j < i := by
      have hlt2 : j < s.workers.length := hlt
      rw [hlen] at hlt2
      rw [htn] at done
      omega
    have := hex j hji hlt
    rw [List.getElem?_eq_getElem hlt, hj] at this
    exact Option.some.inj this

theorem Inv_boot (tn qm : Int) (env : InitEnv) (pool : threadpool)
    (evs : List Event) (qm_int : INT_MIN ≤ qm ∧ qm ≤ INT_MAX)
    (built : threadpool_init tn qm env = (some pool, evs)) :
    Inv tn qm (boot pool) [] := by
  have hpool : pool =
      { thread_num := tn, queue_max_num := qm, queue_cur_num := 0, head := 0,
        tail := 0, queue_close := 0, pool_close := 0 } := by
    unfold threadpool_init at built
    split at built <;> try (simp at built)
    repeat' (split at built <;> try (simp at built))
    exact built.1.symm
  subst hpool
  have hfl : ∀ n, inflight (List.replicate n WorkerPc.ready) = [] := by
    intro n
    induction n with
    | zero => rfl
    | succ n ih => simp [List.replicate_succ, inflight, slot, ih]
  refine
    { tn_eq := rfl, qm_eq := rfl, nworkers := by simp [boot],
      queue := ?_, shutdown := ⟨rfl, rfl⟩ }
  simp only [boot, hfl]
  exact
    { qm_int := qm_int
      chain := rfl
      tail_last := fun h => absurd rfl h
      nodup := List.nodup_nil
      alloc := fun a ha => by simp at ha
      cur_eq := wrapInt_zero.symm
      cap := by simp only [List.length_nil, Nat.cast_zero]; omega
      fifo := rfl
      once := List.Perm.refl _
      closed := fun _ => rfl }

/-- Every reachable state satisfies the invariant for some list of queued
addresses. -/
theorem Inv_reachable (tn qm : Int) (s : System) (h : Reachable tn qm s) :
    ∃ q, Inv tn qm s q := by
  induction h with
  | init env pool evs tn_int qm_int built =>
    exact ⟨[], Inv_boot tn qm env pool evs qm_int built⟩
  | step s s1 _ move ih =>
    obtain ⟨q, inv⟩ := ih
    exact Inv_step tn qm s s1 q inv move

/-! ## Reading the invariant -/

/-- Under the queue invariant the walk from `head` finds exactly `q`. -/
theorem queue_nodes_eq (pool : threadpool) (heap : Heap) (fl : List Nat)
    (acc deq exe : List (Nat × Nat)) (q : List Nat)
    (inv : QInv pool heap fl acc deq exe q) : queue_nodes pool heap = q := by
  unfold queue_nodes
  apply walk_of_lseg heap q pool.head heap.length inv.chain
  apply length_le_heap heap q (List.nodup_append.mp inv.nodup).1
  intro a ha
  exact (inv.alloc a (List.mem_append_left _ ha)).2

theorem queue_jobs_eq (pool : threadpool) (heap : Heap) (fl : List Nat)
    (acc deq exe : List (Nat × Nat)) (q : List Nat)
    (inv : QInv pool heap fl acc deq exe q) :
    queue_jobs pool heap = q.map (payload heap) := by
  unfold queue_jobs
  rw [queue_nodes_eq pool heap fl acc deq exe q inv]

/-- With a positive capacity the counter is the length of the queue and stays
within the capacity. -/
theorem counter_bounds (pool : threadpool) (heap : Heap) (fl : List Nat)
    (acc deq exe : List (Nat × Nat)) (q : List Nat)
    (inv : QInv pool heap fl acc deq exe q) (pos : 0 < pool.queue_max_num) :
    pool.queue_cur_num = q.length ∧ pool.queue_cur_num ≤ pool.queue_max_num := by
  have h1 := inv.cur_eq
  have h2 := inv.cap
  have h3 := inv.qm_int
  unfold INT_MIN INT_MAX at h3
  unfold wrapInt at h1
  omega

/-- Once `pool_close` is set in a reachable state, the cleanup of
`threadpool_destory` finds no residual node and returns `0`. -/
theorem destory_cleanup_returns (tn qm : Int) (s : System)
    (reach : Reachable tn qm s) (closed : s.pool.pool_close ≠ 0) :
    threadpool_destory_cleanup s.pool s.heap
      = some (0, s.pool, s.heap,
          [Event.mutex_destroy, Event.cond_destroy Cond.queue_empty,
           Event.cond_destroy Cond.queue_not_empty,
           Event.cond_destroy Cond.queue_not_full, Event.free_pthreads,
           Event.free_pool]) := by
  obtain ⟨q, inv⟩ := Inv_reachable tn qm s reach
  have hq : q = [] := inv.queue.closed closed
  have hhead : s.pool.head = 0 := by
    have := inv.queue.chain
    rw [hq] at this
    exact this
  unfold threadpool_destory_cleanup
  rw [hhead, free_residual_null]
  simp only [List.append_nil, List.cons_append, List.nil_append]
  rw [← hhead]

/-! ## The claims -/

/-- C1, no lost work: in every run of a pool, once `threadpool_destory` has
returned `0` the executed (callback, argument) pairs are, as a multiset, exactly
the pairs for which `threadpool_add_job` returned `0`; no node is queued, no
worker holds one, and every worker has exited. -/
theorem no_lost_work (thread_num queue_max_num : Int) (s : System)
    (reach : Reachable thread_num queue_max_num s)
    (returned : s.destroyer = DestroyPc.returned) :
    (↑s.executed : Multiset (Nat × Nat)) = ↑s.accepted ∧
      queue_jobs s.pool s.heap = [] ∧ s.pool.queue_cur_num = 0 ∧
      inflight s.workers = [] ∧ ∀ w ∈ s.workers, w = WorkerPc.exited := by
  obtain ⟨q, inv⟩ := Inv_reachable thread_num queue_max_num s reach
  have hph := inv.shutdown
  rw [returned] at hph
  obtain ⟨_, hpc, hex⟩ := hph
  have hq : q = [] := inv.queue.closed hpc
  subst hq
  have hfl : inflight s.workers = [] := inflight_exited s.workers hex
  have hfifo := inv.queue.fifo
  have honce := inv.queue.once
  rw [hfl] at honce
  simp only [List.map_nil, List.append_nil] at hfifo honce
  refine ⟨?_, ?_, ?_, hfl, hex⟩
  · rw [hfifo]
    exact Multiset.coe_eq_coe.mpr honce.symm
  · rw [queue_jobs_eq _ _ _ _ _ _ _ inv.queue]; rfl
  · rw [inv.queue.cur_eq]; exact wrapInt_zero

/-- C2, capacity invariant: in every state reachable from
`threadpool_init(thread_num, queue_max_num)` with `queue_max_num` positive,
`0 ≤ queue_cur_num ≤ queue_max_num`, the capacity is still the one given to
`threadpool_init`, and the counter is the number of queued nodes. -/
theorem capacity_invariant (thread_num queue_max_num : Int) (s : System)
    (reach : Reachable thread_num queue_max_num s)
    (positive : 0 < queue_max_num) :
    0 ≤ s.pool.queue_cur_num ∧ s.pool.queue_cur_num ≤ s.pool.queue_max_num ∧
      s.pool.queue_max_num = queue_max_num ∧
      s.pool.queue_cur_num = (queue_nodes s.pool s.heap).length := by
  obtain ⟨q, inv⟩ := Inv_reachable thread_num queue_max_num s reach
  have hpos : 0 < s.pool.queue_max_num := by rw [inv.qm_eq]; exact positive
  obtain ⟨h1, h2⟩ := counter_bounds _ _ _ _ _ _ _ inv.queue hpos
  refine ⟨by rw [h1]; exact Int.ofNat_nonneg _, h2, inv.qm_eq, ?_⟩
  rw [queue_nodes_eq _ _ _ _ _ _ _ inv.queue]; exact h1

/-- C3, FIFO: in every reachable state the accepted jobs are, in order, the
jobs already dequeued followed by the jobs still queued from `head` on; hence
the `k`-th dequeued job is the `k`-th accepted job. -/
theorem fifo_order (thread_num queue_max_num : Int) (s : System)
    (reach : Reachable thread_num queue_max_num s) :
    s.accepted = s.dequeued ++ queue_jobs s.pool s.heap ∧
      ∀ k : Nat, k < s.dequeued.length → s.dequeued[k]? = s.accepted[k]? := by
  obtain ⟨q, inv⟩ := Inv_reachable thread_num queue_max_num s reach
  have h : s.accepted = s.dequeued ++ queue_jobs s.pool s.heap := by
    rw [queue_jobs_eq _ _ _ _ _ _ _ inv.queue]; exact inv.queue.fifo
  refine ⟨h, ?_⟩
  intro k hk
  rw [h, List.getElem?_append_left hk]

/-- C4, drain before stop: in every reachable state `pool_close` set implies
`queue_cur_num = 0` (and no queued node); a step of `threadpool_destory`, from its
entry or from a wakeup, that sets `pool_close` starts from `queue_cur_num = 0`;
and a worker step that takes the exit branch starts from `queue_cur_num = 0`. -/
theorem drain_before_stop (thread_num queue_max_num : Int) (s : System)
    (reach : Reachable thread_num queue_max_num s) :
    (s.pool.pool_close ≠ 0 →
        s.pool.queue_cur_num = 0 ∧ queue_nodes s.pool s.heap = []) ∧
      (∀ o pool1 evs, threadpool_destory s.pool = (o, pool1, evs) →
        s.pool.pool_close = 0 → pool1.pool_close ≠ 0 →
        s.pool.queue_cur_num = 0) ∧
      (∀ o pool1 evs, threadpool_destory_loop s.pool = (o, pool1, evs) →
        s.pool.pool_close = 0 → pool1.pool_close ≠ 0 →
        s.pool.queue_cur_num = 0) ∧
      (∀ pool1 evs,
        threadpool_function_loop s.pool s.heap
          = some (WorkerOutcome.exited, pool1, evs) →
        s.pool.queue_cur_num = 0 ∧ ¬ 0 < s.pool.queue_cur_num) := by
  obtain ⟨q, inv⟩ := Inv_reachable thread_num queue_max_num s reach
  have closed : s.pool.pool_close ≠ 0 →
      s.pool.queue_cur_num = 0 ∧ queue_nodes s.pool s.heap = [] := by
    intro hpc
    have hq : q = [] := inv.queue.closed hpc
    refine ⟨?_, ?_⟩
    · rw [inv.queue.cur_eq, hq]; exact wrapInt_zero
    · rw [queue_nodes_eq _ _ _ _ _ _ _ inv.queue]; exact hq
  refine ⟨closed, ?_, ?_, ?_⟩
  · intro o pool1 evs run h0 h1
    rcases destory_cases _ _ _ _ run with
      ⟨_, _, hpool, _⟩ | ⟨_, _, _, _, hpool, _⟩ | ⟨_, _, hcur, _⟩
    · rw [hpool] at h1; exact absurd h0 h1
    · rw [hpool] at h1; exact absurd h0 h1
    · exact hcur
  · intro o pool1 evs run h0 h1
    rcases destory_loop_cases _ _ _ _ run with
      ⟨_, _, hpool, _⟩ | ⟨hcur, _⟩
    · rw [hpool] at h1; exact absurd h0 h1
    · exact hcur
  · intro pool1 evs run
    rcases function_loop_cases _ _ _ _ _ run with
      ⟨_, _, ho, _⟩ | ⟨hpc, _⟩ | ⟨_, _, _, ho, _⟩ | ⟨_, _, _, ho, _⟩
    · cases ho
    · have h := (closed hpc).1
      exact ⟨h, by rw [h]; decide⟩
    · cases ho
    · cases ho

/-- C5, atomic rejection: for non-null `callback_function` and `arg`, a call of
`threadpool_add_job` on a pool whose `queue_close` or `pool_close` is set
returns `-1` with the pool and the heap unchanged, whether it tests the flags
at its entry or after a wakeup; and when `malloc` fails (`pjob = 0`) a step never
returns anything but `-1` and leaves the pool and the heap unchanged, returning
`-1` as soon as the queue is not full. -/
theorem add_job_rejection_atomic (pool : threadpool) (heap : Heap)
    (callback_function arg : Nat) (nonnull_cb : callback_function ≠ 0)
    (nonnull_arg : arg ≠ 0) :
    (∀ pjob, pool.queue_close ≠ 0 ∨ pool.pool_close ≠ 0 →
        threadpool_add_job pool heap callback_function arg pjob
          = some (AddOutcome.returned (-1), pool, heap,
              [Event.lock, Event.unlock]) ∧
        threadpool_add_job_loop pool heap callback_function arg pjob
          = some (AddOutcome.returned (-1), pool, heap, [Event.unlock])) ∧
      (pool.queue_cur_num ≠ pool.queue_max_num →
        pool.queue_close = 0 → pool.pool_close = 0 →
        threadpool_add_job pool heap callback_function arg 0
          = some (AddOutcome.returned (-1), pool, heap,
              [Event.lock, Event.malloc 0, Event.unlock]) ∧
        threadpool_add_job_loop pool heap callback_function arg 0
          = some (AddOutcome.returned (-1), pool, heap,
              [Event.malloc 0, Event.unlock])) ∧
      (∀ o pool1 heap1 evs,
        threadpool_add_job_loop pool heap callback_function arg 0
          = some (o, pool1, heap1, evs) →
        pool1 = pool ∧ heap1 = heap ∧
          (o = AddOutcome.blocked ∨ o = AddOutcome.returned (-1))) := by
  have hargs : ¬ (callback_function = 0 ∨ arg = 0) := by
    intro h; rcases h with h | h
    · exact nonnull_cb h
    · exact nonnull_arg h
  refine ⟨?_, ?_, ?_⟩
  · intro pjob hclosed
    have hfull : ¬ (pool.queue_cur_num = pool.queue_max_num ∧
        ¬ (pool.queue_close ≠ 0 ∨ pool.pool_close ≠ 0)) :=
      fun h => h.2 hclosed
    have hloop : threadpool_add_job_loop pool heap callback_function arg pjob
        = some (AddOutcome.returned (-1), pool, heap, [Event.unlock]) := by
      unfold threadpool_add_job_loop
      rw [if_neg hfull, if_pos hclosed]
    refine ⟨?_, hloop⟩
    unfold threadpool_add_job
    rw [if_neg hargs, hloop]
  · intro hcur hqc hpc
    have hclosed : ¬ (pool.queue_close ≠ 0 ∨ pool.pool_close ≠ 0) := by
      intro h; rcases h with h | h
      · exact h hqc
      · exact h hpc
    have hfull : ¬ (pool.queue_cur_num = pool.queue_max_num ∧
        ¬ (pool.queue_close ≠ 0 ∨ pool.pool_close ≠ 0)) :=
      fun h => hcur h.1
    have hloop : threadpool_add_job_loop pool heap callback_function arg 0
        = some (AddOutcome.returned (-1), pool, heap,
            [Event.malloc 0, Event.unlock]) := by
      unfold threadpool_add_job_loop
      rw [if_neg hfull, if_neg hclosed, if_pos rfl]
    refine ⟨?_, hloop⟩
    unfold threadpool_add_job
    rw [if_neg hargs, hloop]
  · intro o pool1 heap1 evs run
    rcases add_job_loop_cases _ _ _ _ _ _ _ _ _ run with
      ⟨_, _, _, ho, hpool, hheap, _⟩ | ⟨_, ho, hpool, hheap, _⟩ |
      ⟨_, _, _, _, ho, hpool, hheap, _⟩ | ⟨_, _, _, hnz, _⟩ |
      ⟨_, _, _, hnz, _⟩
    · exact ⟨hpool, hheap, Or.inl ho⟩
    · exact ⟨hpool, hheap, Or.inr ho⟩
    · exact ⟨hpool, hheap, Or.inr ho⟩
    · exact absurd rfl hnz
    · exact absurd rfl hnz

/-- Under the queue invariant a producer step never dereferences an
unallocated `tail`: it always has a result. -/
theorem add_job_loop_some (pool : threadpool) (heap : Heap) (fl : List Nat)
    (acc deq exe : List (Nat × Nat)) (q : List Nat) (cb arg pjob : Nat)
    (inv : QInv pool heap fl acc deq exe q)
    (fresh : pjob = 0 ∨ load heap pjob = none) :
    ∃ r, threadpool_add_job_loop pool heap cb arg pjob = some r := by
  unfold threadpool_add_job_loop
  split
  · exact ⟨_, rfl⟩
  · split
    · exact ⟨_, rfl⟩
    · split
      · exact ⟨_, rfl⟩
      · rename_i hnz
        simp only
        split
        · exact ⟨_, rfl⟩
        · rename_i hhead
          obtain ⟨r, hr⟩ := lseg_head heap q pool.head hhead inv.chain
          have hne : q ≠ [] := by rw [hr]; simp
          obtain ⟨l, hl⟩ := List.getLast?_eq_some_iff.mp (inv.tail_last hne)
          have htq : pool.tail ∈ q ++ fl := by rw [hl]; simp
          have halloc := (inv.alloc _ htq).2
          have htp : pjob ≠ pool.tail := by
            intro e
            rcases fresh with h | h
            · exact hnz h
            · rw [e] at h; exact halloc h
          cases ht : load (store heap pjob
              { callback_function := cb, arg := arg, next := 0 }) pool.tail with
          | none =>
            rw [load_store_ne _ _ _ _ htp] at ht
            exact absurd ht halloc
          | some t => exact ⟨_, rfl⟩

/-- C6, success of a submission: in every reachable state with both flags
clear and `queue_cur_num < queue_max_num`, a call of `threadpool_add_job` with
non-null `callback_function` and `arg` whose `malloc` succeeds (with a new
address `pjob`) returns `0`; the queue walked from `head` is the old queue
followed by the one node `pjob`, which holds exactly the given callback and
argument and is the new `tail`; `queue_cur_num` grows by exactly `1`; and
`thread_num`, `queue_max_num`, `queue_close`, `pool_close` are unchanged. -/
theorem add_job_success (thread_num queue_max_num : Int) (s : System)
    (callback_function arg pjob : Nat)
    (reach : Reachable thread_num queue_max_num s)
    (nonnull_cb : callback_function ≠ 0) (nonnull_arg : arg ≠ 0)
    (open_queue : s.pool.queue_close = 0) (open_pool : s.pool.pool_close = 0)
    (room : s.pool.queue_cur_num < s.pool.queue_max_num)
    (allocated : pjob ≠ 0) (fresh : load s.heap pjob = none) :
    ∃ pool1 heap1 evs,
      threadpool_add_job s.pool s.heap callback_function arg pjob
        = some (AddOutcome.returned 0, pool1, heap1, evs) ∧
      queue_nodes pool1 heap1 = queue_nodes s.pool s.heap ++ [pjob] ∧
      queue_jobs pool1 heap1
        = queue_jobs s.pool s.heap ++ [(callback_function, arg)] ∧
      payload heap1 pjob = (callback_function, arg) ∧
      pool1.tail = pjob ∧
      pool1.queue_cur_num = s.pool.queue_cur_num + 1 ∧
      pool1.thread_num = s.pool.thread_num ∧
      pool1.queue_max_num = s.pool.queue_max_num ∧
      pool1.queue_close = s.pool.queue_close ∧
      pool1.pool_close = s.pool.pool_close := by
  obtain ⟨q, inv⟩ := Inv_reachable thread_num queue_max_num s reach
  obtain ⟨⟨o, pool1, heap1, evs⟩, run⟩ :=
    add_job_loop_some s.pool s.heap _ _ _ _ q callback_function arg pjob
      inv.queue (Or.inr fresh)
  obtain ⟨f1, f2, f3, f4⟩ := add_job_loop_frame _ _ _ _ _ _ _ _ _ run
  have hargs : ¬ (callback_function = 0 ∨ arg = 0) := by
    intro h; rcases h with h | h
    · exact nonnull_cb h
    · exact nonnull_arg h
  have ho : o = AddOutcome.returned 0 ∧
      pool1.queue_cur_num = wrapInt (s.pool.queue_cur_num + 1) ∧
      pool1.tail = pjob := by
    rcases add_job_loop_cases _ _ _ _ _ _ _ _ _ run with
      ⟨hc, _⟩ | ⟨hc, _⟩ | ⟨_, _, _, hc, _⟩ | ⟨_, _, _, _, _, ho, hpool, _⟩ |
      ⟨_, _, _, _, _, ho, hpool, _⟩
    · rw [hc] at room; exact absurd room (lt_irrefl _)
    · rcases hc with hc | hc
      · exact absurd open_queue hc
      · exact absurd open_pool hc
    · exact absurd hc allocated
    · exact ⟨ho, by rw [hpool], by rw [hpool]⟩
    · exact ⟨ho, by rw [hpool], by rw [hpool]⟩
  obtain ⟨ho, hcur, htail⟩ := ho
  subst ho
  rcases QInv_add _ _ _ _ _ _ _ _ _ _ _ _ _ _ inv.queue (Or.inr fresh) run with
    ⟨hne, _⟩ | ⟨_, _, hpay, hold, hq⟩
  · exact absurd rfl hne
  · refine ⟨pool1, heap1, Event.lock :: evs, ?_, ?_, ?_, hpay, htail, ?_, f1, f2,
      f3, f4⟩
    · unfold threadpool_add_job
      rw [if_neg hargs, run]
    · rw [queue_nodes_eq _ _ _ _ _ _ _ hq, queue_nodes_eq _ _ _ _ _ _ _ inv.queue]
    · rw [queue_jobs_eq _ _ _ _ _ _ _ hq, queue_jobs_eq _ _ _ _ _ _ _ inv.queue,
        List.map_append, map_payload_congr s.heap heap1 q hold]
      simp [hpay]
    · rw [hcur]
      apply wrapInt_of_range
      have h1 := inv.queue.cur_eq
      have h2 := inv.queue.qm_int
      unfold INT_MIN INT_MAX at h2 ⊢
      unfold wrapInt at h1
      omega

/-- A step extends the list of accepted jobs only by the job of a producer
step that returned `0`. -/
theorem Step_accepted (s s1 : System) (move : Step s s1) :
    s1.accepted = s.accepted ∨
      ∃ cb arg pjob pool1 heap1 evs,
        threadpool_add_job_loop s.pool s.heap cb arg pjob
          = some (AddOutcome.returned 0, pool1, heap1, evs) ∧
        s1.accepted = s.accepted ++ [(cb, arg)] := by
  have producer : ∀ cb arg pjob o pool1 heap1 evs0 evs ps,
      threadpool_add_job_loop s.pool s.heap cb arg pjob
        = some (o, pool1, heap1, evs0) →
      ∀ t : System,
        t.accepted = (deliver_all { s with pool := pool1, heap := heap1 }
          evs).accepted ++ granted cb arg o →
        t.producers = ps →
        t.accepted = s.accepted ∨
          ∃ cb arg pjob pool1 heap1 evs,
            threadpool_add_job_loop s.pool s.heap cb arg pjob
              = some (AddOutcome.returned 0, pool1, heap1, evs) ∧
            t.accepted = s.accepted ++ [(cb, arg)] := by
    intro cb arg pjob o pool1 heap1 evs0 evs ps run t ht _
    rw [(Notified_deliver_all _ evs).accepted] at ht
    cases o with
    | blocked => exact Or.inl (by simpa [granted] using ht)
    | returned rc =>
      by_cases hrc : rc = 0
      · subst hrc
        exact Or.inr ⟨cb, arg, pjob, pool1, heap1, evs0, run,
          by simpa [granted] using ht⟩
      · exact Or.inl (by simpa [granted, hrc] using ht)
  cases move with
  | add_call cb arg pjob o pool1 heap1 evs alive fresh run =>
    obtain ⟨_, _, evs0, _, run0⟩ := add_job_entry _ _ _ _ _ _ _ _ _ run
    exact producer cb arg pjob o pool1 heap1 evs0 evs _ run0 _ rfl rfl
  | add_wake i p pjob o pool1 heap1 evs alive at_wait fresh run =>
    exact producer _ _ pjob o pool1 heap1 evs evs _ run _ rfl rfl
  | worker_lock i o pool1 evs alive at_lock run =>
    exact Or.inl (Notified_deliver_all { s with pool := pool1 } evs).accepted
  | worker_wake i b o pool1 evs alive at_wait run =>
    exact Or.inl (Notified_deliver_all { s with pool := pool1 } evs).accepted
  | worker_run i pjob c heap1 evs alive at_call run => exact Or.inl rfl
  | destroy_call o pool1 evs alive run =>
    cases o with
    | rejected rc => exact Or.inl rfl
    | blocked =>
      exact Or.inl (Notified_deliver_all { s with pool := pool1 } evs).accepted
    | joining =>
      exact Or.inl (Notified_deliver_all { s with pool := pool1 } evs).accepted
  | destroy_wake b o pool1 evs at_wait run =>
    cases o with
    | rejected rc => exact Or.inl rfl
    | blocked =>
      exact Or.inl (Notified_deliver_all { s with pool := pool1 } evs).accepted
    | joining =>
      exact Or.inl (Notified_deliver_all { s with pool := pool1 } evs).accepted
  | destroy_join i at_join more gone => exact Or.inl rfl
  | destroy_finish i rc pool1 heap1 evs at_join done run => exact Or.inl rfl

/-- C7, backpressure: on a pool with both flags clear and
`queue_cur_num = queue_max_num` a step of `threadpool_add_job` blocks in
`pthread_cond_wait(queue_not_full)` and changes nothing; a step returns `0` only
from a pool that is open and not full, and returns `-1` whenever a flag is set.
In a run, a job is accepted only in a step that starts with the queue not
full, and with capacity `1` only when every job accepted before has been
dequeued. -/
theorem backpressure (thread_num queue_max_num : Int) (s : System)
    (reach : Reachable thread_num queue_max_num s) :
    (∀ pool heap cb arg pjob,
        pool.queue_cur_num = pool.queue_max_num → pool.queue_close = 0 →
        pool.pool_close = 0 →
        threadpool_add_job_loop pool heap cb arg pjob
          = some (AddOutcome.blocked, pool, heap,
              [Event.wait Cond.queue_not_full])) ∧
      (∀ pool heap cb arg pjob o pool1 heap1 evs,
        threadpool_add_job_loop pool heap cb arg pjob
          = some (o, pool1, heap1, evs) →
        (o = AddOutcome.returned 0 →
          pool.queue_cur_num ≠ pool.queue_max_num ∧ pool.queue_close = 0 ∧
            pool.pool_close = 0) ∧
        (pool.queue_close ≠ 0 ∨ pool.pool_close ≠ 0 →
          o = AddOutcome.returned (-1))) ∧
      (∀ s1, Step s s1 → s1.accepted ≠ s.accepted →
        s.pool.queue_cur_num ≠ s.pool.queue_max_num ∧
          (0 < queue_max_num →
            ((queue_nodes s.pool s.heap).length : Int) < queue_max_num) ∧
          (queue_max_num = 1 →
            queue_jobs s.pool s.heap = [] ∧ s.accepted = s.dequeued)) := by
  have ret0 : ∀ pool heap cb arg pjob o pool1 heap1 evs,
      threadpool_add_job_loop pool heap cb arg pjob
        = some (o, pool1, heap1, evs) →
      (o = AddOutcome.returned 0 →
        pool.queue_cur_num ≠ pool.queue_max_num ∧ pool.queue_close = 0 ∧
          pool.pool_close = 0) ∧
      (pool.queue_close ≠ 0 ∨ pool.pool_close ≠ 0 →
        o = AddOutcome.returned (-1)) := by
    intro pool heap cb arg pjob o pool1 heap1 evs run
    rcases add_job_loop_cases _ _ _ _ _ _ _ _ _ run with
      ⟨_, h1, h2, ho, _⟩ | ⟨_, ho, _⟩ | ⟨_, h1, h2, _, ho, _⟩ |
      ⟨hc, h1, h2, _, _, ho, _⟩ | ⟨hc, h1, h2, _, _, ho, _⟩
    · subst ho
      refine ⟨fun h => (by cases h), fun h => ?_⟩
      rcases h with h | h
      · exact absurd h1 h
      · exact absurd h2 h
    · subst ho
      exact ⟨fun h => (by cases h), fun _ => rfl⟩
    · subst ho
      exact ⟨fun h => (by cases h), fun _ => rfl⟩
    · refine ⟨fun _ => ⟨hc, h1, h2⟩, fun h => ?_⟩
      rcases h with h | h
      · exact absurd h1 h
      · exact absurd h2 h
    · refine ⟨fun _ => ⟨hc, h1, h2⟩, fun h => ?_⟩
      rcases h with h | h
      · exact absurd h1 h
      · exact absurd h2 h
  refine ⟨?_, ret0, ?_⟩
  · intro pool heap cb arg pjob hfull hqc hpc
    have hopen : ¬ (pool.queue_close ≠ 0 ∨ pool.pool_close ≠ 0) := by
      intro h; rcases h with h | h
      · exact h hqc
      · exact h hpc
    unfold threadpool_add_job_loop
    rw [if_pos ⟨hfull, hopen⟩]
  · intro s1 move changed
    obtain ⟨q, inv⟩ := Inv_reachable thread_num queue_max_num s reach
    rcases Step_accepted s s1 move with h | ⟨cb, arg, pjob, pool1, heap1, evs,
      run, _⟩
    · exact absurd h changed
    · obtain ⟨hne, _, _⟩ := (ret0 _ _ _ _ _ _ _ _ _ run).1 rfl
      have hnodes := queue_nodes_eq _ _ _ _ _ _ _ inv.queue
      refine ⟨hne, ?_, ?_⟩
      · intro pos
        have hpos : 0 < s.pool.queue_max_num := by rw [inv.qm_eq]; exact pos
        obtain ⟨h1, h2⟩ := counter_bounds _ _ _ _ _ _ _ inv.queue hpos
        rw [hnodes, ← inv.qm_eq]
        omega
      · intro one
        have hpos : 0 < s.pool.queue_max_num := by rw [inv.qm_eq, one]; decide
        obtain ⟨h1, h2⟩ := counter_bounds _ _ _ _ _ _ _ inv.queue hpos
        have hqm := inv.qm_eq
        have hq : q = [] := by
          apply List.length_eq_zero.mp
          omega
        have hfifo := inv.queue.fifo
        rw [queue_jobs_eq _ _ _ _ _ _ _ inv.queue, hq]
        rw [hq] at hfifo
        exact ⟨rfl, by simpa using hfifo⟩

/-- Once `threadpool_destory` has returned `0` no thread has a step: the pool is
freed. -/
theorem no_step_after_return (s s1 : System)
    (freed : s.destroyer = DestroyPc.returned) : ¬ Step s s1 := by
  intro move
  cases move with
  | add_call cb arg pjob o pool1 heap1 evs alive fresh run => exact alive freed
  | add_wake i p pjob o pool1 heap1 evs alive at_wait fresh run =>
    exact alive freed
  | worker_lock i o pool1 evs alive at_lock run => exact alive freed
  | worker_wake i b o pool1 evs alive at_wait run => exact alive freed
  | worker_run i pjob c heap1 evs alive at_call run => exact alive freed
  | destroy_call o pool1 evs alive run => exact alive freed
  | destroy_wake b o pool1 evs at_wait run => rw [freed] at at_wait; cases at_wait
  | destroy_join i at_join more gone => rw [freed] at at_join; cases at_join
  | destroy_finish i rc pool1 heap1 evs at_join done run =>
    rw [freed] at at_join; cases at_join

/-- While the pool is allocated, a call of `threadpool_destory` on a pool whose
`queue_close` or `pool_close` is set returns `-1` after locking and unlocking
the mutex and nothing else, and leaves the program as it was. -/
theorem destory_rejects_while_allocated (s : System)
    (allocated : s.destroyer ≠ DestroyPc.returned)
    (closing : s.pool.queue_close ≠ 0 ∨ s.pool.pool_close ≠ 0) :
    threadpool_destory_at s
        = some (DestroyOutcome.rejected (-1), s.pool,
            [Event.lock, Event.unlock]) ∧
      destroy_next s (DestroyOutcome.rejected (-1)) s.pool
          [Event.lock, Event.unlock] = s := by
  refine ⟨?_, rfl⟩
  unfold threadpool_destory_at
  rw [if_neg allocated]
  unfold threadpool_destory
  rw [if_pos closing]

/-- C10, one-way latches: no step of any thread clears a flag: if `queue_close`
is set before a step it is set after it, and likewise `pool_close`. -/
theorem one_way_latches (s s1 : System) (move : Step s s1) :
    (s.pool.queue_close ≠ 0 → s1.pool.queue_close ≠ 0) ∧
      (s.pool.pool_close ≠ 0 → s1.pool.pool_close ≠ 0) := by
  have same : ∀ pool1 : threadpool,
      pool1.queue_close = s.pool.queue_close →
      pool1.pool_close = s.pool.pool_close →
      ∀ t : System, t.pool = pool1 →
      (s.pool.queue_close ≠ 0 → t.pool.queue_close ≠ 0) ∧
        (s.pool.pool_close ≠ 0 → t.pool.pool_close ≠ 0) := by
    intro pool1 h1 h2 t ht
    rw [ht, h1, h2]
    exact ⟨id, id⟩
  have destroyer : ∀ o pool1 evs,
      (pool1 = s.pool ∨ pool1 = { s.pool with queue_close := 1 } ∨
        pool1 = { s.pool with pool_close := 1 } ∨
        pool1 = { s.pool with queue_close := 1, pool_close := 1 }) →
      (s.pool.queue_close ≠ 0 → (destroy_next s o pool1 evs).pool.queue_close ≠ 0) ∧
        (s.pool.pool_close ≠ 0 → (destroy_next s o pool1 evs).pool.pool_close ≠ 0) := by
    intro o pool1 evs hpool
    have hp : (destroy_next s o pool1 evs).pool = s.pool ∨
        (destroy_next s o pool1 evs).pool = pool1 := by
      cases o with
      | rejected rc => exact Or.inl rfl
      | blocked =>
        exact Or.inr (Notified_deliver_all { s with pool := pool1 } evs).pool
      | joining =>
        exact Or.inr (Notified_deliver_all { s with pool := pool1 } evs).pool
    rcases hp with hp | hp
    · rw [hp]; exact ⟨id, id⟩
    · rw [hp]
      rcases hpool with h | h | h | h <;> rw [h] <;> simp
  cases move with
  | add_call cb arg pjob o pool1 heap1 evs alive fresh run =>
    obtain ⟨_, _, evs0, _, run0⟩ := add_job_entry _ _ _ _ _ _ _ _ _ run
    obtain ⟨_, _, f3, f4⟩ := add_job_loop_frame _ _ _ _ _ _ _ _ _ run0
    exact same pool1 f3 f4 _
      (Notified_deliver_all { s with pool := pool1, heap := heap1 } evs).pool
  | add_wake i p pjob o pool1 heap1 evs alive at_wait fresh run =>
    obtain ⟨_, _, f3, f4⟩ := add_job_loop_frame _ _ _ _ _ _ _ _ _ run
    exact same pool1 f3 f4 _
      (Notified_deliver_all { s with pool := pool1, heap := heap1 } evs).pool
  | worker_lock i o pool1 evs alive at_lock run =>
    obtain ⟨evs0, _, run0⟩ := function_entry _ _ _ _ _ run
    obtain ⟨_, _, f3, f4⟩ := function_loop_frame _ _ _ _ _ run0
    exact same pool1 f3 f4 _
      (Notified_deliver_all { s with pool := pool1 } evs).pool
  | worker_wake i b o pool1 evs alive at_wait run =>
    obtain ⟨_, _, f3, f4⟩ := function_loop_frame _ _ _ _ _ run
    exact same pool1 f3 f4 _
      (Notified_deliver_all { s with pool := pool1 } evs).pool
  | worker_run i pjob c heap1 evs alive at_call run => exact ⟨id, id⟩
  | destroy_call o pool1 evs alive run =>
    apply destroyer
    rcases destory_cases _ _ _ _ run with
      ⟨_, _, h, _⟩ | ⟨_, _, _, _, h, _⟩ | ⟨_, _, _, _, h, _⟩
    · exact Or.inl h
    · exact Or.inr (Or.inl h)
    · exact Or.inr (Or.inr (Or.inr h))
  | destroy_wake b o pool1 evs at_wait run =>
    apply destroyer
    rcases destory_loop_cases _ _ _ _ run with ⟨_, _, h, _⟩ | ⟨_, _, h, _⟩
    · exact Or.inl h
    · exact Or.inr (Or.inr (Or.inl h))
  | destroy_join i at_join more gone => exact ⟨id, id⟩
  | destroy_finish i rc pool1 heap1 evs at_join done run =>
    unfold threadpool_destory_cleanup at run
    cases hf : free_residual s.heap s.pool.head (s.heap.length + 1) with
    | none => rw [hf] at run; simp at run
    | some r =>
      obtain ⟨h0, e0⟩ := r
      rw [hf] at run
      simp only [Option.some.injEq, Prod.mk.injEq] at run
      obtain ⟨_, hpool, _, _⟩ := run
      show (s.pool.queue_close ≠ 0 → pool1.queue_close ≠ 0) ∧
        (s.pool.pool_close ≠ 0 → pool1.pool_close ≠ 0)
      rw [← hpool]
      exact ⟨id, id⟩

/-! ## The run `run0`, ..., `run11` is a run of the program -/

theorem run0_reachable : Reachable 1 2 run0 :=
  Reachable.init env_ok pool_1_2 [Event.create 0] (by decide) (by decide)
    (by decide)

theorem run1_reachable : Reachable 1 2 run1 :=
  Reachable.step run0 run1 run0_reachable
    (Step.add_call run0 7 9 100 (AddOutcome.returned 0) run1.pool run1.heap
      [Event.lock, Event.malloc 100, Event.broadcast Cond.queue_not_empty,
       Event.unlock]
      (by decide) (by decide) (by decide))

theorem run2_reachable : Reachable 1 2 run2 :=
  Reachable.step run1 run2 run1_reachable
    (Step.add_call run1 8 10 200 (AddOutcome.returned 0) run2.pool run2.heap
      [Event.lock, Event.malloc 200, Event.unlock]
      (by decide) (by decide) (by decide))

theorem run3_reachable : Reachable 1 2 run3 :=
  Reachable.step run2 run3 run2_reachable
    (Step.worker_lock run2 0 (WorkerOutcome.dequeued 100) run3.pool
      [Event.lock, Event.broadcast Cond.queue_not_full, Event.unlock]
      (by decide) (by decide) (by decide))

theorem run4_reachable : Reachable 1 2 run4 :=
  Reachable.step run3 run4 run3_reachable
    (Step.worker_run run3 0 100 (7, 9) run4.heap
      [Event.call 7 9, Event.free 100] (by decide) (by decide) (by decide))

theorem run5_reachable : Reachable 1 2 run5 :=
  Reachable.step run4 run5 run4_reachable
    (Step.destroy_call run4 DestroyOutcome.blocked run5.pool
      [Event.lock, Event.wait Cond.queue_empty] (by decide) (by decide))

theorem run6_reachable : Reachable 1 2 run6 :=
  Reachable.step run5 run6 run5_reachable
    (Step.worker_lock run5 0 (WorkerOutcome.dequeued 200) run6.pool
      [Event.lock, Event.signal Cond.queue_empty, Event.unlock]
      (by decide) (by decide) (by decide))

theorem run7_reachable : Reachable 1 2 run7 :=
  Reachable.step run6 run7 run6_reachable
    (Step.worker_run run6 0 200 (8, 10) run7.heap
      [Event.call 8 10, Event.free 200] (by decide) (by decide) (by decide))

theorem run8_reachable : Reachable 1 2 run8 :=
  Reachable.step run7 run8 run7_reachable
    (Step.destroy_wake run7 true DestroyOutcome.joining run8.pool
      [Event.unlock, Event.broadcast Cond.queue_not_full,
       Event.broadcast Cond.queue_not_empty] (by decide) (by decide))

theorem run9_reachable : Reachable 1 2 run9 :=
  Reachable.step run8 run9 run8_reachable
    (Step.worker_lock run8 0 WorkerOutcome.exited run9.pool
      [Event.lock, Event.unlock, Event.thread_exit]
      (by decide) (by decide) (by decide))

theorem run10_reachable : Reachable 1 2 run10 :=
  Reachable.step run9 run10 run9_reachable
    (Step.destroy_join run9 0 (by decide) (by decide) (by decide))

theorem run11_reachable : Reachable 1 2 run11 :=
  Reachable.step run10 run11 run10_reachable
    (Step.destroy_finish run10 1 0 run11.pool run11.heap
      [Event.mutex_destroy, Event.cond_destroy Cond.queue_empty,
       Event.cond_destroy Cond.queue_not_empty,
       Event.cond_destroy Cond.queue_not_full, Event.free_pthreads,
       Event.free_pool] (by decide) (by decide) (by decide))

theorem run8_to_run9 : Step run8 run9 :=
  Step.worker_lock run8 0 WorkerOutcome.exited run9.pool
    [Event.lock, Event.unlock, Event.thread_exit]
    (by decide) (by decide) (by decide)

/-! ## The claims at the run -/

/-- C1 at the end of the run: `threadpool_destory` has returned `0` and the two
accepted jobs are the two executed ones. -/
theorem no_lost_work_witness :
    Reachable 1 2 run11 ∧ run11.destroyer = DestroyPc.returned ∧
      run11.accepted = [(7, 9), (8, 10)] ∧
      ((↑run11.executed : Multiset (Nat × Nat)) = ↑run11.accepted ∧
        queue_jobs run11.pool run11.heap = [] ∧ run11.pool.queue_cur_num = 0 ∧
        inflight run11.workers = [] ∧
        ∀ w ∈ run11.workers, w = WorkerPc.exited) :=
  ⟨run11_reachable, rfl, rfl, no_lost_work 1 2 run11 run11_reachable rfl⟩

/-- C2 at the full queue of the run. -/
theorem capacity_invariant_witness :
    Reachable 1 2 run2 ∧ (0 : Int) < 2 ∧
      (0 ≤ run2.pool.queue_cur_num ∧
        run2.pool.queue_cur_num ≤ run2.pool.queue_max_num ∧
        run2.pool.queue_max_num = 2 ∧
        run2.pool.queue_cur_num = (queue_nodes run2.pool run2.heap).length) :=
  ⟨run2_reachable, by decide,
    capacity_invariant 1 2 run2 run2_reachable (by decide)⟩

/-- C3 after the first dequeue of the run. -/
theorem fifo_order_witness :
    Reachable 1 2 run3 ∧ run3.dequeued = [(7, 9)] ∧
      (run3.accepted = run3.dequeued ++ queue_jobs run3.pool run3.heap ∧
        ∀ k : Nat, k < run3.dequeued.length →
          run3.dequeued[k]? = run3.accepted[k]?) :=
  ⟨run3_reachable, rfl, fifo_order 1 2 run3 run3_reachable⟩

/-- C4 when the destroyer has closed the pool in the run. -/
theorem drain_before_stop_witness :
    Reachable 1 2 run8 ∧ run8.pool.pool_close ≠ 0 ∧
      (run8.pool.queue_cur_num = 0 ∧ queue_nodes run8.pool run8.heap = []) :=
  ⟨run8_reachable, by decide,
    (drain_before_stop 1 2 run8 run8_reachable).1 (by decide)⟩

/-- C5 on the closed queue of the run. -/
theorem add_job_rejection_atomic_witness :
    (3 : Nat) ≠ 0 ∧ (4 : Nat) ≠ 0 ∧ run5.pool.queue_close ≠ 0 ∧
      threadpool_add_job run5.pool run5.heap 3 4 300
        = some (AddOutcome.returned (-1), run5.pool, run5.heap,
            [Event.lock, Event.unlock]) :=
  ⟨by decide, by decide, by decide,
    ((add_job_rejection_atomic run5.pool run5.heap 3 4 (by decide)
      (by decide)).1 300 (Or.inl (by decide))).1⟩

/-- C6 at the second submission of the run. -/
theorem add_job_success_witness :
    Reachable 1 2 run1 ∧ (8 : Nat) ≠ 0 ∧ (10 : Nat) ≠ 0 ∧
      run1.pool.queue_close = 0 ∧ run1.pool.pool_close = 0 ∧
      run1.pool.queue_cur_num < run1.pool.queue_max_num ∧ (200 : Nat) ≠ 0 ∧
      load run1.heap 200 = none ∧
      ∃ pool1 heap1 evs,
        threadpool_add_job run1.pool run1.heap 8 10 200
          = some (AddOutcome.returned 0, pool1, heap1, evs) ∧
        queue_nodes pool1 heap1 = queue_nodes run1.pool run1.heap ++ [200] ∧
        queue_jobs pool1 heap1 = queue_jobs run1.pool run1.heap ++ [(8, 10)] ∧
        payload heap1 200 = (8, 10) ∧
        pool1.tail = 200 ∧
        pool1.queue_cur_num = run1.pool.queue_cur_num + 1 ∧
        pool1.thread_num = run1.pool.thread_num ∧
        pool1.queue_max_num = run1.pool.queue_max_num ∧
        pool1.queue_close = run1.pool.queue_close ∧
        pool1.pool_close = run1.pool.pool_close :=
  ⟨run1_reachable, by decide, by decide, by decide, by decide, by decide,
    by decide, by decide,
    add_job_success 1 2 run1 8 10 200 run1_reachable (by decide) (by decide)
      (by decide) (by decide) (by decide) (by decide) (by decide)⟩

/-- C7 at the full queue of the run: a third submission blocks. -/
theorem backpressure_witness :
    Reachable 1 2 run2 ∧
      run2.pool.queue_cur_num = run2.pool.queue_max_num ∧
      threadpool_add_job_loop run2.pool run2.heap 5 6 300
        = some (AddOutcome.blocked, run2.pool, run2.heap,
            [Event.wait Cond.queue_not_full]) :=
  ⟨run2_reachable, by decide,
    (backpressure 1 2 run2 run2_reachable).1 run2.pool run2.heap 5 6 300
      (by decide) (by decide) (by decide)⟩

/-- C8, second destroy, at the run: while the first call of `threadpool_destory`
is joining the workers (`run9`) a second call returns `-1` after a lock and an
unlock; the last step of the first call (`run10` to `run11`) destroys the mutex
and the condition variables and frees the pool; after it (`run11`) a second
call reads freed memory instead of returning `-1`, and no thread has a step. -/
theorem second_destroy_after_free :
    Reachable 1 2 run11 ∧
      threadpool_destory_at run9
        = some (DestroyOutcome.rejected (-1), run9.pool,
            [Event.lock, Event.unlock]) ∧
      threadpool_destory_cleanup run10.pool run10.heap
        = some (0, run11.pool, run11.heap,
            [Event.mutex_destroy, Event.cond_destroy Cond.queue_empty,
             Event.cond_destroy Cond.queue_not_empty,
             Event.cond_destroy Cond.queue_not_full, Event.free_pthreads,
             Event.free_pool]) ∧
      run11.pool.queue_close = 1 ∧ run11.pool.pool_close = 1 ∧
      threadpool_destory_at run11 = none ∧
      ∀ s1, ¬ Step run11 s1 :=
  ⟨run11_reachable, by decide, by decide, rfl, rfl, by decide,
    fun s1 => no_step_after_return run11 s1 rfl⟩

/-- C10 at the exit of the worker in the run. -/
theorem one_way_latches_witness :
    Step run8 run9 ∧ run8.pool.queue_close ≠ 0 ∧ run8.pool.pool_close ≠ 0 ∧
      run9.pool.queue_close ≠ 0 ∧ run9.pool.pool_close ≠ 0 :=
  ⟨run8_to_run9, by decide, by decide,
    (one_way_latches run8 run9 run8_to_run9).1 (by decide),
    (one_way_latches run8 run9 run8_to_run9).2 (by decide)⟩

/-- C9 as stated fails: with capacity `0` and every allocation succeeding,
`threadpool_init(1, 0)` returns a pool and starts a worker thread. -/
theorem init_zero_capacity_not_rejected :
    (threadpool_init 1 0 env_ok).1 ≠ none ∧
      (threadpool_init 1 0 env_ok).2 = [Event.create 0] := by
  decide

/-- C9 amended: `threadpool_init(thread_num, 0)` returns `NULL` and starts no
worker exactly when an allocation or an initialisation fails; when all succeed
it returns an empty open pool with `queue_max_num = 0` and starts one worker per
thread asked for. -/
theorem init_zero_capacity (thread_num : Int) (env : InitEnv) :
    (threadpool_init thread_num 0 env = (none, []) ↔
        env.pool_alloc = false ∨ env.mutex_init ≠ 0 ∨
          env.queue_empty_init ≠ 0 ∨ env.queue_not_empty_init ≠ 0 ∨
          env.queue_not_full_init ≠ 0 ∨ env.pthreads_alloc = false) ∧
      (threadpool_init thread_num 0 env ≠ (none, []) →
        threadpool_init thread_num 0 env
          = (some { thread_num := thread_num, queue_max_num := 0, head := 0,
                    tail := 0, queue_cur_num := 0, queue_close := 0,
                    pool_close := 0 },
             (List.range thread_num.toNat).map Event.create)) := by
  unfold threadpool_init
  by_cases h1 : env.pool_alloc = false
  · simp [h1]
  · by_cases h2 : env.mutex_init ≠ 0
    · simp [h1, h2]
    · by_cases h3 : env.queue_empty_init ≠ 0
      · simp [h1, h2, h3]
      · by_cases h4 : env.queue_not_empty_init ≠ 0
        · simp [h1, h2, h3, h4]
        · by_cases h5 : env.queue_not_full_init ≠ 0
          · simp [h1, h2, h3, h4, h5]
          · by_cases h6 : env.pthreads_alloc = false
            · simp [h1, h2, h3, h4, h5, h6]
            · simp only [ne_eq, not_not] at h2 h3 h4 h5
              simp [h1, h2, h3, h4, h5, h6]

/-- C9 amended, with two threads asked for and every allocation succeeding. -/
theorem init_zero_capacity_witness :
    threadpool_init 2 0 env_ok ≠ (none, []) ∧
      threadpool_init 2 0 env_ok
        = (some { thread_num := 2, queue_max_num := 0, head := 0, tail := 0,
                  queue_cur_num := 0, queue_close := 0, pool_close := 0 },
           [Event.create 0, Event.create 1]) :=
  ⟨by decide, (init_zero_capacity 2 env_ok).2 (by decide)⟩

/-! ## Shape of the queue and construction -/

theorem lseg_last (heap : Heap) (l : List Nat) (p t : Nat)
    (h : lseg heap p (l ++ [t])) :
    ∃ nd, load heap t = some nd ∧ nd.next = 0 := by
  induction l generalizing p with
  | nil =>
    obtain ⟨_, _, nd, hnd, hrest⟩ := h
    exact ⟨nd, hnd, hrest⟩
  | cons a l ih =>
    obtain ⟨_, _, nd, _, hrest⟩ := h
    exact ih nd.next hrest

/-- Under the queue invariant `head` is `NULL` exactly when the queue is empty,
and exactly when the counter is `0`. -/
theorem head_null_iff (pool : threadpool) (heap : Heap) (fl : List Nat)
    (acc deq exe : List (Nat × Nat)) (q : List Nat)
    (inv : QInv pool heap fl acc deq exe q) :
    (pool.head = 0 ↔ q = []) ∧ (pool.queue_cur_num = 0 ↔ q = []) := by
  refine ⟨⟨?_, ?_⟩, ⟨?_, ?_⟩⟩
  · intro h
    have := inv.chain
    rw [h] at this
    exact lseg_null heap q this
  · intro h
    have := inv.chain
    rw [h] at this
    exact this
  · intro h
    exact wrapInt_length_zero pool q inv.cap (by rw [← inv.cur_eq]; exact h)
  · intro h
    rw [inv.cur_eq, h]
    exact wrapInt_zero

/-- C11, shape of the queue: in every reachable state `head` is `NULL` if and
only if `queue_cur_num` is `0`, and whenever the queue is not empty (by the
counter or by `head`) the node at `tail` is allocated and its `next` is
`NULL`. -/
theorem queue_shape (thread_num queue_max_num : Int) (s : System)
    (reach : Reachable thread_num queue_max_num s) :
    (s.pool.head = 0 ↔ s.pool.queue_cur_num = 0) ∧
      (s.pool.queue_cur_num ≠ 0 ∨ s.pool.head ≠ 0 →
        ∃ nd, load s.heap s.pool.tail = some nd ∧ nd.next = 0) := by
  obtain ⟨q, inv⟩ := Inv_reachable thread_num queue_max_num s reach
  obtain ⟨h1, h2⟩ := head_null_iff _ _ _ _ _ _ _ inv.queue
  refine ⟨h1.trans h2.symm, ?_⟩
  intro hne
  have hq : q ≠ [] := by
    rcases hne with h | h
    · exact fun e => h (h2.mpr e)
    · exact fun e => h (h1.mpr e)
  obtain ⟨l, hl⟩ := List.getLast?_eq_some_iff.mp (inv.queue.tail_last hq)
  have hc := inv.queue.chain
  rw [hl] at hc
  exact lseg_last s.heap l s.pool.head s.pool.tail hc

/-- C12, result of the construction: `threadpool_init` returns `NULL` and
starts no worker thread whenever the pool allocation, the mutex
initialisation, one of the three condition-variable initialisations or the
thread-table allocation fails; otherwise it returns a pool with
`head = tail = NULL`, `queue_cur_num = 0`, both flags `0`, and `thread_num` and
`queue_max_num` equal to the arguments. -/
theorem init_result (thread_num queue_max_num : Int) (env : InitEnv) :
    (env.pool_alloc = false ∨ env.mutex_init ≠ 0 ∨
        env.queue_empty_init ≠ 0 ∨ env.queue_not_empty_init ≠ 0 ∨
        env.queue_not_full_init ≠ 0 ∨ env.pthreads_alloc = false →
      threadpool_init thread_num queue_max_num env = (none, [])) ∧
    (¬ (env.pool_alloc = false ∨ env.mutex_init ≠ 0 ∨
        env.queue_empty_init ≠ 0 ∨ env.queue_not_empty_init ≠ 0 ∨
        env.queue_not_full_init ≠ 0 ∨ env.pthreads_alloc = false) →
      ∃ pool evs,
        threadpool_init thread_num queue_max_num env = (some pool, evs) ∧
        pool.head = 0 ∧ pool.tail = 0 ∧ pool.queue_cur_num = 0 ∧
        queue_nodes pool [] = [] ∧
        pool.queue_close = 0 ∧ pool.pool_close = 0 ∧
        pool.thread_num = thread_num ∧ pool.queue_max_num = queue_max_num ∧
        evs = (List.range thread_num.toNat).map Event.create) := by
  unfold threadpool_init
  by_cases h1 : env.pool_alloc = false
  · simp [h1]
  · by_cases h2 : env.mutex_init ≠ 0
    · simp [h1, h2]
    · by_cases h3 : env.queue_empty_init ≠ 0
      · simp [h1, h2, h3]
      · by_cases h4 : env.queue_not_empty_init ≠ 0
        · simp [h1, h2, h3, h4]
        · by_cases h5 : env.queue_not_full_init ≠ 0
          · simp [h1, h2, h3, h4, h5]
          · by_cases h6 : env.pthreads_alloc = false
            · simp [h1, h2, h3, h4, h5, h6]
            · simp only [ne_eq, not_not] at h2 h3 h4 h5
              simp only [h1, h2, h3, h4, h5, h6, or_self, not_false_eq_true,
                ne_eq, not_true_eq_false, if_false, forall_true_left]
              refine ⟨fun h => absurd h (by simp), fun _ => ?_⟩
              exact ⟨_, _, rfl, rfl, rfl, rfl, rfl, rfl, rfl, rfl, rfl, rfl⟩

/-- C17, stop before consuming: on every pool whose `pool_close` is set,
whatever the counter and the queue, a worker step of `threadpool_function`, from
the lock or from a wakeup, unlocks and exits; the pool is returned unchanged,
and in the program the heap, the queue walked from `head` and the list of
dequeued jobs are unchanged while the worker becomes exited. -/
theorem stop_takes_priority (s : System) (i : Nat)
    (closed : s.pool.pool_close ≠ 0) :
    threadpool_function_loop s.pool s.heap
        = some (WorkerOutcome.exited, s.pool,
            [Event.unlock, Event.thread_exit]) ∧
      threadpool_function s.pool s.heap
        = some (WorkerOutcome.exited, s.pool,
            [Event.lock, Event.unlock, Event.thread_exit]) ∧
      worker_next s i WorkerOutcome.exited s.pool
          [Event.lock, Event.unlock, Event.thread_exit]
        = { s with workers := s.workers.set i WorkerPc.exited } := by
  have hidle : ¬ (s.pool.queue_cur_num = 0 ∧ ¬ s.pool.pool_close ≠ 0) :=
    fun h => h.2 closed
  have hloop : threadpool_function_loop s.pool s.heap
      = some (WorkerOutcome.exited, s.pool,
          [Event.unlock, Event.thread_exit]) := by
    unfold threadpool_function_loop
    rw [if_neg hidle, if_pos closed]
  refine ⟨hloop, ?_, ?_⟩
  · unfold threadpool_function
    rw [hloop]
  · simp [worker_next, deliver_all, deliver, worker_pc, taken]

/-! ## The two flags -/

/-- What a step may do to the flags: nothing, or close an open pool (the call
of `threadpool_destory`), or set `pool_close` from the drain wait. -/
theorem Step_flags (s s1 : System) (move : Step s s1) :
    (s1.pool.queue_close = s.pool.queue_close ∧
        s1.pool.pool_close = s.pool.pool_close) ∨
      (s.pool.queue_close = 0 ∧ s.pool.pool_close = 0 ∧
        s1.pool.queue_close = 1 ∧
        (s1.pool.pool_close = 0 ∨ s1.pool.pool_close = 1)) ∨
      (∃ b, s.destroyer = DestroyPc.draining b ∧
        s1.pool.queue_close = s.pool.queue_close ∧ s1.pool.pool_close = 1) := by
  have same : ∀ pool1 : threadpool,
      pool1.queue_close = s.pool.queue_close →
      pool1.pool_close = s.pool.pool_close →
      ∀ t : System, t.pool = pool1 →
      (t.pool.queue_close = s.pool.queue_close ∧
        t.pool.pool_close = s.pool.pool_close) := by
    intro pool1 h1 h2 t ht
    rw [ht]; exact ⟨h1, h2⟩
  have next_pool : ∀ o pool1 evs,
      o ≠ DestroyOutcome.rejected (-1) →
      (destroy_next s o pool1 evs).pool = pool1 ∨
        (destroy_next s o pool1 evs).pool = s.pool := by
    intro o pool1 evs _
    cases o with
    | rejected rc => exact Or.inr rfl
    | blocked =>
      exact Or.inl (Notified_deliver_all { s with pool := pool1 } evs).pool
    | joining =>
      exact Or.inl (Notified_deliver_all { s with pool := pool1 } evs).pool
  cases move with
  | add_call cb arg pjob o pool1 heap1 evs alive fresh run =>
    obtain ⟨_, _, evs0, _, run0⟩ := add_job_entry _ _ _ _ _ _ _ _ _ run
    obtain ⟨_, _, f3, f4⟩ := add_job_loop_frame _ _ _ _ _ _ _ _ _ run0
    exact Or.inl (same pool1 f3 f4 _
      (Notified_deliver_all { s with pool := pool1, heap := heap1 } evs).pool)
  | add_wake i p pjob o pool1 heap1 evs alive at_wait fresh run =>
    obtain ⟨_, _, f3, f4⟩ := add_job_loop_frame _ _ _ _ _ _ _ _ _ run
    exact Or.inl (same pool1 f3 f4 _
      (Notified_deliver_all { s with pool := pool1, heap := heap1 } evs).pool)
  | worker_lock i o pool1 evs alive at_lock run =>
    obtain ⟨evs0, _, run0⟩ := function_entry _ _ _ _ _ run
    obtain ⟨_, _, f3, f4⟩ := function_loop_frame _ _ _ _ _ run0
    exact Or.inl (same pool1 f3 f4 _
      (Notified_deliver_all { s with pool := pool1 } evs).pool)
  | worker_wake i b o pool1 evs alive at_wait run =>
    obtain ⟨_, _, f3, f4⟩ := function_loop_frame _ _ _ _ _ run
    exact Or.inl (same pool1 f3 f4 _
      (Notified_deliver_all { s with pool := pool1 } evs).pool)
  | worker_run i pjob c heap1 evs alive at_call run => exact Or.inl ⟨rfl, rfl⟩
  | destroy_call o pool1 evs alive run =>
    rcases destory_cases _ _ _ _ run with
      ⟨_, ho, _, _⟩ | ⟨hqc, hpc, _, ho, hpool, _⟩ | ⟨hqc, hpc, _, ho, hpool, _⟩
    · subst ho; exact Or.inl ⟨rfl, rfl⟩
    · subst ho
      have hp : (destroy_next s DestroyOutcome.blocked pool1 evs).pool = pool1 :=
        (Notified_deliver_all { s with pool := pool1 } evs).pool
      refine Or.inr (Or.inl ⟨hqc, hpc, ?_, Or.inl ?_⟩)
      · rw [hp, hpool]
      · rw [hp, hpool]; exact hpc
    · subst ho
      have hp : (destroy_next s DestroyOutcome.joining pool1 evs).pool = pool1 :=
        (Notified_deliver_all { s with pool := pool1 } evs).pool
      refine Or.inr (Or.inl ⟨hqc, hpc, ?_, Or.inr ?_⟩)
      · rw [hp, hpool]
      · rw [hp, hpool]
  | destroy_wake b o pool1 evs at_wait run =>
    rcases destory_loop_cases _ _ _ _ run with
      ⟨_, ho, hpool, _⟩ | ⟨_, ho, hpool, _⟩
    · subst ho
      have hp : (destroy_next s DestroyOutcome.blocked pool1 evs).pool = pool1 :=
        (Notified_deliver_all { s with pool := pool1 } evs).pool
      refine Or.inl ⟨?_, ?_⟩ <;> rw [hp, hpool]
    · subst ho
      have hp : (destroy_next s DestroyOutcome.joining pool1 evs).pool = pool1 :=
        (Notified_deliver_all { s with pool := pool1 } evs).pool
      refine Or.inr (Or.inr ⟨b, at_wait, ?_, ?_⟩) <;> rw [hp, hpool]
  | destroy_join i at_join more gone => exact Or.inl ⟨rfl, rfl⟩
  | destroy_finish i rc pool1 heap1 evs at_join done run =>
    unfold threadpool_destory_cleanup at run
    cases hf : free_residual s.heap s.pool.head (s.heap.length + 1) with
    | none => rw [hf] at run; simp at run
    | some r =>
      obtain ⟨h0, e0⟩ := r
      rw [hf] at run
      simp only [Option.some.injEq, Prod.mk.injEq] at run
      obtain ⟨_, hpool, _, _⟩ := run
      refine Or.inl ⟨?_, ?_⟩
      · show pool1.queue_close = s.pool.queue_close
        rw [← hpool]
      · show pool1.pool_close = s.pool.pool_close
        rw [← hpool]

/-- In every reachable state each flag is `0` or `1`. -/
theorem flags_bits (tn qm : Int) (s : System) (reach : Reachable tn qm s) :
    (s.pool.queue_close = 0 ∨ s.pool.queue_close = 1) ∧
      (s.pool.pool_close = 0 ∨ s.pool.pool_close = 1) := by
  induction reach with
  | init env pool evs tn_int qm_int built =>
    obtain ⟨q, inv⟩ : ∃ q, Inv tn qm (boot pool) q :=
      ⟨[], Inv_boot tn qm env pool evs qm_int built⟩
    have h := inv.shutdown
    exact ⟨Or.inl h.1, Or.inl h.2⟩
  | step s s1 before move ih =>
    rcases Step_flags s s1 move with ⟨h1, h2⟩ | ⟨_, _, h1, h2⟩ | ⟨b, _, h1, h2⟩
    · rw [h1, h2]; exact ih
    · exact ⟨Or.inr h1, h2⟩
    · rw [h1]; exact ⟨ih.1, Or.inr h2⟩

/-- C18, order of the shutdown phases: in every reachable state `pool_close`
set implies `queue_close` set, the pair `(queue_close, pool_close)` is one of
`(0,0)`, `(1,0)`, `(1,1)`, and no step moves it backwards: neither flag
decreases. -/
theorem shutdown_phases_ordered (thread_num queue_max_num : Int) (s : System)
    (reach : Reachable thread_num queue_max_num s) :
    (s.pool.pool_close ≠ 0 → s.pool.queue_close ≠ 0) ∧
      ((s.pool.queue_close = 0 ∧ s.pool.pool_close = 0) ∨
        (s.pool.queue_close = 1 ∧ s.pool.pool_close = 0) ∨
        (s.pool.queue_close = 1 ∧ s.pool.pool_close = 1)) ∧
      (∀ s1, Step s s1 →
        s.pool.queue_close ≤ s1.pool.queue_close ∧
          s.pool.pool_close ≤ s1.pool.pool_close) := by
  obtain ⟨q, inv⟩ := Inv_reachable thread_num queue_max_num s reach
  obtain ⟨b1, b2⟩ := flags_bits thread_num queue_max_num s reach
  have order : s.pool.pool_close ≠ 0 → s.pool.queue_close ≠ 0 := by
    intro hpc
    have h := inv.shutdown
    cases hd : s.destroyer with
    | idle => rw [hd] at h; exact absurd h.2 hpc
    | draining b => rw [hd] at h; exact absurd h.2 hpc
    | joining i => rw [hd] at h; exact h.1
    | returned => rw [hd] at h; exact h.1
  refine ⟨order, ?_, ?_⟩
  · rcases b2 with h2 | h2
    · rcases b1 with h1 | h1
      · exact Or.inl ⟨h1, h2⟩
      · exact Or.inr (Or.inl ⟨h1, h2⟩)
    · rcases b1 with h1 | h1
      · exact absurd h1 (order (by rw [h2]; decide))
      · exact Or.inr (Or.inr ⟨h1, h2⟩)
  · intro s1 move
    rcases Step_flags s s1 move with ⟨h1, h2⟩ | ⟨h0, h0p, h1, h2⟩ | ⟨b, _, h1, h2⟩
    · rw [h1, h2]; exact ⟨le_refl _, le_refl _⟩
    · rw [h0, h0p, h1]
      refine ⟨by decide, ?_⟩
      rcases h2 with h2 | h2 <;> omega
    · rw [h1, h2]
      refine ⟨le_refl _, ?_⟩
      rcases b2 with h | h <;> omega

/-! ## Signals of the dequeue -/

/-- Library calls of a worker step that dequeues: the signal on `queue_empty`
if the new counter is `0`, the broadcast on `queue_not_full` if the new counter
is `queue_max_num - 1`, then the unlock. -/
theorem function_loop_dequeue_events (pool pool1 : threadpool) (heap : Heap)
    (pjob : Nat) (evs : List Event)
    (run : threadpool_function_loop pool heap
            = some (WorkerOutcome.dequeued pjob, pool1, evs)) :
    pool1.queue_cur_num = wrapInt (pool.queue_cur_num - 1) ∧
      evs = (if wrapInt (pool.queue_cur_num - 1) = 0 then
              [Event.signal Cond.queue_empty] else []) ++
            (if wrapInt (pool.queue_cur_num - 1)
                = wrapInt (pool.queue_max_num - 1) then
              [Event.broadcast Cond.queue_not_full] else []) ++
            [Event.unlock] := by
  unfold threadpool_function_loop at run
  by_cases hidle : pool.queue_cur_num = 0 ∧ ¬ pool.pool_close ≠ 0
  · rw [if_pos hidle] at run
    simp at run
  · rw [if_neg hidle] at run
    by_cases hclose : pool.pool_close ≠ 0
    · rw [if_pos hclose] at run
      simp at run
    · rw [if_neg hclose] at run
      by_cases hlast : wrapInt (pool.queue_cur_num - 1) = 0
      · simp only [hlast, if_true, Option.some.injEq, Prod.mk.injEq] at run
        obtain ⟨_, h2, h3⟩ := run
        refine ⟨by rw [← h2, hlast], ?_⟩
        rw [← h3]
        simp [hlast]
      · simp only [hlast, if_false] at run
        cases hnd : load heap pool.head with
        | none => rw [hnd] at run; simp at run
        | some nd =>
          rw [hnd] at run
          simp only [Option.some.injEq, Prod.mk.injEq] at run
          obtain ⟨_, h2, h3⟩ := run
          refine ⟨by rw [← h2], ?_⟩
          rw [← h3]
          simp [hlast]

/-- Membership in the library calls of a dequeue. -/
theorem dequeue_events_mem (c1 c2 : Prop) [Decidable c1] [Decidable c2] :
    (Event.signal Cond.queue_empty ∈
        (if c1 then [Event.signal Cond.queue_empty] else []) ++
          (if c2 then [Event.broadcast Cond.queue_not_full] else []) ++
          [Event.unlock] ↔ c1) ∧
      (Event.broadcast Cond.queue_not_full ∈
        (if c1 then [Event.signal Cond.queue_empty] else []) ++
          (if c2 then [Event.broadcast Cond.queue_not_full] else []) ++
          [Event.unlock] ↔ c2) := by
  by_cases h1 : c1 <;> by_cases h2 : c2 <;> simp [h1, h2]

/-- C16, signals of the dequeue: in every reachable state of a pool with
positive capacity, a worker step of `threadpool_function` that dequeues takes
exactly the node at `head` (the queue walked from the new `head` is the old one
without its first node), decrements `queue_cur_num` by `1`, signals
`queue_empty` if and only if the new counter is `0` (and then `head` and `tail`
are `NULL`), and broadcasts `queue_not_full` if and only if the counter was
`queue_max_num` before the step; the step ends with the unlock. -/
theorem dequeue_signalling (thread_num queue_max_num : Int) (s : System)
    (pjob : Nat) (pool1 : threadpool) (evs : List Event)
    (reach : Reachable thread_num queue_max_num s)
    (positive : 0 < queue_max_num)
    (run : threadpool_function_loop s.pool s.heap
            = some (WorkerOutcome.dequeued pjob, pool1, evs)) :
    pjob = s.pool.head ∧
      queue_nodes s.pool s.heap = pjob :: queue_nodes pool1 s.heap ∧
      pool1.queue_cur_num = s.pool.queue_cur_num - 1 ∧
      (Event.signal Cond.queue_empty ∈ evs ↔ pool1.queue_cur_num = 0) ∧
      (pool1.queue_cur_num = 0 → pool1.head = 0 ∧ pool1.tail = 0) ∧
      (Event.broadcast Cond.queue_not_full ∈ evs ↔
        s.pool.queue_cur_num = s.pool.queue_max_num) ∧
      evs.getLast? = some Event.unlock ∧
      threadpool_function s.pool s.heap
        = some (WorkerOutcome.dequeued pjob, pool1, Event.lock :: evs) := by
  obtain ⟨q, inv⟩ := Inv_reachable thread_num queue_max_num s reach
  have hpos : 0 < s.pool.queue_max_num := by rw [inv.qm_eq]; exact positive
  obtain ⟨hlen, hle⟩ := counter_bounds _ _ _ _ _ _ _ inv.queue hpos
  obtain ⟨hcur1, hevs⟩ := function_loop_dequeue_events _ _ _ _ _ run
  have hrange := inv.queue.qm_int
  rcases QInv_dequeue _ _ _ _ _ _ _ _ _ _ inv.queue run with
    ⟨ho, _⟩ | ⟨r, ho, hq, _, hinv⟩
  · rcases ho with ho | ho <;> cases ho
  · have hp : pjob = s.pool.head := by
      simp only [WorkerOutcome.dequeued.injEq] at ho
      exact ho
    have hqlen : (q.length : Int) = (r.length : Int) + 1 := by
      rw [hq]; simp
    have hdec : wrapInt (s.pool.queue_cur_num - 1) = s.pool.queue_cur_num - 1 := by
      apply wrapInt_of_range
      unfold INT_MIN INT_MAX at hrange ⊢
      omega
    have hmax : wrapInt (s.pool.queue_max_num - 1) = s.pool.queue_max_num - 1 := by
      apply wrapInt_of_range
      unfold INT_MIN INT_MAX at hrange ⊢
      omega
    have hcur : pool1.queue_cur_num = s.pool.queue_cur_num - 1 := by
      rw [hcur1, hdec]
    have hzero : pool1.queue_cur_num = 0 → pool1.head = 0 ∧ pool1.tail = 0 := by
      intro h0
      rcases function_loop_cases _ _ _ _ _ run with
        ⟨_, _, hc, _⟩ | ⟨_, hc, _⟩ | ⟨_, _, _, _, hpool⟩ |
        ⟨_, _, hlast, _, _⟩
      · cases hc
      · cases hc
      · rw [hpool]; exact ⟨rfl, rfl⟩
      · rw [hcur1] at h0; exact absurd h0 hlast
    refine ⟨hp, ?_, hcur, ?_, hzero, ?_, ?_, ?_⟩
    · rw [queue_nodes_eq _ _ _ _ _ _ _ inv.queue,
        queue_nodes_eq _ _ _ _ _ _ _ hinv, hq, hp]
    · rw [hevs, (dequeue_events_mem _ _).1, hcur, hdec]
    · rw [hevs, (dequeue_events_mem _ _).2, hdec, hmax]
      omega
    · rw [hevs]
      simp
    · unfold threadpool_function
      rw [run]

/-! ## Wakeups of the workers -/

theorem notify_worker_idem (ws : List WorkerPc) :
    (ws.map notify_worker).map notify_worker = ws.map notify_worker := by
  rw [List.map_map]
  apply List.map_congr_left
  intro w _
  cases w <;> rfl

theorem not_waiting_notified (ws : List WorkerPc) :
    WorkerPc.waiting false ∉ ws.map notify_worker := by
  intro h
  obtain ⟨w, _, hw⟩ := List.mem_map.mp h
  cases w <;> simp [notify_worker] at hw

/-- The workers after the library calls of a step: all waiting workers are
marked if `queue_not_empty` was broadcast, and nothing changes otherwise. -/
theorem deliver_all_workers (s : System) (evs : List Event) :
    (deliver_all s evs).workers
      = if Event.broadcast Cond.queue_not_empty ∈ evs then
          s.workers.map notify_worker
        else s.workers := by
  induction evs generalizing s with
  | nil => simp [deliver_all]
  | cons e evs ih =>
    have hstep : deliver_all s (e :: evs) = deliver_all (deliver s e) evs := rfl
    rw [hstep, ih (deliver s e)]
    by_cases he : e = Event.broadcast Cond.queue_not_empty
    · subst he
      have hw : (deliver s (Event.broadcast Cond.queue_not_empty)).workers
          = s.workers.map notify_worker := rfl
      rw [hw, notify_worker_idem]
      simp
    · have hw : (deliver s e).workers = s.workers := by
        cases e with
        | broadcast c =>
          cases c with
          | queue_empty => rfl
          | queue_not_empty => exact absurd rfl he
          | queue_not_full => rfl
        | signal c => cases c <;> rfl
        | _ => rfl
      rw [hw]
      have hmem : Event.broadcast Cond.queue_not_empty ∈ e :: evs ↔
          Event.broadcast Cond.queue_not_empty ∈ evs := by
        simp [List.mem_cons, Ne.symm he]
      by_cases hin : Event.broadcast Cond.queue_not_empty ∈ evs
      · rw [if_pos hin, if_pos (hmem.mpr hin)]
      · rw [if_neg hin, if_neg (fun h => hin (hmem.mp h))]

theorem waiting_of_deliver_all (s : System) (evs : List Event)
    (h : WorkerPc.waiting false ∈ (deliver_all s evs).workers) :
    WorkerPc.waiting false ∈ s.workers := by
  rw [deliver_all_workers] at h
  by_cases hin : Event.broadcast Cond.queue_not_empty ∈ evs
  · rw [if_pos hin] at h
    exact absurd h (not_waiting_notified s.workers)
  · rw [if_neg hin] at h
    exact h

/-- A producer step leaves no unmarked waiting worker behind a non-empty
queue. -/
theorem calm_producer (s : System) (fl : List Nat)
    (acc deq exe : List (Nat × Nat)) (q : List Nat) (cb arg pjob : Nat)
    (o : AddOutcome) (pool1 : threadpool) (heap1 : Heap)
    (evs0 evs : List Event)
    (inv : QInv s.pool s.heap fl acc deq exe q)
    (calm : WorkerPc.waiting false ∈ s.workers → s.pool.queue_cur_num = 0)
    (run : threadpool_add_job_loop s.pool s.heap cb arg pjob
            = some (o, pool1, heap1, evs0))
    (hevs : evs = evs0 ∨ evs = Event.lock :: evs0)
    (h : WorkerPc.waiting false ∈
      (deliver_all { s with pool := pool1, heap := heap1 } evs).workers) :
    pool1.queue_cur_num = 0 := by
  have hold : WorkerPc.waiting false ∈ s.workers :=
    waiting_of_deliver_all { s with pool := pool1, heap := heap1 } evs h
  obtain ⟨h1, h2⟩ := head_null_iff _ _ _ _ _ _ _ inv
  rcases add_job_loop_cases _ _ _ _ _ _ _ _ _ run with
    ⟨_, _, _, _, hpool, _⟩ | ⟨_, _, hpool, _⟩ | ⟨_, _, _, _, _, hpool, _⟩ |
    ⟨_, _, _, _, _, _, _, _, he⟩ | ⟨_, _, _, _, hhead, _⟩
  · rw [hpool]; exact calm hold
  · rw [hpool]; exact calm hold
  · rw [hpool]; exact calm hold
  · exfalso
    rw [deliver_all_workers] at h
    have hin : Event.broadcast Cond.queue_not_empty ∈ evs := by
      rcases hevs with e | e <;> rw [e, he] <;> simp
    rw [if_pos hin] at h
    exact not_waiting_notified _ h
  · exact absurd (h1.mpr (h2.mp (calm hold))) hhead

/-- A worker step leaves no unmarked waiting worker behind a non-empty
queue. -/
theorem calm_worker (s : System) (i : Nat) (o : WorkerOutcome) (pool1 : threadpool) (evs0 evs : List Event)
    (calm : WorkerPc.waiting false ∈ s.workers → s.pool.queue_cur_num = 0)
    (run : threadpool_function_loop s.pool s.heap = some (o, pool1, evs0))
    (h : WorkerPc.waiting false ∈ (worker_next s i o pool1 evs).workers) :
    pool1.queue_cur_num = 0 := by
  have hmem : WorkerPc.waiting false = worker_pc o ∨
      WorkerPc.waiting false ∈ s.workers := by
    rcases List.mem_or_eq_of_mem_set h with h1 | h1
    · exact Or.inr (waiting_of_deliver_all { s with pool := pool1 } evs h1)
    · exact Or.inl h1
  rcases function_loop_cases _ _ _ _ _ run with
    ⟨hcur, _, _, hpool, _⟩ | ⟨_, ho, hpool, _⟩ | ⟨hcur, _, _, ho, _⟩ |
    ⟨hcur, _, _, ho, _⟩
  · rw [hpool]; exact hcur
  · rw [hpool]
    rcases hmem with e | e
    · rw [ho] at e; cases e
    · exact calm e
  · rcases hmem with e | e
    · rw [ho] at e; cases e
    · exact absurd (calm e) hcur
  · rcases hmem with e | e
    · rw [ho] at e; cases e
    · exact absurd (calm e) hcur

/-- A destroyer step leaves no unmarked waiting worker behind a non-empty
queue. -/
theorem calm_destroyer (s : System) (o : DestroyOutcome) (pool1 : threadpool)
    (evs : List Event)
    (calm : WorkerPc.waiting false ∈ s.workers → s.pool.queue_cur_num = 0)
    (hcur : pool1.queue_cur_num = s.pool.queue_cur_num)
    (h : WorkerPc.waiting false ∈ (destroy_next s o pool1 evs).workers) :
    (destroy_next s o pool1 evs).pool.queue_cur_num = 0 := by
  cases o with
  | rejected rc => exact calm h
  | blocked =>
    have hp : (destroy_next s DestroyOutcome.blocked pool1 evs).pool = pool1 :=
      (Notified_deliver_all { s with pool := pool1 } evs).pool
    rw [hp, hcur]
    exact calm (waiting_of_deliver_all { s with pool := pool1 } evs h)
  | joining =>
    have hp : (destroy_next s DestroyOutcome.joining pool1 evs).pool = pool1 :=
      (Notified_deliver_all { s with pool := pool1 } evs).pool
    rw [hp, hcur]
    exact calm (waiting_of_deliver_all { s with pool := pool1 } evs h)

/-- In every reachable state a worker that waits on `queue_not_empty` without
a mark sees an empty queue. -/
theorem calm_reachable (tn qm : Int) (s : System) (reach : Reachable tn qm s) :
    WorkerPc.waiting false ∈ s.workers → s.pool.queue_cur_num = 0 := by
  induction reach with
  | init env pool evs tn_int qm_int built =>
    intro h
    have := List.eq_of_mem_replicate h
    cases this
  | step s s1 before move ih =>
    obtain ⟨q, inv⟩ := Inv_reachable tn qm s before
    cases move with
    | add_call cb arg pjob o pool1 heap1 evs alive fresh run =>
      obtain ⟨_, _, evs0, he, run0⟩ := add_job_entry _ _ _ _ _ _ _ _ _ run
      intro h
      have hp := (Notified_deliver_all
        { s with pool := pool1, heap := heap1 } evs).pool
      show (deliver_all { s with pool := pool1, heap := heap1 }
        evs).pool.queue_cur_num = 0
      rw [hp]
      exact calm_producer s _ _ _ _ q cb arg pjob o pool1 heap1 evs0 evs
        inv.queue ih run0 (Or.inr he) h
    | add_wake i p pjob o pool1 heap1 evs alive at_wait fresh run =>
      intro h
      have hp := (Notified_deliver_all
        { s with pool := pool1, heap := heap1 } evs).pool
      show (deliver_all { s with pool := pool1, heap := heap1 }
        evs).pool.queue_cur_num = 0
      rw [hp]
      exact calm_producer s _ _ _ _ q _ _ pjob o pool1 heap1 evs evs
        inv.queue ih run (Or.inl rfl) h
    | worker_lock i o pool1 evs alive at_lock run =>
      obtain ⟨evs0, _, run0⟩ := function_entry _ _ _ _ _ run
      intro h
      have hp := (Notified_deliver_all { s with pool := pool1 } evs).pool
      show (deliver_all { s with pool := pool1 } evs).pool.queue_cur_num = 0
      rw [hp]
      exact calm_worker s i o pool1 evs0 evs ih run0 h
    | worker_wake i b o pool1 evs alive at_wait run =>
      intro h
      have hp := (Notified_deliver_all { s with pool := pool1 } evs).pool
      show (deliver_all { s with pool := pool1 } evs).pool.queue_cur_num = 0
      rw [hp]
      exact calm_worker s i o pool1 evs evs ih run h
    | worker_run i pjob c heap1 evs alive at_call run =>
      intro h
      have h1 : WorkerPc.waiting false ∈ s.workers.set i WorkerPc.ready := h
      rcases List.mem_or_eq_of_mem_set h1 with h2 | h2
      · exact ih h2
      · cases h2
    | destroy_call o pool1 evs alive run =>
      apply calm_destroyer s o pool1 evs ih
      rcases destory_cases _ _ _ _ run with
        ⟨_, _, hpool, _⟩ | ⟨_, _, _, _, hpool, _⟩ | ⟨_, _, _, _, hpool, _⟩ <;>
      rw [hpool]
    | destroy_wake b o pool1 evs at_wait run =>
      apply calm_destroyer s o pool1 evs ih
      rcases destory_loop_cases _ _ _ _ run with
        ⟨_, _, hpool, _⟩ | ⟨_, _, hpool, _⟩ <;>
      rw [hpool]
    | destroy_join i at_join more gone => exact ih
    | destroy_finish i rc pool1 heap1 evs at_join done run =>
      intro h
      unfold threadpool_destory_cleanup at run
      cases hf : free_residual s.heap s.pool.head (s.heap.length + 1) with
      | none => rw [hf] at run; simp at run
      | some r =>
        obtain ⟨h0, e0⟩ := r
        rw [hf] at run
        simp only [Option.some.injEq, Prod.mk.injEq] at run
        obtain ⟨_, hpool, _, _⟩ := run
        show pool1.queue_cur_num = 0
        rw [← hpool]
        exact ih h

/-- C15, no missed wakeup: in every reachable state a worker blocked on
`queue_not_empty` without a pending wakeup sees `queue_cur_num = 0`; a step of
`threadpool_add_job` that enqueues into an empty queue broadcasts
`queue_not_empty`, after which every waiting worker has a pending wakeup; and a
worker step blocks only when `queue_cur_num = 0`. -/
theorem no_missed_wakeup (thread_num queue_max_num : Int) (s : System)
    (reach : Reachable thread_num queue_max_num s) :
    (∀ i : Nat, s.workers[i]? = some (WorkerPc.waiting false) →
        s.pool.queue_cur_num = 0) ∧
      (∀ cb arg pjob pool1 heap1 evs,
        threadpool_add_job_loop s.pool s.heap cb arg pjob
          = some (AddOutcome.returned 0, pool1, heap1, evs) →
        s.pool.queue_cur_num = 0 →
        Event.broadcast Cond.queue_not_empty ∈ evs ∧
          WorkerPc.waiting false ∉
            (deliver_all { s with pool := pool1, heap := heap1 } evs).workers) ∧
      (∀ pool1 evs,
        threadpool_function_loop s.pool s.heap
          = some (WorkerOutcome.blocked, pool1, evs) →
        s.pool.queue_cur_num = 0 ∧
          evs = [Event.wait Cond.queue_not_empty]) := by
  obtain ⟨q, inv⟩ := Inv_reachable thread_num queue_max_num s reach
  have calm := calm_reachable thread_num queue_max_num s reach
  obtain ⟨h1, h2⟩ := head_null_iff _ _ _ _ _ _ _ inv.queue
  refine ⟨?_, ?_, ?_⟩
  · intro i hi
    exact calm (List.getElem?_mem hi)
  · intro cb arg pjob pool1 heap1 evs run hcur
    have hhead : s.pool.head = 0 := h1.mpr (h2.mp hcur)
    have hin : Event.broadcast Cond.queue_not_empty ∈ evs := by
      rcases add_job_loop_cases _ _ _ _ _ _ _ _ _ run with
        ⟨_, _, _, ho, _⟩ | ⟨_, ho, _⟩ | ⟨_, _, _, _, ho, _⟩ |
        ⟨_, _, _, _, _, _, _, _, he⟩ | ⟨_, _, _, _, hne, _⟩
      · cases ho
      · cases ho
      · cases ho
      · rw [he]; simp
      · exact absurd hhead hne
    refine ⟨hin, ?_⟩
    rw [deliver_all_workers, if_pos hin]
    exact not_waiting_notified s.workers
  · intro pool1 evs run
    rcases function_loop_cases _ _ _ _ _ run with
      ⟨hcur, _, _, _, he⟩ | ⟨_, ho, _⟩ | ⟨_, _, _, ho, _⟩ | ⟨_, _, _, ho, _⟩
    · exact ⟨hcur, he⟩
    · cases ho
    · cases ho
    · cases ho

/-! ## The counter and the list -/

/-- C19, the counter and the list: in every reachable state of a pool built
with a capacity that is not negative (the interface asks for a positive one),
`queue_cur_num` is the number of nodes chained from `head` by `next`; when that
number is positive `tail` is the last of these nodes; and when a dequeue brings
the counter to `0` the node taken is the only queued node, so that setting
`head = tail = NULL` discards no queued job. -/
theorem counter_matches_list (thread_num queue_max_num : Int) (s : System)
    (reach : Reachable thread_num queue_max_num s)
    (nonneg : 0 ≤ queue_max_num) :
    s.pool.queue_cur_num = (queue_nodes s.pool s.heap).length ∧
      (0 < (queue_nodes s.pool s.heap).length →
        (queue_nodes s.pool s.heap).getLast? = some s.pool.tail) ∧
      (∀ pjob pool1 evs,
        threadpool_function_loop s.pool s.heap
          = some (WorkerOutcome.dequeued pjob, pool1, evs) →
        pool1.queue_cur_num = 0 →
        queue_nodes s.pool s.heap = [pjob] ∧ pool1.head = 0 ∧
          pool1.tail = 0 ∧ queue_nodes pool1 s.heap = []) := by
  obtain ⟨q, inv⟩ := Inv_reachable thread_num queue_max_num s reach
  have hq := queue_nodes_eq _ _ _ _ _ _ _ inv.queue
  have hcur := inv.queue.cur_eq
  have hcap := inv.queue.cap
  have hrange := inv.queue.qm_int
  have hqm := inv.qm_eq
  rw [hq]
  refine ⟨?_, ?_, ?_⟩
  · rw [hcur]
    apply wrapInt_of_range
    unfold INT_MIN INT_MAX at hrange ⊢
    omega
  · intro hpos
    exact inv.queue.tail_last (List.length_pos.mp hpos)
  · intro pjob pool1 evs run hzero
    rcases QInv_dequeue _ _ _ _ _ _ _ _ _ _ inv.queue run with
      ⟨ho, _⟩ | ⟨r, ho, hqr, _, hinv⟩
    · rcases ho with ho | ho <;> cases ho
    · have hp : pjob = s.pool.head := by
        simp only [WorkerOutcome.dequeued.injEq] at ho
        exact ho
      obtain ⟨h1, h2⟩ := head_null_iff _ _ _ _ _ _ _ hinv
      have hr : r = [] := h2.mp hzero
      have htail : pool1.tail = 0 := by
        rcases function_loop_cases _ _ _ _ _ run with
          ⟨_, _, hc, _⟩ | ⟨_, hc, _⟩ | ⟨_, _, _, _, hpool⟩ |
          ⟨_, _, hlast, _, nd, _, hpool⟩
        · cases hc
        · cases hc
        · rw [hpool]
        · exfalso
          rw [hpool] at hzero
          exact hlast hzero
      refine ⟨by rw [hqr, hr, hp], h1.mpr hr, htail, ?_⟩
      rw [queue_nodes_eq _ _ _ _ _ _ _ hinv, hr]

/-! ## Shutdown of a pool that accepted no job -/

theorem function_exits (pool : threadpool) (heap : Heap)
    (closed : pool.pool_close ≠ 0) :
    threadpool_function_loop pool heap
        = some (WorkerOutcome.exited, pool, [Event.unlock, Event.thread_exit]) ∧
      threadpool_function pool heap
        = some (WorkerOutcome.exited, pool,
            [Event.lock, Event.unlock, Event.thread_exit]) := by
  have hidle : ¬ (pool.queue_cur_num = 0 ∧ ¬ pool.pool_close ≠ 0) :=
    fun h => h.2 closed
  have hloop : threadpool_function_loop pool heap
      = some (WorkerOutcome.exited, pool, [Event.unlock, Event.thread_exit]) := by
    unfold threadpool_function_loop
    rw [if_neg hidle, if_pos closed]
  refine ⟨hloop, ?_⟩
  unfold threadpool_function
  rw [hloop]

theorem destory_fast (pool : threadpool) (empty : pool.queue_cur_num = 0)
    (hqc : pool.queue_close = 0) (hpc : pool.pool_close = 0) :
    threadpool_destory pool
      = (DestroyOutcome.joining,
          { pool with queue_close := 1, pool_close := 1 },
          [Event.lock, Event.unlock, Event.broadcast Cond.queue_not_full,
           Event.broadcast Cond.queue_not_empty]) := by
  have hopen : ¬ (pool.queue_close ≠ 0 ∨ pool.pool_close ≠ 0) := by
    intro h; rcases h with h | h
    · exact h hqc
    · exact h hpc
  unfold threadpool_destory
  rw [if_neg hopen]
  unfold threadpool_destory_loop
  simp [empty]

theorem set_append_length (done rest : List WorkerPc) (w a : WorkerPc) :
    (done ++ w :: rest).set done.length a = done ++ a :: rest := by
  induction done with
  | nil => rfl
  | cons x done ih => simp [ih]

theorem getElem?_append_length (done rest : List WorkerPc) (w : WorkerPc) :
    (done ++ w :: rest)[done.length]? = some w := by
  induction done with
  | nil => simp
  | cons x done ih => simpa using ih

/-- Once the destroyer joins, the workers not yet joined exit one after the
other and `threadpool_destory` returns `0`. -/
theorem drain_workers (tn qm : Int) (rest : List WorkerPc) :
    ∀ (done : List WorkerPc) (s : System), Reachable tn qm s →
      s.workers = done ++ rest →
      (∀ w ∈ rest, w = WorkerPc.ready ∨ ∃ b, w = WorkerPc.waiting b) →
      s.destroyer = DestroyPc.joining done.length →
      ∃ s1, Reachable tn qm s1 ∧ s1.destroyer = DestroyPc.returned ∧
        s1.accepted = s.accepted := by
  induction rest with
  | nil =>
    intro done s reach hws _ at_join
    obtain ⟨q, inv⟩ := Inv_reachable tn qm s reach
    have hph := inv.shutdown
    rw [at_join] at hph
    have hlen := inv.nworkers
    have htn := inv.tn_eq
    rw [hws, List.append_nil] at hlen
    have hdone : ¬ (done.length : Int) < s.pool.thread_num := by
      rw [htn]; omega
    have move := Step.destroy_finish s done.length 0 s.pool s.heap _ at_join
      hdone (destory_cleanup_returns tn qm s reach hph.2.1)
    exact ⟨_, Reachable.step s _ reach move, rfl, rfl⟩
  | cons w rest ih =>
    intro done s reach hws hrest at_join
    obtain ⟨q, inv⟩ := Inv_reachable tn qm s reach
    have hph := inv.shutdown
    rw [at_join] at hph
    have hclosed : s.pool.pool_close ≠ 0 := hph.2.1
    have hlen := inv.nworkers
    have htn := inv.tn_eq
    have alive : s.destroyer ≠ DestroyPc.returned := by rw [at_join]; simp
    have at_k : s.workers[done.length]? = some w := by
      rw [hws]; exact getElem?_append_length done rest w
    have hmore : (done.length : Int) < s.pool.thread_num := by
      rw [hws] at hlen
      simp only [List.length_append, List.length_cons] at hlen
      rw [htn]; omega
    obtain ⟨hloop, hfun⟩ := function_exits s.pool s.heap hclosed
    have hmove : ∃ evs,
        Step s (worker_next s done.length WorkerOutcome.exited s.pool evs) ∧
        worker_next s done.length WorkerOutcome.exited s.pool evs
          = { s with workers := s.workers.set done.length WorkerPc.exited } := by
      rcases hrest w (List.mem_cons_self w rest) with e | ⟨b, e⟩
      · rw [e] at at_k
        exact ⟨_, Step.worker_lock s done.length _ _ _ alive at_k hfun,
          by simp [worker_next, deliver_all, deliver, worker_pc, taken]⟩
      · rw [e] at at_k
        exact ⟨_, Step.worker_wake s done.length b _ _ _ alive at_k hloop,
          by simp [worker_next, deliver_all, deliver, worker_pc, taken]⟩
    obtain ⟨evs, move, hnext⟩ := hmove
    rw [hnext] at move
    have reach1 := Reachable.step s _ reach move
    have hws1 : s.workers.set done.length WorkerPc.exited
        = done ++ WorkerPc.exited :: rest := by
      rw [hws]; exact set_append_length done rest w WorkerPc.exited
    have move2 := Step.destroy_join
      { s with workers := s.workers.set done.length WorkerPc.exited }
      done.length at_join hmore
      (by
        show (s.workers.set done.length WorkerPc.exited)[done.length]? = _
        rw [hws1]; exact getElem?_append_length done rest WorkerPc.exited)
    have reach2 := Reachable.step _ _ reach1 move2
    obtain ⟨s1, r1, d1, a1⟩ := ih (done ++ [WorkerPc.exited]) _ reach2
      (by
        show s.workers.set done.length WorkerPc.exited = _
        rw [hws1]; simp)
      (fun x hx => hrest x (List.mem_cons_of_mem w hx))
      (by simp)
    exact ⟨s1, r1, d1, a1⟩

/-- In a run in which no job was accepted the destroyer never waits on
`queue_empty`. -/
theorem never_draining (tn qm : Int) (s : System) (reach : Reachable tn qm s)
    (none_accepted : s.accepted = []) : ∀ b, s.destroyer ≠ DestroyPc.draining b := by
  induction reach with
  | init env pool evs tn_int qm_int built =>
    intro b h
    cases h
  | step s s1 before move ih =>
    have hacc : s.accepted = [] := by
      rcases Step_accepted s s1 move with h | ⟨_, _, _, _, _, _, _, h⟩
      · rw [← h]; exact none_accepted
      · rw [none_accepted] at h
        exact absurd h.symm (by simp)
    have hold := ih hacc
    obtain ⟨q, inv⟩ := Inv_reachable tn qm s before
    have hcur : s.pool.queue_cur_num = 0 := by
      have hf := inv.queue.fifo
      rw [hacc] at hf
      have hq : q = [] := by
        have := (List.append_eq_nil.mp hf.symm).2
        exact List.map_eq_nil_iff.mp this
      rw [inv.queue.cur_eq, hq]
      exact wrapInt_zero
    cases move with
    | add_call cb arg pjob o pool1 heap1 evs alive fresh run =>
      intro b h
      have note := Notified_deliver_all { s with pool := pool1, heap := heap1 }
        evs
      have h1 : (deliver_all { s with pool := pool1, heap := heap1 }
          evs).destroyer = DestroyPc.draining b := h
      rcases note.destroyer with e | ⟨b1, e, _⟩
      · rw [e] at h1; exact hold b h1
      · exact hold b1 e
    | add_wake i p pjob o pool1 heap1 evs alive at_wait fresh run =>
      intro b h
      have note := Notified_deliver_all { s with pool := pool1, heap := heap1 }
        evs
      have h1 : (deliver_all { s with pool := pool1, heap := heap1 }
          evs).destroyer = DestroyPc.draining b := h
      rcases note.destroyer with e | ⟨b1, e, _⟩
      · rw [e] at h1; exact hold b h1
      · exact hold b1 e
    | worker_lock i o pool1 evs alive at_lock run =>
      intro b h
      have note := Notified_deliver_all { s with pool := pool1 } evs
      have h1 : (deliver_all { s with pool := pool1 } evs).destroyer
          = DestroyPc.draining b := h
      rcases note.destroyer with e | ⟨b1, e, _⟩
      · rw [e] at h1; exact hold b h1
      · exact hold b1 e
    | worker_wake i b0 o pool1 evs alive at_wait run =>
      intro b h
      have note := Notified_deliver_all { s with pool := pool1 } evs
      have h1 : (deliver_all { s with pool := pool1 } evs).destroyer
          = DestroyPc.draining b := h
      rcases note.destroyer with e | ⟨b1, e, _⟩
      · rw [e] at h1; exact hold b h1
      · exact hold b1 e
    | worker_run i pjob c heap1 evs alive at_call run => exact hold
    | destroy_call o pool1 evs alive run =>
      rcases destory_cases _ _ _ _ run with
        ⟨_, ho, _, _⟩ | ⟨_, _, hne, _⟩ | ⟨_, _, _, ho, _⟩
      · subst ho; exact hold
      · exact absurd hcur hne
      · subst ho
        intro b h
        cases h
    | destroy_wake b0 o pool1 evs at_wait run => exact absurd at_wait (hold b0)
    | destroy_join i at_join more gone =>
      intro b h
      cases h
    | destroy_finish i rc pool1 heap1 evs at_join done run =>
      intro b h
      cases h

/-- C14, empty-drain fast path: on the pool returned by `threadpool_init`, and
in every reachable state in which no job was accepted and no destroyer is
active, the call of `threadpool_destory` sets `queue_close` and `pool_close` in
its first critical section and goes on to the joins without a
`pthread_cond_wait`; in a run without accepted job the destroyer never waits on
`queue_empty`; and such a run exists in which `threadpool_destory` returns
`0`. -/
theorem empty_drain_fast_path (thread_num queue_max_num : Int) (env : InitEnv)
    (pool : threadpool) (evs : List Event)
    (tn_int : INT_MIN ≤ thread_num ∧ thread_num ≤ INT_MAX)
    (qm_int : INT_MIN ≤ queue_max_num ∧ queue_max_num ≤ INT_MAX)
    (built : threadpool_init thread_num queue_max_num env = (some pool, evs)) :
    threadpool_destory pool
        = (DestroyOutcome.joining,
            { pool with queue_close := 1, pool_close := 1 },
            [Event.lock, Event.unlock, Event.broadcast Cond.queue_not_full,
             Event.broadcast Cond.queue_not_empty]) ∧
      (∀ s, Reachable thread_num queue_max_num s → s.accepted = [] →
        (∀ b, s.destroyer ≠ DestroyPc.draining b) ∧
        (s.destroyer = DestroyPc.idle →
          threadpool_destory s.pool
            = (DestroyOutcome.joining,
                { s.pool with queue_close := 1, pool_close := 1 },
                [Event.lock, Event.unlock,
                 Event.broadcast Cond.queue_not_full,
                 Event.broadcast Cond.queue_not_empty]))) ∧
      (∃ s, Reachable thread_num queue_max_num s ∧
        s.destroyer = DestroyPc.returned ∧ s.accepted = []) := by
  have fast : ∀ s, Reachable thread_num queue_max_num s → s.accepted = [] →
      s.destroyer = DestroyPc.idle →
      threadpool_destory s.pool
        = (DestroyOutcome.joining,
            { s.pool with queue_close := 1, pool_close := 1 },
            [Event.lock, Event.unlock, Event.broadcast Cond.queue_not_full,
             Event.broadcast Cond.queue_not_empty]) := by
    intro s reach hacc idle
    obtain ⟨q, inv⟩ := Inv_reachable thread_num queue_max_num s reach
    have hph := inv.shutdown
    rw [idle] at hph
    have hf := inv.queue.fifo
    rw [hacc] at hf
    have hq : q = [] :=
      List.map_eq_nil_iff.mp (List.append_eq_nil.mp hf.symm).2
    have hcur : s.pool.queue_cur_num = 0 := by
      rw [inv.queue.cur_eq, hq]; exact wrapInt_zero
    exact destory_fast s.pool hcur hph.1 hph.2
  have reach0 : Reachable thread_num queue_max_num (boot pool) :=
    Reachable.init env pool evs tn_int qm_int built
  have run0 := fast (boot pool) reach0 rfl rfl
  refine ⟨run0, ?_, ?_⟩
  · intro s reach hacc
    exact ⟨never_draining thread_num queue_max_num s reach hacc,
      fast s reach hacc⟩
  · have move := Step.destroy_call (boot pool) _ _ _ (by simp [boot]) run0
    have reach1 := Reachable.step _ _ reach0 move
    have note := Notified_deliver_all
      { boot pool with
        pool := { pool with queue_close := 1, pool_close := 1 } }
      [Event.lock, Event.unlock, Event.broadcast Cond.queue_not_full,
       Event.broadcast Cond.queue_not_empty]
    obtain ⟨s1, r1, d1, a1⟩ := drain_workers thread_num queue_max_num _ [] _
      reach1 rfl
      (by
        intro w hw
        have hw1 : w ∈ (deliver_all
            { boot pool with
              pool := { pool with queue_close := 1, pool_close := 1 } }
            [Event.lock, Event.unlock, Event.broadcast Cond.queue_not_full,
             Event.broadcast Cond.queue_not_empty]).workers := hw
        rw [deliver_all_workers] at hw1
        simp only [List.mem_cons, List.mem_singleton, or_true, if_true] at hw1
        obtain ⟨x, hx, hxw⟩ := List.mem_map.mp hw1
        have hx1 : x = WorkerPc.ready := List.eq_of_mem_replicate hx
        rw [hx1] at hxw
        exact Or.inl hxw.symm)
      rfl
    refine ⟨s1, r1, d1, ?_⟩
    rw [a1]
    exact note.accepted

/-! ## Steps with their thread and their library calls -/

theorem LStep_Step (a : Option Nat) (evs : List Event) (s s1 : System)
    (move : LStep a evs s s1) : Step s s1 := by
  induction move with
  | add_call s cb arg pjob o pool1 heap1 evs alive fresh run =>
    exact Step.add_call s cb arg pjob o pool1 heap1 evs alive fresh run
  | add_wake s i p pjob o pool1 heap1 evs alive at_wait fresh run =>
    exact Step.add_wake s i p pjob o pool1 heap1 evs alive at_wait fresh run
  | worker_lock s i o pool1 evs alive at_lock run =>
    exact Step.worker_lock s i o pool1 evs alive at_lock run
  | worker_wake s i b o pool1 evs alive at_wait run =>
    exact Step.worker_wake s i b o pool1 evs alive at_wait run
  | worker_run s i pjob c heap1 evs alive at_call run =>
    exact Step.worker_run s i pjob c heap1 evs alive at_call run
  | destroy_call s o pool1 evs alive run =>
    exact Step.destroy_call s o pool1 evs alive run
  | destroy_wake s b o pool1 evs at_wait run =>
    exact Step.destroy_wake s b o pool1 evs at_wait run
  | destroy_join s i at_join more gone =>
    exact Step.destroy_join s i at_join more gone
  | destroy_finish s i rc pool1 heap1 evs at_join done run =>
    exact Step.destroy_finish s i rc pool1 heap1 evs at_join done run

theorem Step_LStep (s s1 : System) (move : Step s s1) :
    ∃ a evs, LStep a evs s s1 := by
  cases move with
  | add_call cb arg pjob o pool1 heap1 evs alive fresh run =>
    exact ⟨_, _, LStep.add_call s cb arg pjob o pool1 heap1 evs alive fresh run⟩
  | add_wake i p pjob o pool1 heap1 evs alive at_wait fresh run =>
    exact ⟨_, _,
      LStep.add_wake s i p pjob o pool1 heap1 evs alive at_wait fresh run⟩
  | worker_lock i o pool1 evs alive at_lock run =>
    exact ⟨_, _, LStep.worker_lock s i o pool1 evs alive at_lock run⟩
  | worker_wake i b o pool1 evs alive at_wait run =>
    exact ⟨_, _, LStep.worker_wake s i b o pool1 evs alive at_wait run⟩
  | worker_run i pjob c heap1 evs alive at_call run =>
    exact ⟨_, _, LStep.worker_run s i pjob c heap1 evs alive at_call run⟩
  | destroy_call o pool1 evs alive run =>
    exact ⟨_, _, LStep.destroy_call s o pool1 evs alive run⟩
  | destroy_wake b o pool1 evs at_wait run =>
    exact ⟨_, _, LStep.destroy_wake s b o pool1 evs at_wait run⟩
  | destroy_join i at_join more gone =>
    exact ⟨_, _, LStep.destroy_join s i at_join more gone⟩
  | destroy_finish i rc pool1 heap1 evs at_join done run =>
    exact ⟨_, _, LStep.destroy_finish s i rc pool1 heap1 evs at_join done run⟩

/-- A traced state is a reachable state. -/
theorem Traced_reachable (tn qm : Int) (s : System) (h : Nat → List Event)
    (tr : Traced tn qm s h) : Reachable tn qm s := by
  induction tr with
  | init env pool evs tn_int qm_int built =>
    exact Reachable.init env pool evs tn_int qm_int built
  | step s s1 h a evs _ move ih =>
    exact Reachable.step s s1 ih (LStep_Step a evs s s1 move)

/-- Every reachable state is reached with some record of the workers' library
calls. -/
theorem reachable_traced (tn qm : Int) (s : System) (reach : Reachable tn qm s) :
    ∃ h, Traced tn qm s h := by
  induction reach with
  | init env pool evs tn_int qm_int built =>
    exact ⟨_, Traced.init env pool evs tn_int qm_int built⟩
  | step s s1 _ move ih =>
    obtain ⟨h, tr⟩ := ih
    obtain ⟨a, evs, lmove⟩ := Step_LStep s s1 move
    exact ⟨_, Traced.step s s1 h a evs tr lmove⟩

/-! ## The mutex along a run -/

theorem mutex_state_append (m : MutexState) (evs evs1 : List Event) :
    mutex_state m (evs ++ evs1) = mutex_state (mutex_state m evs) evs1 := by
  induction evs generalizing m with
  | nil => rfl
  | cons e evs ih => exact ih _

theorem locked_calls_append (m : MutexState) (evs evs1 : List Event) :
    locked_calls m (evs ++ evs1)
      = locked_calls m evs ++ locked_calls (mutex_state m evs) evs1 := by
  induction evs generalizing m with
  | nil => rfl
  | cons e evs ih =>
    rw [List.cons_append]
    simp only [locked_calls, mutex_state]
    rw [ih, List.append_assoc]

/-- The library calls of a dequeue, made with the mutex held, contain no call
of a callback and end with the mutex released. -/
theorem dequeue_events_mutex (c1 c2 : Prop) [Decidable c1] [Decidable c2]
    (m : MutexState) (hm : resumed m = MutexState.held) :
    mutex_state m
        ((if c1 then [Event.signal Cond.queue_empty] else []) ++
          (if c2 then [Event.broadcast Cond.queue_not_full] else []) ++
          [Event.unlock]) = MutexState.free ∧
      locked_calls m
        ((if c1 then [Event.signal Cond.queue_empty] else []) ++
          (if c2 then [Event.broadcast Cond.queue_not_full] else []) ++
          [Event.unlock]) = [] := by
  cases m with
  | free => cases hm
  | held =>
    by_cases h1 : c1 <;> by_cases h2 : c2 <;>
    simp [h1, h2, mutex_state, locked_calls, effect, resumed]
  | blocked =>
    by_cases h1 : c1 <;> by_cases h2 : c2 <;>
    simp [h1, h2, mutex_state, locked_calls, effect, resumed]

/-- A worker step of `threadpool_function` resumed with the mutex held makes
no call of a callback and ends without the mutex: blocked in
`pthread_cond_wait` if it blocks, released otherwise. -/
theorem function_loop_mutex (pool pool1 : threadpool) (heap : Heap)
    (o : WorkerOutcome) (evs : List Event) (m : MutexState)
    (hm : resumed m = MutexState.held)
    (run : threadpool_function_loop pool heap = some (o, pool1, evs)) :
    mutex_state m evs = mutex_at (some (worker_pc o)) ∧
      locked_calls m evs = [] := by
  cases o with
  | blocked =>
    rcases function_loop_cases _ _ _ _ _ run with
      ⟨_, _, _, _, he⟩ | ⟨_, ho, _⟩ | ⟨_, _, _, ho, _⟩ | ⟨_, _, _, ho, _⟩
    · subst he
      simp [mutex_state, locked_calls, effect, hm, mutex_at, worker_pc]
    · cases ho
    · cases ho
    · cases ho
  | exited =>
    rcases function_loop_cases _ _ _ _ _ run with
      ⟨_, _, ho, _⟩ | ⟨_, _, _, he⟩ | ⟨_, _, _, ho, _⟩ | ⟨_, _, _, ho, _⟩
    · cases ho
    · subst he
      simp [mutex_state, locked_calls, effect, hm, resumed, mutex_at, worker_pc]
    · cases ho
    · cases ho
  | dequeued pjob =>
    obtain ⟨_, he⟩ := function_loop_dequeue_events _ _ _ _ _ run
    subst he
    exact dequeue_events_mutex _ _ m hm

theorem mutex_at_deliver_all (s : System) (evs : List Event) (i : Nat) :
    mutex_at (deliver_all s evs).workers[i]? = mutex_at s.workers[i]? := by
  rw [deliver_all_workers]
  by_cases hin : Event.broadcast Cond.queue_not_empty ∈ evs
  · rw [if_pos hin, List.getElem?_map]
    cases h : s.workers[i]? with
    | none => rfl
    | some w => cases w <;> rfl
  · rw [if_neg hin]

theorem lt_length_of_getElem? (ws : List WorkerPc) (i : Nat) (w : WorkerPc)
    (h : ws[i]? = some w) : i < ws.length := by
  by_contra hge
  rw [List.getElem?_eq_none (by omega)] at h
  cases h

/-- After a step of worker `j` whose program point becomes `pc`, the mutex
state expected at each worker's program point. -/
theorem mutex_at_worker_next (s : System) (j : Nat) (w : WorkerPc)
    (o : WorkerOutcome) (pool1 : threadpool) (evs : List Event)
    (at_j : s.workers[j]? = some w) (i : Nat) :
    mutex_at (worker_next s j o pool1 evs).workers[i]?
      = if i = j then mutex_at (some (worker_pc o))
        else mutex_at s.workers[i]? := by
  have hlen : j < (deliver_all { s with pool := pool1 } evs).workers.length := by
    obtain ⟨h, _, hws⟩ :=
      (Notified_deliver_all { s with pool := pool1 } evs).workers
    rw [hws, List.length_map]
    exact lt_length_of_getElem? s.workers j w at_j
  show mutex_at ((deliver_all { s with pool := pool1 } evs).workers.set j
    (worker_pc o))[i]? = _
  by_cases hij : i = j
  · subst hij
    rw [if_pos rfl, List.getElem?_set_self hlen]
  · rw [if_neg hij, List.getElem?_set_ne (Ne.symm hij)]
    exact mutex_at_deliver_all { s with pool := pool1 } evs i

/-- A step keeps, for every worker, the agreement between its library calls
so far and its program point, and adds no call of a callback made with the
mutex held. -/
theorem LStep_mutex (a : Option Nat) (evs : List Event) (s s1 : System)
    (move : LStep a evs s s1) (h : Nat → List Event) (i : Nat)
    (ih : mutex_state MutexState.free (h i) = mutex_at s.workers[i]? ∧
      locked_calls MutexState.free (h i) = []) :
    mutex_state MutexState.free (record h a evs i) = mutex_at s1.workers[i]? ∧
      locked_calls MutexState.free (record h a evs i) = [] := by
  have worker : ∀ (j : Nat) (w : WorkerPc) (o : WorkerOutcome)
      (pool1 : threadpool) (evs0 evs : List Event),
      s.workers[j]? = some w →
      threadpool_function_loop s.pool s.heap = some (o, pool1, evs0) →
      mutex_state (mutex_at (some w)) evs = mutex_at (some (worker_pc o)) →
      locked_calls (mutex_at (some w)) evs = [] →
      mutex_state MutexState.free (record h (some j) evs i)
          = mutex_at (worker_next s j o pool1 evs).workers[i]? ∧
        locked_calls MutexState.free (record h (some j) evs i) = [] := by
    intro j w o pool1 evs0 evs at_j _ hstate hcalls
    rw [mutex_at_worker_next s j w o pool1 evs at_j i]
    show mutex_state MutexState.free (if i = j then h i ++ evs else h i) = _ ∧
      locked_calls MutexState.free (if i = j then h i ++ evs else h i) = []
    by_cases hij : i = j
    · subst hij
      rw [if_pos rfl, if_pos rfl, mutex_state_append, locked_calls_append,
        ih.1, ih.2, at_j, hstate, hcalls]
      exact ⟨rfl, rfl⟩
    · rw [if_neg hij, if_neg hij]
      exact ih
  induction move with
  | add_call s cb arg pjob o pool1 heap1 evs alive fresh run =>
    refine ⟨?_, ih.2⟩
    show mutex_state MutexState.free (h i)
      = mutex_at (deliver_all { s with pool := pool1, heap := heap1 }
          evs).workers[i]?
    rw [mutex_at_deliver_all]
    exact ih.1
  | add_wake s k p pjob o pool1 heap1 evs alive at_wait fresh run =>
    refine ⟨?_, ih.2⟩
    show mutex_state MutexState.free (h i)
      = mutex_at (deliver_all { s with pool := pool1, heap := heap1 }
          evs).workers[i]?
    rw [mutex_at_deliver_all]
    exact ih.1
  | worker_lock s j o pool1 evs alive at_lock run =>
    obtain ⟨evs0, he, run0⟩ := function_entry _ _ _ _ _ run
    obtain ⟨h1, h2⟩ := function_loop_mutex _ _ _ _ _ MutexState.held rfl run0
    subst he
    exact worker j WorkerPc.ready o pool1 evs0 _ at_lock run0 h1 h2
  | worker_wake s j b o pool1 evs alive at_wait run =>
    obtain ⟨h1, h2⟩ := function_loop_mutex _ _ _ _ _ MutexState.blocked rfl run
    exact worker j (WorkerPc.waiting b) o pool1 evs _ at_wait run h1 h2
  | worker_run s j pjob c heap1 evs alive at_call run =>
    have hevs : evs = [Event.call c.1 c.2, Event.free pjob] := by
      unfold threadpool_function_run at run
      cases hnd : load s.heap pjob with
      | none => rw [hnd] at run; simp at run
      | some nd =>
        rw [hnd] at run
        simp only [Option.some.injEq, Prod.mk.injEq] at run
        obtain ⟨hc, _, he⟩ := run
        rw [← he, ← hc]
    have hlen := lt_length_of_getElem? s.workers j _ at_call
    show mutex_state MutexState.free (if i = j then h i ++ evs else h i)
        = mutex_at (s.workers.set j WorkerPc.ready)[i]? ∧
      locked_calls MutexState.free (if i = j then h i ++ evs else h i) = []
    by_cases hij : i = j
    · subst hij
      rw [if_pos rfl, mutex_state_append, locked_calls_append,
        ih.1, ih.2, at_call, List.getElem?_set_self hlen, hevs]
      exact ⟨rfl, rfl⟩
    · rw [if_neg hij, List.getElem?_set_ne (Ne.symm hij)]
      exact ih
  | destroy_call s o pool1 evs alive run =>
    refine ⟨?_, ih.2⟩
    show mutex_state MutexState.free (h i)
      = mutex_at (destroy_next s o pool1 evs).workers[i]?
    cases o with
    | rejected rc => exact ih.1
    | blocked =>
      show _ = mutex_at (deliver_all { s with pool := pool1 } evs).workers[i]?
      rw [mutex_at_deliver_all]; exact ih.1
    | joining =>
      show _ = mutex_at (deliver_all { s with pool := pool1 } evs).workers[i]?
      rw [mutex_at_deliver_all]; exact ih.1
  | destroy_wake s b o pool1 evs at_wait run =>
    refine ⟨?_, ih.2⟩
    show mutex_state MutexState.free (h i)
      = mutex_at (destroy_next s o pool1 evs).workers[i]?
    cases o with
    | rejected rc => exact ih.1
    | blocked =>
      show _ = mutex_at (deliver_all { s with pool := pool1 } evs).workers[i]?
      rw [mutex_at_deliver_all]; exact ih.1
    | joining =>
      show _ = mutex_at (deliver_all { s with pool := pool1 } evs).workers[i]?
      rw [mutex_at_deliver_all]; exact ih.1
  | destroy_join s k at_join more gone => exact ih
  | destroy_finish s k rc pool1 heap1 evs at_join done run => exact ih

/-- Along every run and for every worker: the library calls made so far leave
the worker blocked in `pthread_cond_wait` if it waits and without the mutex
otherwise, and no callback was called with the mutex held. -/
theorem mutex_invariant (tn qm : Int) (s : System) (h : Nat → List Event)
    (tr : Traced tn qm s h) (i : Nat) :
    mutex_state MutexState.free (h i) = mutex_at s.workers[i]? ∧
      locked_calls MutexState.free (h i) = [] := by
  induction tr with
  | init env pool evs tn_int qm_int built =>
    refine ⟨?_, rfl⟩
    show MutexState.free = mutex_at (boot pool).workers[i]?
    cases hw : (boot pool).workers[i]? with
    | none => rfl
    | some w =>
      have hmem : w ∈ List.replicate pool.thread_num.toNat WorkerPc.ready :=
        List.getElem?_mem hw
      rw [List.eq_of_mem_replicate hmem]
      rfl
  | step s s1 h a evs _ move ih =>
    exact LStep_mutex a evs s s1 move h i ih

/-- C13, callbacks run without the pool mutex: along every run, no worker has
called a callback while holding the mutex, and a worker that is about to call
the callback of the node it dequeued does not hold the mutex; the step of
`threadpool_function` that dequeues, from `pthread_mutex_lock` or from a wakeup
inside `pthread_cond_wait`, ends with `pthread_mutex_unlock`, and the step that
calls the callback makes no other library call than the `free` of the node. -/
theorem callbacks_run_unlocked (thread_num queue_max_num : Int) (s : System)
    (h : Nat → List Event) (run : Traced thread_num queue_max_num s h)
    (i : Nat) :
    locked_calls MutexState.free (h i) = [] ∧
      (∀ pjob, s.workers[i]? = some (WorkerPc.running pjob) →
        mutex_state MutexState.free (h i) = MutexState.free) ∧
      (∀ pjob pool1 evs,
        threadpool_function s.pool s.heap
          = some (WorkerOutcome.dequeued pjob, pool1, evs) →
        evs.getLast? = some Event.unlock ∧
          mutex_state MutexState.free evs = MutexState.free ∧
          locked_calls MutexState.free evs = []) ∧
      (∀ pjob pool1 evs,
        threadpool_function_loop s.pool s.heap
          = some (WorkerOutcome.dequeued pjob, pool1, evs) →
        evs.getLast? = some Event.unlock ∧
          mutex_state MutexState.blocked evs = MutexState.free ∧
          locked_calls MutexState.blocked evs = []) ∧
      (∀ pjob c heap1 evs,
        threadpool_function_run s.heap pjob = some (c, heap1, evs) →
        evs = [Event.call c.1 c.2, Event.free pjob] ∧
          locked_calls MutexState.free evs = []) := by
  obtain ⟨h1, h2⟩ := mutex_invariant thread_num queue_max_num s h run i
  have last : ∀ pjob pool1 evs,
      threadpool_function_loop s.pool s.heap
        = some (WorkerOutcome.dequeued pjob, pool1, evs) →
      evs.getLast? = some Event.unlock := by
    intro pjob pool1 evs hrun
    obtain ⟨_, he⟩ := function_loop_dequeue_events _ _ _ _ _ hrun
    rw [he]
    simp
  refine ⟨h2, ?_, ?_, ?_, ?_⟩
  · intro pjob hp
    rw [h1, hp]
    rfl
  · intro pjob pool1 evs hrun
    obtain ⟨evs0, he, run0⟩ := function_entry _ _ _ _ _ hrun
    obtain ⟨m1, m2⟩ := function_loop_mutex _ _ _ _ _ MutexState.held rfl run0
    have hl := last pjob pool1 evs0 run0
    subst he
    refine ⟨?_, m1, m2⟩
    cases evs0 with
    | nil => simp at hl
    | cons e evs0 => rw [List.getLast?_cons_cons]; exact hl
  · intro pjob pool1 evs hrun
    obtain ⟨m1, m2⟩ := function_loop_mutex _ _ _ _ _ MutexState.blocked rfl hrun
    exact ⟨last pjob pool1 evs hrun, m1, m2⟩
  · intro pjob c heap1 evs hrun
    unfold threadpool_function_run at hrun
    cases hnd : load s.heap pjob with
    | none => rw [hnd] at hrun; simp at hrun
    | some nd =>
      rw [hnd] at hrun
      simp only [Option.some.injEq, Prod.mk.injEq] at hrun
      obtain ⟨hc, _, he⟩ := hrun
      rw [← he, ← hc]
      exact ⟨rfl, rfl⟩

/-! ## The run with the library calls of its worker -/

theorem run2_traced : Traced 1 2 run2 (fun _ => []) :=
  Traced.step run1 run2 (fun _ => []) none
    [Event.lock, Event.malloc 200, Event.unlock]
    (Traced.step run0 run1 (fun _ => []) none
      [Event.lock, Event.malloc 100, Event.broadcast Cond.queue_not_empty,
       Event.unlock]
      (Traced.init env_ok pool_1_2 [Event.create 0] (by decide) (by decide)
        (by decide))
      (LStep.add_call run0 7 9 100 (AddOutcome.returned 0) run1.pool run1.heap
        [Event.lock, Event.malloc 100, Event.broadcast Cond.queue_not_empty,
         Event.unlock]
        (by decide) (by decide) (by decide)))
    (LStep.add_call run1 8 10 200 (AddOutcome.returned 0) run2.pool run2.heap
      [Event.lock, Event.malloc 200, Event.unlock]
      (by decide) (by decide) (by decide))

theorem run3_traced : Traced 1 2 run3 run3_calls :=
  Traced.step run2 run3 (fun _ => []) (some 0)
    [Event.lock, Event.broadcast Cond.queue_not_full, Event.unlock] run2_traced
    (LStep.worker_lock run2 0 (WorkerOutcome.dequeued 100) run3.pool
      [Event.lock, Event.broadcast Cond.queue_not_full, Event.unlock]
      (by decide) (by decide) (by decide))

theorem run4_traced : Traced 1 2 run4 run4_calls :=
  Traced.step run3 run4 run3_calls (some 0) [Event.call 7 9, Event.free 100]
    run3_traced
    (LStep.worker_run run3 0 100 (7, 9) run4.heap
      [Event.call 7 9, Event.free 100] (by decide) (by decide) (by decide))

theorem run0_waiting_reachable : Reachable 1 2 run0_waiting :=
  Reachable.step run0 run0_waiting run0_reachable
    (Step.worker_lock run0 0 WorkerOutcome.blocked run0.pool
      [Event.lock, Event.wait Cond.queue_not_empty]
      (by decide) (by decide) (by decide))

/-! ## The later claims at the run -/

/-- C11 at the full queue of the run. -/
theorem queue_shape_witness :
    Reachable 1 2 run2 ∧ run2.pool.queue_cur_num ≠ 0 ∧
      ((run2.pool.head = 0 ↔ run2.pool.queue_cur_num = 0) ∧
        (run2.pool.queue_cur_num ≠ 0 ∨ run2.pool.head ≠ 0 →
          ∃ nd, load run2.heap run2.pool.tail = some nd ∧ nd.next = 0)) :=
  ⟨run2_reachable, by decide, queue_shape 1 2 run2 run2_reachable⟩

/-- C12 for one worker, capacity four and every allocation succeeding. -/
theorem init_result_witness :
    ∃ pool evs,
      threadpool_init 1 4 env_ok = (some pool, evs) ∧
      pool.head = 0 ∧ pool.tail = 0 ∧ pool.queue_cur_num = 0 ∧
      queue_nodes pool [] = [] ∧
      pool.queue_close = 0 ∧ pool.pool_close = 0 ∧
      pool.thread_num = 1 ∧ pool.queue_max_num = 4 ∧
      evs = (List.range (1 : Int).toNat).map Event.create :=
  (init_result 1 4 env_ok).2 (by decide)

/-- C13 in the run: when the worker is about to call callback 7 it does not
hold the mutex, and after the call no callback was called with the mutex
held. -/
theorem callbacks_run_unlocked_witness :
    Traced 1 2 run3 run3_calls ∧ Traced 1 2 run4 run4_calls ∧
      run3.workers[0]? = some (WorkerPc.running 100) ∧
      run4_calls 0 =
        [Event.lock, Event.broadcast Cond.queue_not_full, Event.unlock,
         Event.call 7 9, Event.free 100] ∧
      mutex_state MutexState.free (run3_calls 0) = MutexState.free ∧
      locked_calls MutexState.free (run4_calls 0) = [] :=
  ⟨run3_traced, run4_traced, rfl, rfl,
    (callbacks_run_unlocked 1 2 run3 run3_calls run3_traced 0).2.1 100 rfl,
    (callbacks_run_unlocked 1 2 run4 run4_calls run4_traced 0).1⟩

/-- C14 for one worker and capacity four. -/
theorem empty_drain_fast_path_witness :
    threadpool_init 1 4 env_ok = (some pool_1_4, [Event.create 0]) ∧
      threadpool_destory pool_1_4
        = (DestroyOutcome.joining,
            { pool_1_4 with queue_close := 1, pool_close := 1 },
            [Event.lock, Event.unlock, Event.broadcast Cond.queue_not_full,
             Event.broadcast Cond.queue_not_empty]) ∧
      (∃ s, Reachable 1 4 s ∧ s.destroyer = DestroyPc.returned ∧
        s.accepted = []) :=
  ⟨by decide,
    (empty_drain_fast_path 1 4 env_ok pool_1_4 [Event.create 0] (by decide)
      (by decide) (by decide)).1,
    (empty_drain_fast_path 1 4 env_ok pool_1_4 [Event.create 0] (by decide)
      (by decide) (by decide)).2.2⟩

/-- C15 when the worker of the run waits on the empty queue. -/
theorem no_missed_wakeup_witness :
    Reachable 1 2 run0_waiting ∧
      run0_waiting.workers[0]? = some (WorkerPc.waiting false) ∧
      run0_waiting.pool.queue_cur_num = 0 :=
  ⟨run0_waiting_reachable, rfl,
    (no_missed_wakeup 1 2 run0_waiting run0_waiting_reachable).1 0 rfl⟩

/-- C16 at the first dequeue of the run, from the full queue. -/
theorem dequeue_signalling_witness :
    Reachable 1 2 run2 ∧ (0 : Int) < 2 ∧
      threadpool_function_loop run2.pool run2.heap
        = some (WorkerOutcome.dequeued 100, run3.pool,
            [Event.broadcast Cond.queue_not_full, Event.unlock]) ∧
      (100 = run2.pool.head ∧
        queue_nodes run2.pool run2.heap = 100 :: queue_nodes run3.pool run2.heap ∧
        run3.pool.queue_cur_num = run2.pool.queue_cur_num - 1 ∧
        (Event.signal Cond.queue_empty ∈
            [Event.broadcast Cond.queue_not_full, Event.unlock] ↔
          run3.pool.queue_cur_num = 0) ∧
        (run3.pool.queue_cur_num = 0 →
          run3.pool.head = 0 ∧ run3.pool.tail = 0) ∧
        (Event.broadcast Cond.queue_not_full ∈
            [Event.broadcast Cond.queue_not_full, Event.unlock] ↔
          run2.pool.queue_cur_num = run2.pool.queue_max_num) ∧
        [Event.broadcast Cond.queue_not_full, Event.unlock].getLast?
          = some Event.unlock ∧
        threadpool_function run2.pool run2.heap
          = some (WorkerOutcome.dequeued 100, run3.pool,
              Event.lock ::
                [Event.broadcast Cond.queue_not_full, Event.unlock])) :=
  ⟨run2_reachable, by decide, by decide,
    dequeue_signalling 1 2 run2 100 run3.pool
      [Event.broadcast Cond.queue_not_full, Event.unlock] run2_reachable
      (by decide) (by decide)⟩

/-- C17 on a pool with two queued jobs and `pool_close` set. -/
theorem stop_takes_priority_witness :
    run2_closed.pool.pool_close ≠ 0 ∧ run2_closed.pool.queue_cur_num = 2 ∧
      threadpool_function run2_closed.pool run2_closed.heap
        = some (WorkerOutcome.exited, run2_closed.pool,
            [Event.lock, Event.unlock, Event.thread_exit]) :=
  ⟨by decide, rfl, (stop_takes_priority run2_closed 0 (by decide)).2.1⟩

/-- C18 while the destroyer of the run waits for the drain. -/
theorem shutdown_phases_ordered_witness :
    Reachable 1 2 run5 ∧
      ((run5.pool.pool_close ≠ 0 → run5.pool.queue_close ≠ 0) ∧
        ((run5.pool.queue_close = 0 ∧ run5.pool.pool_close = 0) ∨
          (run5.pool.queue_close = 1 ∧ run5.pool.pool_close = 0) ∨
          (run5.pool.queue_close = 1 ∧ run5.pool.pool_close = 1)) ∧
        (∀ s1, Step run5 s1 →
          run5.pool.queue_close ≤ s1.pool.queue_close ∧
            run5.pool.pool_close ≤ s1.pool.pool_close)) :=
  ⟨run5_reachable, shutdown_phases_ordered 1 2 run5 run5_reachable⟩

/-- C19 at the full queue of the run, and at the dequeue of its last job. -/
theorem counter_matches_list_witness :
    Reachable 1 2 run2 ∧ (0 : Int) ≤ 2 ∧
      run2.pool.queue_cur_num = (queue_nodes run2.pool run2.heap).length ∧
      (queue_nodes run2.pool run2.heap).getLast? = some run2.pool.tail ∧
      queue_nodes run5.pool run5.heap = [200] :=
  ⟨run2_reachable, by decide,
    (counter_matches_list 1 2 run2 run2_reachable (by decide)).1,
    (counter_matches_list 1 2 run2 run2_reachable (by decide)).2.1 (by decide),
    ((counter_matches_list 1 2 run5 run5_reachable (by decide)).2.2 200
      run6.pool [Event.signal Cond.queue_empty, Event.unlock] (by decide)
      (by decide)).1⟩

end ThreadPool
